import Mathlib

/-!
Morphosis: quaternion fractal sampler and marching-cubes front end.

A shallow embedding of the scalar-field sampler (`srcs/sample_julia.c`,
`srcs/mathematical_enhancements.c`), of the marching-cubes triangulator and
the triangle storage (`srcs/polygonisation.c`, `srcs/utils.c`), and of the
parameter handling (`srcs/init.c`, `srcs/gl_utils.c`).

Conventions of the embedding.

* C `float` and `double` values are elements of one linearly ordered field `F`
  (exact arithmetic): the casts between the two are the identity, and the
  literals `0.1f`, `0.5f`, `4.0f` are the numbers 1/10, 1/2, 4.  Every
  definition is computable for a computable field such as `ℚ`.
* C `int` is `Int` (exact: signed overflow is undefined in C, and none occurs
  for a supersampling factor whose cube fits an `int`), `uint` loop bounds are
  `Nat`.  Integer division is the truncating `Int.tdiv`.
* `sinf` of the C math library is a parameter `sinf : F → F`.
* A function that receives `t_data *data` and writes through it returns the
  data state next to its value.
-/

namespace Morphosis

/-! ## Data model (`includes/lib_complex.h`, `includes/structures.h`) -/

/-- The `float3` (and `double3`) vector of `lib_complex.h`. -/
structure float3 (F : Type) where
  x : F
  y : F
  z : F
deriving DecidableEq

/-- The `float4` of `lib_complex.h`; `cl_quat` and `cl_quat_d` are this type. -/
structure cl_quat (F : Type) where
  x : F
  y : F
  z : F
  w : F
deriving DecidableEq

/-- The `t_julia` parameter block. -/
structure t_julia (F : Type) where
  max_iter : Nat
  threshold : F
  w : F
  c : cl_quat F
deriving DecidableEq

/-- The fields of `t_fract` that the sampler reads. -/
structure t_fract (F : Type) where
  step_size : F
  julia : t_julia F
deriving DecidableEq

/-- The fields of `t_data` that the sampler reads or writes
(`structures.h`, the blocks "Deep zoom and mathematical enhancements",
"Alternative fractal support" and "Advanced sampling"). -/
structure t_data (F : Type) where
  fract : t_fract F
  zoom_level : F
  adaptive_grid : Int
  max_grid_depth : Int
  detail_threshold : F
  use_double_precision : Int
  fractal_type : Int
  quaternion_formula : Int
  supersampling : Int
  adaptive_sampling : Int
  progressive_refinement : Int
deriving DecidableEq

section Evaluators

variable {F : Type} [LinearOrderedField F]

/-! ## Base evaluators -/

/-- The loop of `sample_4D_Julia_optimized` (`sample_julia.c:89-115`): the
first argument is the number of iterations still to run. -/
def sample_4D_Julia_optimized_loop (c : cl_quat F) : Nat → cl_quat F → F
  | 0, _ => 1
  | n + 1, z =>
    let zx := z.x
    let zy := z.y
    let zz := z.z
    let zw := z.w
    let z1 : cl_quat F :=
      { x := (zx * zx) - (zy * zy) - (zz * zz) - (zw * zw) + c.x
        y := 2 * (zx * zy) + c.y
        z := 2 * (zx * zz) + c.z
        w := 2 * (zx * zw) + c.w }
    let mag_sq := (z1.x * z1.x) + (z1.y * z1.y) + (z1.z * z1.z) + (z1.w * z1.w)
    if mag_sq > 4 then 0 else sample_4D_Julia_optimized_loop c n z1

/-- The function `sample_4D_Julia_optimized` of `sample_julia.c:71-116`. -/
def sample_4D_Julia_optimized (julia : t_julia F) (pos : float3 F) : F :=
  sample_4D_Julia_optimized_loop julia.c julia.max_iter
    { x := pos.x, y := pos.y, z := pos.z, w := julia.w }

/-- The loop of `sample_4D_Julia_deep_zoom`
(`mathematical_enhancements.c:57-79`). -/
def sample_4D_Julia_deep_zoom_loop (c : cl_quat F) : Nat → cl_quat F → F
  | 0, _ => 1
  | n + 1, z =>
    let zx := z.x
    let zy := z.y
    let zz := z.z
    let zw := z.w
    let z1 : cl_quat F :=
      { x := (zx * zx) - (zy * zy) - (zz * zz) - (zw * zw) + c.x
        y := 2 * (zx * zy) + c.y
        z := 2 * (zx * zz) + c.z
        w := 2 * (zx * zw) + c.w }
    let mag_sq := (z1.x * z1.x) + (z1.y * z1.y) + (z1.z * z1.z) + (z1.w * z1.w)
    if mag_sq > 4 then 0 else sample_4D_Julia_deep_zoom_loop c n z1

/-- The function `sample_4D_Julia_deep_zoom` of
`mathematical_enhancements.c:38-80`. -/
def sample_4D_Julia_deep_zoom (julia : t_julia F) (pos : float3 F) (zoom_level : F) : F :=
  sample_4D_Julia_deep_zoom_loop
    { x := julia.c.x, y := julia.c.y, z := julia.c.z, w := julia.c.w }
    julia.max_iter
    { x := pos.x / zoom_level, y := pos.y / zoom_level, z := pos.z / zoom_level,
      w := julia.w / zoom_level }

/-- The loop of `sample_4D_Mandelbrot`
(`mathematical_enhancements.c:107-129`). -/
def sample_4D_Mandelbrot_loop (c : cl_quat F) : Nat → cl_quat F → F
  | 0, _ => 1
  | n + 1, z =>
    let zx := z.x
    let zy := z.y
    let zz := z.z
    let zw := z.w
    let z1 : cl_quat F :=
      { x := (zx * zx) - (zy * zy) - (zz * zz) - (zw * zw) + c.x
        y := 2 * (zx * zy) + c.y
        z := 2 * (zx * zz) + c.z
        w := 2 * (zx * zw) + c.w }
    let mag_sq := (z1.x * z1.x) + (z1.y * z1.y) + (z1.z * z1.z) + (z1.w * z1.w)
    if mag_sq > 4 then 0 else sample_4D_Mandelbrot_loop c n z1

/-- The function `sample_4D_Mandelbrot` of
`mathematical_enhancements.c:88-130`. -/
def sample_4D_Mandelbrot (julia : t_julia F) (pos : float3 F) : F :=
  sample_4D_Mandelbrot_loop
    { x := pos.x, y := pos.y, z := pos.z, w := julia.w }
    julia.max_iter
    { x := julia.c.x * (1 / 10), y := julia.c.y * (1 / 10), z := julia.c.z * (1 / 10),
      w := julia.c.w * (1 / 10) }

/-- The `switch (formula)` of `sample_4D_Julia_alternative_formula`
(`mathematical_enhancements.c:164-214`): the term `z_new` before the constant
is added. -/
def alternative_formula_z_new (formula : Int) (z : cl_quat F) : cl_quat F :=
  let zx := z.x
  let zy := z.y
  let zz := z.z
  let zw := z.w
  if formula = 0 then
    { x := (zx * zx) - (zy * zy) - (zz * zz) - (zw * zw)
      y := 2 * (zx * zy)
      z := 2 * (zx * zz)
      w := 2 * (zx * zw) }
  else if formula = 1 then
    let z2 : cl_quat F :=
      { x := (zx * zx) - (zy * zy) - (zz * zz) - (zw * zw)
        y := 2 * (zx * zy)
        z := 2 * (zx * zz)
        w := 2 * (zx * zw) }
    { x := (zx * z2.x) - (zy * z2.y) - (zz * z2.z) - (zw * z2.w)
      y := (zx * z2.y) + (zy * z2.x) + (zz * z2.w) - (zw * z2.z)
      z := (zx * z2.z) - (zy * z2.w) + (zz * z2.x) + (zw * z2.y)
      w := (zx * z2.w) + (zy * z2.z) - (zz * z2.y) + (zw * z2.x) }
  else if formula = 2 then
    { x := (zx * zx) - (zy * zy) - (zz * zz) - (zw * zw) + zx
      y := 2 * (zx * zy) + zy
      z := 2 * (zx * zz) + zz
      w := 2 * (zx * zw) + zw }
  else if formula = 3 then
    let mag_sq_z := (zx * zx) + (zy * zy) + (zz * zz) + (zw * zw)
    { x := mag_sq_z - ((zx * zx) - (zy * zy) - (zz * zz) - (zw * zw))
      y := -2 * (zx * zy)
      z := -2 * (zx * zz)
      w := -2 * (zx * zw) }
  else
    { x := (zx * zx) - (zy * zy) - (zz * zz) - (zw * zw)
      y := 2 * (zx * zy)
      z := 2 * (zx * zz)
      w := 2 * (zx * zw) }

/-- The loop of `sample_4D_Julia_alternative_formula`
(`mathematical_enhancements.c:159-228`), escape constant `16.0f`. -/
def sample_4D_Julia_alternative_formula_loop (formula : Int) (c : cl_quat F) :
    Nat → cl_quat F → F
  | 0, _ => 1
  | n + 1, z =>
    let z_new := alternative_formula_z_new formula z
    let z1 : cl_quat F :=
      { x := z_new.x + c.x, y := z_new.y + c.y, z := z_new.z + c.z, w := z_new.w + c.w }
    let mag_sq := (z1.x * z1.x) + (z1.y * z1.y) + (z1.z * z1.z) + (z1.w * z1.w)
    if mag_sq > 16 then 0 else sample_4D_Julia_alternative_formula_loop formula c n z1

/-- The function `sample_4D_Julia_alternative_formula` of
`mathematical_enhancements.c:141-229`. -/
def sample_4D_Julia_alternative_formula (julia : t_julia F) (pos : float3 F)
    (formula : Int) : F :=
  sample_4D_Julia_alternative_formula_loop formula
    { x := julia.c.x, y := julia.c.y, z := julia.c.z, w := julia.c.w }
    julia.max_iter
    { x := pos.x, y := pos.y, z := pos.z, w := julia.w }

end Evaluators

section Enhanced

variable {F : Type} [LinearOrderedField F]

mutual

/-- The function `sample_with_supersampling` of
`mathematical_enhancements.c:319-360`.  The three nested `for` loops run over
`0 .. samples - 1`; the accumulator is `total` together with the data state. -/
def sample_with_supersampling (sinf : F → F) (data : t_data F) (pos : float3 F) :
    F × t_data F :=
  if data.supersampling ≤ 1 then
    let original_supersampling := data.supersampling
    let data1 := { data with supersampling := 1 }
    let r := sample_fractal_enhanced sinf data1 pos
    let result := r.1
    let data2 := { r.2 with supersampling := original_supersampling }
    (result, data2)
  else
    let samples := data.supersampling
    let offset := data.fract.step_size / ((samples * 2 : Int) : F)
    let acc :=
      (List.range samples.toNat).foldl (fun (accx : F × t_data F) (x : Nat) =>
        (List.range samples.toNat).foldl (fun (accy : F × t_data F) (y : Nat) =>
          (List.range samples.toNat).foldl (fun (accz : F × t_data F) (z : Nat) =>
            let total := accz.1
            let data0 := accz.2
            let sample_pos : float3 F :=
              { x := pos.x + (((x : Int) - Int.tdiv samples 2 : Int) : F) * offset
                y := pos.y + (((y : Int) - Int.tdiv samples 2 : Int) : F) * offset
                z := pos.z + (((z : Int) - Int.tdiv samples 2 : Int) : F) * offset }
            let original_supersampling := data0.supersampling
            let data1 := { data0 with supersampling := 1 }
            let r := sample_fractal_enhanced sinf data1 sample_pos
            let sample_value := r.1
            let data2 := { r.2 with supersampling := original_supersampling }
            (total + sample_value, data2)) accy) accx) ((0 : F), data)
    (acc.1 / ((samples * samples * samples : Int) : F), acc.2)
termination_by 1
decreasing_by all_goals simp

/-- The function `sample_fractal_enhanced` of
`mathematical_enhancements.c:372-422`. -/
def sample_fractal_enhanced (sinf : F → F) (data : t_data F) (pos : float3 F) :
    F × t_data F :=
  if h : data.supersampling > 1 then
    sample_with_supersampling sinf data pos
  else
    let zoomed_pos : float3 F :=
      if data.zoom_level > 1 then
        { x := pos.x / data.zoom_level, y := pos.y / data.zoom_level,
          z := pos.z / data.zoom_level }
      else pos
    if data.fractal_type = 0 then
      if data.use_double_precision ≠ 0 ∧ data.zoom_level > 1000 then
        let pos_d : float3 F := { x := zoomed_pos.x, y := zoomed_pos.y, z := zoomed_pos.z }
        (sample_4D_Julia_deep_zoom data.fract.julia pos_d data.zoom_level, data)
      else if data.quaternion_formula ≠ 0 then
        (sample_4D_Julia_alternative_formula data.fract.julia zoomed_pos
          data.quaternion_formula, data)
      else
        (sample_4D_Julia_optimized data.fract.julia zoomed_pos, data)
    else if data.fractal_type = 1 then
      (sample_4D_Mandelbrot data.fract.julia zoomed_pos, data)
    else if data.fractal_type = 2 then
      let julia_val := sample_4D_Julia_optimized data.fract.julia zoomed_pos
      let mandel_val := sample_4D_Mandelbrot data.fract.julia zoomed_pos
      let blend := 1 / 2 + 1 / 2 * sinf (zoomed_pos.x + zoomed_pos.y + zoomed_pos.z)
      (julia_val * blend + mandel_val * (1 - blend), data)
    else
      (sample_4D_Julia_optimized data.fract.julia zoomed_pos, data)
termination_by (if data.supersampling > 1 then 2 else 0)
decreasing_by simp [h]

end

end Enhanced

/-! ## Cube classification (`srcs/polygonisation.c`) -/

section Cube

variable {F : Type} [LinearOrderedField F]

/-- The function `getCubeIndex` of `polygonisation.c:4-26`.  The array
`v_val` is a map from index to value (the indices `pos + k` of a cube lie
inside the array, where the `uint` addition does not wrap), a C `float` is
true when it is not zero, and `|=` on `uint` is the bitwise or of `Nat`. -/
def getCubeIndex (v_val : Nat → F) (pos : Nat) : Nat :=
  let cubeindex := 0
  let cubeindex := if v_val (pos + 0) ≠ 0 then cubeindex ||| 1 else cubeindex
  let cubeindex := if v_val (pos + 1) ≠ 0 then cubeindex ||| 2 else cubeindex
  let cubeindex := if v_val (pos + 2) ≠ 0 then cubeindex ||| 4 else cubeindex
  let cubeindex := if v_val (pos + 3) ≠ 0 then cubeindex ||| 8 else cubeindex
  let cubeindex := if v_val (pos + 4) ≠ 0 then cubeindex ||| 16 else cubeindex
  let cubeindex := if v_val (pos + 5) ≠ 0 then cubeindex ||| 32 else cubeindex
  let cubeindex := if v_val (pos + 6) ≠ 0 then cubeindex ||| 64 else cubeindex
  let cubeindex := if v_val (pos + 7) ≠ 0 then cubeindex ||| 128 else cubeindex
  cubeindex

end Cube

/-! ## Auxiliary definitions used in the statements -/

section Aux

variable {F : Type} [LinearOrderedField F]

/-- Squared magnitude `x² + y² + z² + w²`, the quantity every evaluator loop
compares with its escape constant. -/
def mag_sq (q : cl_quat F) : F :=
  (q.x * q.x) + (q.y * q.y) + (q.z * q.z) + (q.w * q.w)

/-- One step `z ← z² + c` with the inlined squaring of the evaluator loops. -/
def julia_step (c : cl_quat F) (z : cl_quat F) : cl_quat F :=
  { x := (z.x * z.x) - (z.y * z.y) - (z.z * z.z) - (z.w * z.w) + c.x
    y := 2 * (z.x * z.y) + c.y
    z := 2 * (z.x * z.z) + c.z
    w := 2 * (z.x * z.w) + c.w }

/-- One step `z ← z_new + c` of the alternative-formula loop. -/
def alternative_step (formula : Int) (c : cl_quat F) (z : cl_quat F) : cl_quat F :=
  { x := (alternative_formula_z_new formula z).x + c.x
    y := (alternative_formula_z_new formula z).y + c.y
    z := (alternative_formula_z_new formula z).z + c.z
    w := (alternative_formula_z_new formula z).w + c.w }

/-- The k-th iterate `z_k` of a step function started at `z_0 = z`. -/
def orbit (step : cl_quat F → cl_quat F) (z : cl_quat F) : Nat → cl_quat F
  | 0 => z
  | k + 1 => step (orbit step z k)

/-- The escape iteration in the words of the specification: iterate `step` at
most `n` times and return 0 as soon as the squared magnitude exceeds `thr`,
1 when it never does. -/
def escape_iteration (step : cl_quat F → cl_quat F) (thr : F) : Nat → cl_quat F → F
  | 0, _ => 1
  | n + 1, z =>
    if mag_sq (step z) > thr then 0 else escape_iteration step thr n (step z)

/-- The data state with `fract->julia->max_iter` replaced by `K`. -/
def set_max_iter (data : t_data F) (K : Nat) : t_data F :=
  { data with fract := { data.fract with julia := { data.fract.julia with max_iter := K } } }

/-- The position after the zoom scaling of `sample_fractal_enhanced`
(`mathematical_enhancements.c:381-387`). -/
def zoomed_pos (data : t_data F) (pos : float3 F) : float3 F :=
  if data.zoom_level > 1 then
    { x := pos.x / data.zoom_level, y := pos.y / data.zoom_level,
      z := pos.z / data.zoom_level }
  else pos

/-- The blend weight of the Hybrid kind (`mathematical_enhancements.c:415`). -/
def hybrid_blend (sinf : F → F) (p : float3 F) : F :=
  1 / 2 + 1 / 2 * sinf (p.x + p.y + p.z)

/-- The value computed by `sample_fractal_enhanced` below its supersampling
test (`mathematical_enhancements.c:380-421`). -/
def direct_sample (sinf : F → F) (data : t_data F) (pos : float3 F) : F :=
  if data.fractal_type = 0 then
    if data.use_double_precision ≠ 0 ∧ data.zoom_level > 1000 then
      sample_4D_Julia_deep_zoom data.fract.julia (zoomed_pos data pos) data.zoom_level
    else if data.quaternion_formula ≠ 0 then
      sample_4D_Julia_alternative_formula data.fract.julia (zoomed_pos data pos)
        data.quaternion_formula
    else
      sample_4D_Julia_optimized data.fract.julia (zoomed_pos data pos)
  else if data.fractal_type = 1 then
    sample_4D_Mandelbrot data.fract.julia (zoomed_pos data pos)
  else if data.fractal_type = 2 then
    sample_4D_Julia_optimized data.fract.julia (zoomed_pos data pos)
        * hybrid_blend sinf (zoomed_pos data pos)
      + sample_4D_Mandelbrot data.fract.julia (zoomed_pos data pos)
        * (1 - hybrid_blend sinf (zoomed_pos data pos))
  else
    sample_4D_Julia_optimized data.fract.julia (zoomed_pos data pos)

/-- The sub-sample position of loop indices `x y z`
(`mathematical_enhancements.c:334, 342-346`). -/
def supersampling_sample_pos (data : t_data F) (pos : float3 F) (x y z : Nat) : float3 F :=
  { x := pos.x + (((x : Int) - Int.tdiv data.supersampling 2 : Int) : F)
      * (data.fract.step_size / ((data.supersampling * 2 : Int) : F))
    y := pos.y + (((y : Int) - Int.tdiv data.supersampling 2 : Int) : F)
      * (data.fract.step_size / ((data.supersampling * 2 : Int) : F))
    z := pos.z + (((z : Int) - Int.tdiv data.supersampling 2 : Int) : F)
      * (data.fract.step_size / ((data.supersampling * 2 : Int) : F)) }

/-- The origin of 3-space. -/
def origin (F : Type) [LinearOrderedField F] : float3 F :=
  { x := 0, y := 0, z := 0 }

/-- A concrete data state: the `init_data` defaults (`init.c:82-95`) with the
Julia constant `c = (3,0,0,0)`, one iteration and grid step 4. -/
def probe_data (F : Type) [LinearOrderedField F] : t_data F :=
  { fract :=
      { step_size := 4
        julia := { max_iter := 1, threshold := 2, w := 0, c := { x := 3, y := 0, z := 0, w := 0 } } }
    zoom_level := 1
    adaptive_grid := 0
    max_grid_depth := 3
    detail_threshold := 1 / 10
    use_double_precision := 0
    fractal_type := 0
    quaternion_formula := 0
    supersampling := 1
    adaptive_sampling := 0
    progressive_refinement := 0 }

/-- A concrete deep-zoom state: Julia kind, double precision requested, zoom
level 2048, constant `c = 0`, one iteration, no supersampling. -/
def deep_zoom_data (F : Type) [LinearOrderedField F] : t_data F :=
  { fract :=
      { step_size := 4
        julia := { max_iter := 1, threshold := 2, w := 0, c := { x := 0, y := 0, z := 0, w := 0 } } }
    zoom_level := 2048
    adaptive_grid := 0
    max_grid_depth := 3
    detail_threshold := 1 / 10
    use_double_precision := 1
    fractal_type := 0
    quaternion_formula := 0
    supersampling := 1
    adaptive_sampling := 0
    progressive_refinement := 0 }

/-- The body of `getCubeIndex` as a function of the eight corner tests. -/
def cube_index_of_bits (b0 b1 b2 b3 b4 b5 b6 b7 : Bool) : Nat :=
  let cubeindex := 0
  let cubeindex := if b0 then cubeindex ||| 1 else cubeindex
  let cubeindex := if b1 then cubeindex ||| 2 else cubeindex
  let cubeindex := if b2 then cubeindex ||| 4 else cubeindex
  let cubeindex := if b3 then cubeindex ||| 8 else cubeindex
  let cubeindex := if b4 then cubeindex ||| 16 else cubeindex
  let cubeindex := if b5 then cubeindex ||| 32 else cubeindex
  let cubeindex := if b6 then cubeindex ||| 64 else cubeindex
  let cubeindex := if b7 then cubeindex ||| 128 else cubeindex
  cubeindex

end Aux

/-! ## Triangulator and triangle storage (`srcs/polygonisation.c`, `srcs/utils.c`)

Arrays reached through a pointer are maps from index to value; a pointer that
may be `NULL` is an `Option`.  `uint` values are `Nat`, and `uint` additions
and multiplications that the storage code performs are reduced modulo
`4294967296`.  Allocations are taken to succeed, and the contents of a freshly
allocated block are a parameter (`fresh`, `fresh_verts`); the one exception is
the `realloc` of `add_triangle_to_flat`: whether it returns `NULL` is a
parameter, and the size in bytes of the block it manages is part of the data
state. -/

section Mesh

variable {F : Type} [LinearOrderedField F]

/-- The `uint2` of `lib_complex.h`. -/
structure uint2 where
  x : Nat
  y : Nat
deriving DecidableEq

/-- One triangle: the block of three `float3` behind a `float3 *`. -/
structure triangle (F : Type) where
  v0 : float3 F
  v1 : float3 F
  v2 : float3 F
deriving DecidableEq

/-- The fields of `t_data` that the triangulator and the triangle storage read
or write (`structures.h:108-122`).  `flat_triangles_size` is not a field of the
C structure: it records the heap block behind the pointer `flat_triangles`,
`none` when the pointer is `NULL` and otherwise the size of the block in bytes.
`flat_triangles` gives the value read at each element index, inside the block
and past its end. -/
structure t_data_mesh (F : Type) where
  len : uint2
  triangle_pool_size : Nat
  triangle_pool_used : Nat
  flat_triangles : Nat → float3 F
  flat_triangles_size : Option Nat
  flat_triangle_count : Nat
  flat_triangle_capacity : Nat
  mc_vertlist : Nat → float3 F

/-- The function `interpolate` of `polygonisation.c:28-44`. -/
def interpolate (p0 p1 : float3 F) (v0 v1 : F) : float3 F :=
  if v0 = 1 then p0
  else if v1 = 1 then p1
  else if v1 - v0 = 0 then p0
  else
    let mu := (1 - v0) / (v1 - v0)
    { x := p0.x + mu * (p1.x - p0.x)
      y := p0.y + mu * (p1.y - p0.y)
      z := p0.z + mu * (p1.z - p0.z) }

/-- The twelve guarded assignments of `get_vertices` (`polygonisation.c:53-76`),
repeated in `polygonise_optimized` (`polygonisation.c:192-215`), applied to the
vertex list `vertlist`.  The table `edgetable` of `look-up.h` is a
parameter. -/
def set_edge_vertices (edgetable : Nat → Nat) (cubeindex : Nat) (v_pos : Nat → float3 F)
    (v_val : Nat → F) (pos : Nat) (vertlist : Nat → float3 F) : Nat → float3 F :=
  let vertlist := if edgetable cubeindex &&& 1 ≠ 0 then
    Function.update vertlist 0
      (interpolate (v_pos (pos + 0)) (v_pos (pos + 1)) (v_val (pos + 0)) (v_val (pos + 1)))
    else vertlist
  let vertlist := if edgetable cubeindex &&& 2 ≠ 0 then
    Function.update vertlist 1
      (interpolate (v_pos (pos + 1)) (v_pos (pos + 2)) (v_val (pos + 1)) (v_val (pos + 2)))
    else vertlist
  let vertlist := if edgetable cubeindex &&& 4 ≠ 0 then
    Function.update vertlist 2
      (interpolate (v_pos (pos + 2)) (v_pos (pos + 3)) (v_val (pos + 2)) (v_val (pos + 3)))
    else vertlist
  let vertlist := if edgetable cubeindex &&& 8 ≠ 0 then
    Function.update vertlist 3
      (interpolate (v_pos (pos + 3)) (v_pos (pos + 0)) (v_val (pos + 3)) (v_val (pos + 0)))
    else vertlist
  let vertlist := if edgetable cubeindex &&& 16 ≠ 0 then
    Function.update vertlist 4
      (interpolate (v_pos (pos + 4)) (v_pos (pos + 5)) (v_val (pos + 4)) (v_val (pos + 5)))
    else vertlist
  let vertlist := if edgetable cubeindex &&& 32 ≠ 0 then
    Function.update vertlist 5
      (interpolate (v_pos (pos + 5)) (v_pos (pos + 6)) (v_val (pos + 5)) (v_val (pos + 6)))
    else vertlist
  let vertlist := if edgetable cubeindex &&& 64 ≠ 0 then
    Function.update vertlist 6
      (interpolate (v_pos (pos + 6)) (v_pos (pos + 7)) (v_val (pos + 6)) (v_val (pos + 7)))
    else vertlist
  let vertlist := if edgetable cubeindex &&& 128 ≠ 0 then
    Function.update vertlist 7
      (interpolate (v_pos (pos + 7)) (v_pos (pos + 4)) (v_val (pos + 7)) (v_val (pos + 4)))
    else vertlist
  let vertlist := if edgetable cubeindex &&& 256 ≠ 0 then
    Function.update vertlist 8
      (interpolate (v_pos (pos + 0)) (v_pos (pos + 4)) (v_val (pos + 0)) (v_val (pos + 4)))
    else vertlist
  let vertlist := if edgetable cubeindex &&& 512 ≠ 0 then
    Function.update vertlist 9
      (interpolate (v_pos (pos + 1)) (v_pos (pos + 5)) (v_val (pos + 1)) (v_val (pos + 5)))
    else vertlist
  let vertlist := if edgetable cubeindex &&& 1024 ≠ 0 then
    Function.update vertlist 10
      (interpolate (v_pos (pos + 2)) (v_pos (pos + 6)) (v_val (pos + 2)) (v_val (pos + 6)))
    else vertlist
  let vertlist := if edgetable cubeindex &&& 2048 ≠ 0 then
    Function.update vertlist 11
      (interpolate (v_pos (pos + 3)) (v_pos (pos + 7)) (v_val (pos + 3)) (v_val (pos + 7)))
    else vertlist
  vertlist

/-- The function `get_vertices` of `polygonisation.c:46-78`: the assignments
are made on a freshly allocated list, whose contents are `fresh_verts`. -/
def get_vertices (edgetable : Nat → Nat) (fresh_verts : Nat → float3 F) (cubeindex : Nat)
    (v_pos : Nat → float3 F) (v_val : Nat → F) (pos : Nat) : Nat → float3 F :=
  set_edge_vertices edgetable cubeindex v_pos v_val pos fresh_verts

/-- The function `alloc_float3_arr` of `utils.c:128-156`.  The result is
`NULL` for size 0; otherwise the entries `len->x .. size - 1` are fresh
blocks, and the other entries are those of `mem` (fresh memory when `mem` is
`NULL`). -/
def alloc_float3_arr (fresh : Nat → triangle F) (mem : Option (Nat → triangle F))
    (len : uint2) : Option (Nat → triangle F) :=
  let size := (len.x + len.y) % 4294967296
  if size = 0 then none
  else
    match mem with
    | none => some fresh
    | some mem => some (fun c => if len.x ≤ c ∧ c < size then fresh c else mem c)

/-- The copy loop of `arr_float3_cat` (`utils.c:179-185`); the first argument
is the number of iterations `res_c - to_c` still to run. -/
def arr_float3_cat_loop (f_from : Nat → triangle F) :
    Nat → Nat → Nat → (Nat → triangle F) → (Nat → triangle F)
  | 0, _, _, f_to => f_to
  | n + 1, to_c, from_c, f_to =>
    arr_float3_cat_loop f_from n (to_c + 1) (from_c + 1)
      (Function.update f_to to_c (f_from from_c))

/-- The function `arr_float3_cat` of `utils.c:164-200`, returning the array
and the updated `*len`.  The frees of the source (`utils.c:189-195`) do not
change any value that is returned. -/
def arr_float3_cat (fresh : Nat → triangle F) (f_from : Nat → triangle F)
    (f_to : Option (Nat → triangle F)) (len : uint2) :
    Option (Nat → triangle F) × uint2 :=
  let res_c := (len.x + len.y) % 4294967296
  let from_c := 0
  let to_c := len.x
  match alloc_float3_arr fresh f_to len with
  | none => (none, len)
  | some f_to =>
    let f_to := arr_float3_cat_loop f_from (res_c - to_c) to_c from_c f_to
    let len := { len with x := res_c }
    let len := { len with y := 0 }
    (some f_to, len)

/-- The function `package_triangles` of `polygonisation.c:80-95` for the table
row `row = tritable[cubeindex]`; `none` stands for the call of `error`.  A
table entry is used as an index through `Int.toNat`. -/
def package_triangles (row : List Int) (fresh : Nat → triangle F)
    (vertlist : Nat → float3 F) (i : Nat) : Option (Nat → triangle F) :=
  let len : uint2 := { x := 0, y := 1 }
  match alloc_float3_arr fresh none len with
  | none => none
  | some tris_new =>
    some (Function.update tris_new 0
      { v0 := vertlist (row.getD i (-1)).toNat
        v1 := vertlist (row.getD (i + 1) (-1)).toNat
        v2 := vertlist (row.getD (i + 2) (-1)).toNat })

/-- The `while` loop of `polygonise` and `polygonise_optimized`
(`polygonisation.c:137-147`, `218-228`) on the table row
`row = tritable[cubeindex]`.  The outer `none` stands for the call of `error`;
a read past the end of the row yields the sentinel -1, and `i + 3` does not
wrap because `i` is below the length of the row. -/
def polygonise_loop (row : List Int) (fresh : Nat → triangle F) (vertlist : Nat → float3 F)
    (i : Nat) (tris : Option (Nat → triangle F)) (len : uint2) :
    Option (Option (Nat → triangle F) × uint2) :=
  if h : row.getD i (-1) ≠ -1 then
    match package_triangles row fresh vertlist i with
    | none => none
    | some tris_new =>
      let len1 := { len with y := 1 }
      match arr_float3_cat fresh tris_new tris len1 with
      | (none, _) => none
      | (some tris1, len2) => polygonise_loop row fresh vertlist (i + 3) (some tris1) len2
  else some (tris, len)
termination_by row.length - i
decreasing_by
  have hi : i < row.length := by
    by_contra hge
    exact h (List.getD_eq_default _ _ (not_lt.mp hge))
  omega

/-- The function `polygonise` of `polygonisation.c:110-152`.  The tables
`edgetable` and `tritable` of `look-up.h` are parameters; `pos->x` is the
offset of the cube; the result is the returned array (`none` for `NULL`) and
the data state, and the outer `none` stands for the call of `error`. -/
def polygonise (edgetable : Nat → Nat) (tritable : Nat → List Int)
    (fresh_verts : Nat → float3 F) (fresh : Nat → triangle F)
    (v_pos : Nat → float3 F) (v_val : Nat → F) (pos : uint2) (data : t_data_mesh F) :
    Option (Option (Nat → triangle F) × t_data_mesh F) :=
  let cubeindex := getCubeIndex v_val pos.x
  if edgetable cubeindex = 0 then some (none, data)
  else
    let vertlist := get_vertices edgetable fresh_verts cubeindex v_pos v_val pos.x
    match polygonise_loop (tritable cubeindex) fresh vertlist 0 none { x := 0, y := 0 } with
    | none => none
    | some (tris, len) => some (tris, { data with len := { data.len with y := len.x } })

/-- The function `polygonise_optimized` of `polygonisation.c:166-233`: the
vertex list is the reused `data->mc_vertlist`, which the assignments
update in place. -/
def polygonise_optimized (edgetable : Nat → Nat) (tritable : Nat → List Int)
    (fresh : Nat → triangle F)
    (v_pos : Nat → float3 F) (v_val : Nat → F) (pos : uint2) (data : t_data_mesh F) :
    Option (Option (Nat → triangle F) × t_data_mesh F) :=
  let cubeindex := getCubeIndex v_val pos.x
  if edgetable cubeindex = 0 then some (none, data)
  else
    let vertlist := set_edge_vertices edgetable cubeindex v_pos v_val pos.x data.mc_vertlist
    let data := { data with mc_vertlist := vertlist }
    match polygonise_loop (tritable cubeindex) fresh vertlist 0 none { x := 0, y := 0 } with
    | none => none
    | some (tris, len) => some (tris, { data with len := { data.len with y := len.x } })

end Mesh

section Storage

variable {F : Type} [LinearOrderedField F]

/-- The pointer returned by `get_triangle_from_pool`: the address of the pool
slot `&data->triangle_pool[offset]`, or a block obtained from `malloc`. -/
inductive triangle_ptr where
  | pool_slot (offset : Nat)
  | fallback_malloc
deriving DecidableEq

/-- The function `init_triangle_pool` of `utils.c:9-23`; `cubes` is the value
of `pow(data->fract->grid_size, 3)` converted to `size_t`. -/
def init_triangle_pool (cubes : Nat) (data : t_data_mesh F) : t_data_mesh F :=
  { data with
    triangle_pool_size := (cubes * 5 * 3) % 4294967296
    triangle_pool_used := 0 }

/-- The function `get_triangle_from_pool` of `utils.c:31-42`. -/
def get_triangle_from_pool (data : t_data_mesh F) : triangle_ptr × t_data_mesh F :=
  if (data.triangle_pool_used + 3) % 4294967296 > data.triangle_pool_size then
    (triangle_ptr.fallback_malloc, data)
  else
    (triangle_ptr.pool_slot data.triangle_pool_used,
      { data with triangle_pool_used := (data.triangle_pool_used + 3) % 4294967296 })

/-- The function `reset_triangle_pool` of `utils.c:47-50`. -/
def reset_triangle_pool (data : t_data_mesh F) : t_data_mesh F :=
  { data with triangle_pool_used := 0 }

/-- The function `init_flat_triangles` of `utils.c:71-86`; `cubes` is the value
of `pow(data->fract->grid_size, 3)` converted to `size_t`, and `fresh_verts`
the contents of the allocated block.  The block has `vertices_needed *
sizeof(float3)` bytes, where `vertices_needed` is the `uint` product
`flat_triangle_capacity * 3` and `sizeof(float3) = 12`. -/
def init_flat_triangles (cubes : Nat) (fresh_verts : Nat → float3 F)
    (data : t_data_mesh F) : t_data_mesh F :=
  let data := { data with flat_triangle_capacity := (cubes * 5) % 4294967296 }
  let vertices_needed := (data.flat_triangle_capacity * 3) % 4294967296
  { data with
    flat_triangles := fresh_verts
    flat_triangles_size := some (vertices_needed * 12)
    flat_triangle_count := 0 }

/-- The number of bytes `new_size` that `add_triangle_to_flat` asks of
`realloc` when it expands (`utils.c:99-100`), with `sizeof(float3) = 12`. -/
def add_triangle_to_flat_new_size (data : t_data_mesh F) : Nat :=
  (((data.flat_triangle_capacity * 2) % 4294967296) * 3) % 4294967296 * 12

/-- The call `realloc(ptr, new_size)` of the C library on the block of
`float3` behind `ptr`, whose size in bytes is `old_size` (`none` for a `NULL`
pointer).  Whether the call returns `NULL` is decided by the library and is the
parameter `realloc_null` (out of memory; implementation-defined for a request
of 0 bytes).  Otherwise the result is a block of `new_size` bytes: an element
that lies wholly inside the old block and inside the new one keeps its value,
every other element has the value `fresh_verts` gives it.  The result is the
contents and the size of the new block, `none` for `NULL`. -/
def realloc (realloc_null : Option Nat → Nat → Bool) (fresh_verts : Nat → float3 F)
    (ptr : Nat → float3 F) (old_size : Option Nat) (new_size : Nat) :
    Option ((Nat → float3 F) × Nat) :=
  if realloc_null old_size new_size = true then none
  else
    some (fun i =>
        if 12 * (i + 1) ≤ old_size.getD 0 ∧ 12 * (i + 1) ≤ new_size then ptr i
        else fresh_verts i,
      new_size)

/-- The function `add_triangle_to_flat` of `utils.c:94-113`.  The result is
`none` when `realloc` returns `NULL` and `error` is called.  The three vertices
are stored at the elements `base_index`, `base_index + 1`, `base_index + 2`,
also when these lie past the end of the block. -/
def add_triangle_to_flat (realloc_null : Option Nat → Nat → Bool)
    (fresh_verts : Nat → float3 F) (data : t_data_mesh F) (vertices : triangle F) :
    Option (t_data_mesh F) :=
  let expanded : Option (t_data_mesh F) :=
    if data.flat_triangle_count ≥ data.flat_triangle_capacity then
      let data :=
        { data with flat_triangle_capacity := (data.flat_triangle_capacity * 2) % 4294967296 }
      let new_size := (data.flat_triangle_capacity * 3) % 4294967296 * 12
      (realloc realloc_null fresh_verts data.flat_triangles data.flat_triangles_size
          new_size).map
        (fun block =>
          { data with flat_triangles := block.1, flat_triangles_size := some block.2 })
    else some data
  expanded.map (fun data =>
    let base_index := (data.flat_triangle_count * 3) % 4294967296
    let data :=
      { data with
        flat_triangles :=
          Function.update
            (Function.update (Function.update data.flat_triangles base_index vertices.v0)
              (base_index + 1) vertices.v1)
            (base_index + 2) vertices.v2 }
    { data with flat_triangle_count := (data.flat_triangle_count + 1) % 4294967296 })

/-- The reset that `regenerate_fractal` performs before it recomputes the mesh
(`enhanced_rendering.c:174-175`). -/
def regenerate_fractal_reset (data : t_data_mesh F) : t_data_mesh F :=
  let data := reset_triangle_pool data
  { data with flat_triangle_count := 0 }

/-- The storage fields as `init_data` sets them (`init.c:63-75`): empty pool
and empty flat storage of capacity 0, the pointer `flat_triangles` being
`NULL`. -/
def init_data_mesh (F : Type) [LinearOrderedField F] : t_data_mesh F :=
  { len := { x := 0, y := 0 }
    triangle_pool_size := 0
    triangle_pool_used := 0
    flat_triangles := fun _ => origin F
    flat_triangles_size := none
    flat_triangle_count := 0
    flat_triangle_capacity := 0
    mc_vertlist := fun _ => origin F }

end Storage

section Refinement

variable {F : Type} [LinearOrderedField F]

/-- The `switch (data->fractal_type)` that `should_refine_grid_cell` evaluates
at each sample position (`mathematical_enhancements.c:265-290`). -/
def should_refine_sample (data : t_data F) (sample_pos : float3 F) : F :=
  if data.fractal_type = 0 then
    if data.use_double_precision ≠ 0 ∧ data.zoom_level > 1000 then
      let pos_d : float3 F := { x := sample_pos.x, y := sample_pos.y, z := sample_pos.z }
      sample_4D_Julia_deep_zoom data.fract.julia pos_d data.zoom_level
    else if data.quaternion_formula ≠ 0 then
      sample_4D_Julia_alternative_formula data.fract.julia sample_pos data.quaternion_formula
    else
      sample_4D_Julia_optimized data.fract.julia sample_pos
  else if data.fractal_type = 1 then
    sample_4D_Mandelbrot data.fract.julia sample_pos
  else
    sample_4D_Julia_optimized data.fract.julia sample_pos

/-- The function `should_refine_grid_cell` of
`mathematical_enhancements.c:237-311`; `sqrtf` of the C math library is a
parameter, and the result is the returned `int`. -/
def should_refine_grid_cell (sqrtf : F → F) (data : t_data F) (center : float3 F)
    (cell_size : F) (current_depth : Int) : Int :=
  if current_depth ≥ data.max_grid_depth then 0
  else
    let offsets : List (float3 F) :=
      [ { x := -cell_size / 2, y := -cell_size / 2, z := -cell_size / 2 },
        { x := cell_size / 2, y := -cell_size / 2, z := -cell_size / 2 },
        { x := -cell_size / 2, y := cell_size / 2, z := -cell_size / 2 },
        { x := cell_size / 2, y := cell_size / 2, z := -cell_size / 2 },
        { x := -cell_size / 2, y := -cell_size / 2, z := cell_size / 2 },
        { x := cell_size / 2, y := -cell_size / 2, z := cell_size / 2 },
        { x := -cell_size / 2, y := cell_size / 2, z := cell_size / 2 },
        { x := cell_size / 2, y := cell_size / 2, z := cell_size / 2 },
        { x := 0, y := 0, z := 0 } ]
    let samples : List F := offsets.map (fun o =>
      let sample_pos : float3 F :=
        { x := center.x + o.x, y := center.y + o.y, z := center.z + o.z }
      should_refine_sample data sample_pos)
    let mean := samples.foldl (fun mean s => mean + s) 0
    let mean := mean / 9
    let variance := samples.foldl (fun variance s =>
      let diff := s - mean
      variance + diff * diff) 0
    let variance := variance / 9
    let std_dev := sqrtf variance
    if std_dev > data.detail_threshold then 1 else 0

end Refinement

/-! ## Auxiliary definitions for the triangulator statements -/

section MeshAux

variable {F : Type} [LinearOrderedField F]

/-- The two corners of each of the 12 cube edges, in the edge numbering of
`get_vertices` (`polygonisation.c:53-76`). -/
def edge_corners : List (Nat × Nat) :=
  [(0, 1), (1, 2), (2, 3), (3, 0), (4, 5), (5, 6), (6, 7), (7, 4),
   (0, 4), (1, 5), (2, 6), (3, 7)]

/-- Modelled from the spec: the table `edgetable` of `look-up.h`, which is not
among the sources.  The specification describes it as the standard
marching-cubes edge table, one bitmask of the crossing edges per cube
configuration: bit `e` of the entry is set exactly when the two corners of
edge `e` differ in their membership bit of the configuration index. -/
def standard_edgetable (cubeindex : Nat) : Nat :=
  ((List.range 12).map (fun e =>
    if cubeindex.testBit (edge_corners.getD e (0, 0)).1
        != cubeindex.testBit (edge_corners.getD e (0, 0)).2 then 2 ^ e else 0)).sum

/-- The vertex of edge `e` in the words of the specification: the
interpolation between the positions and values of the two corners of the
edge. -/
def edge_vertex (v_pos : Nat → float3 F) (v_val : Nat → F) (pos : Nat) (e : Nat) : float3 F :=
  interpolate (v_pos (pos + (edge_corners.getD e (0, 0)).1))
    (v_pos (pos + (edge_corners.getD e (0, 0)).2))
    (v_val (pos + (edge_corners.getD e (0, 0)).1))
    (v_val (pos + (edge_corners.getD e (0, 0)).2))

/-- The 9 sample positions of a cell in the words of the specification: the 8
corners at `center ± cell_size / 2` on each axis, then the center. -/
def cell_sample_positions (center : float3 F) (cell_size : F) : List (float3 F) :=
  [ { x := center.x - cell_size / 2, y := center.y - cell_size / 2,
      z := center.z - cell_size / 2 },
    { x := center.x + cell_size / 2, y := center.y - cell_size / 2,
      z := center.z - cell_size / 2 },
    { x := center.x - cell_size / 2, y := center.y + cell_size / 2,
      z := center.z - cell_size / 2 },
    { x := center.x + cell_size / 2, y := center.y + cell_size / 2,
      z := center.z - cell_size / 2 },
    { x := center.x - cell_size / 2, y := center.y - cell_size / 2,
      z := center.z + cell_size / 2 },
    { x := center.x + cell_size / 2, y := center.y - cell_size / 2,
      z := center.z + cell_size / 2 },
    { x := center.x - cell_size / 2, y := center.y + cell_size / 2,
      z := center.z + cell_size / 2 },
    { x := center.x + cell_size / 2, y := center.y + cell_size / 2,
      z := center.z + cell_size / 2 },
    center ]

/-- The mean of a list of values. -/
def population_mean (l : List F) : F :=
  l.sum / (l.length : F)

/-- The population variance of a list of values: the mean of the squared
deviations from the mean. -/
def population_variance (l : List F) : F :=
  (l.map (fun s => (s - population_mean l) ^ 2)).sum / (l.length : F)

/-- The flat storage after appending the triangles of a list, first to
last, with `add_triangle_to_flat`; `none` once an append has called `error`. -/
def add_triangles_to_flat (realloc_null : Option Nat → Nat → Bool)
    (fresh_verts : Nat → float3 F) (data : t_data_mesh F) (ts : List (triangle F)) :
    Option (t_data_mesh F) :=
  ts.foldl (fun d t => d.bind (fun d => add_triangle_to_flat realloc_null fresh_verts d t))
    (some data)

/-- The `realloc` of the GNU C library as to whether it returns `NULL`,
allocations being taken to succeed: a request of 0 bytes on a block frees the
block and returns `NULL`; a request of 0 bytes on a `NULL` pointer, and every
request of at least one byte, returns a block. -/
def realloc_null_glibc (old_size : Option Nat) (new_size : Nat) : Bool :=
  new_size == 0 && old_size.isSome

/-- The element `i` of a `float3` array lies wholly inside a block of `size`
bytes (`sizeof(float3) = 12`); no element lies inside for a `NULL` pointer. -/
def element_in_block (size : Option Nat) (i : Nat) : Bool :=
  decide (12 * (i + 1) ≤ size.getD 0)

/-- A vertex with three equal coordinates. -/
def diag (F : Type) [LinearOrderedField F] (a : F) : float3 F :=
  { x := a, y := a, z := a }

/-- Triangle `j` of a triangle-table row in the words of the specification:
the vertices of the vertex list at the row entries `3j`, `3j+1`, `3j+2`. -/
def table_triangle {F : Type} (row : List Int) (vertlist : Nat → float3 F) (j : Nat) :
    triangle F :=
  { v0 := vertlist (row.getD (3 * j) (-1)).toNat
    v1 := vertlist (row.getD (3 * j + 1) (-1)).toNat
    v2 := vertlist (row.getD (3 * j + 2) (-1)).toNat }

/-- The triangle array `ptr` holds the first `j` triangles of the row: it is
`NULL` for `j = 0`, and otherwise its entries below `j` are the table
triangles. -/
def tris_hold {F : Type} (row : List Int) (vertlist : Nat → float3 F) (j : Nat)
    (ptr : Option (Nat → triangle F)) : Prop :=
  (j = 0 → ptr = none)
    ∧ (0 < j → ∃ arr, ptr = some arr ∧ ∀ m, m < j → arr m = table_triangle row vertlist m)

/-- A concrete triangle table: the row of configuration 1 is the standard
`0, 8, 3` followed by the sentinel, every other row is empty. -/
def probe_tritable (cubeindex : Nat) : List Int :=
  if cubeindex = 1 then [0, 8, 3, -1] else [-1]

/-- Concrete corner values: corner 0 is inside, the other corners are not. -/
def probe_corner_values (F : Type) [LinearOrderedField F] (i : Nat) : F :=
  if i = 0 then 1 else 0

/-- A concrete triangle. -/
def probe_triangle (F : Type) [LinearOrderedField F] : triangle F :=
  { v0 := diag F 1, v1 := diag F 2, v2 := diag F 3 }

end MeshAux

/-! ## Quaternion helpers, reference sampler, key actions and sample arrays
(`srcs/mathematical_enhancements.c`, `srcs/sample_julia.c`, `srcs/gl_utils.c`,
`srcs/init.c`)

`size_t` values are `Nat`; the conversion of a non-negative `double` to
`size_t` is the floor. -/

section Quaternion

variable {F : Type} [LinearOrderedField F]

/-- The function `cl_quat_mod_d` of `mathematical_enhancements.c:7-10`; `sqrt`
of the C math library is a parameter. -/
def cl_quat_mod_d (sqrt : F → F) (q : cl_quat F) : F :=
  sqrt ((q.x * q.x) + (q.y * q.y) + (q.z * q.z) + (q.w * q.w))

/-- The function `cl_quat_mult_d` of `mathematical_enhancements.c:12-20`. -/
def cl_quat_mult_d (q1 q2 : cl_quat F) : cl_quat F :=
  { x := (q1.x * q2.x) - (q1.y * q2.y) - (q1.z * q2.z) - (q1.w * q2.w)
    y := (q1.x * q2.y) + (q1.y * q2.x) + (q1.z * q2.w) - (q1.w * q2.z)
    z := (q1.x * q2.z) - (q1.y * q2.w) + (q1.z * q2.x) + (q1.w * q2.y)
    w := (q1.x * q2.w) + (q1.y * q2.z) - (q1.z * q2.y) + (q1.w * q2.x) }

/-- The function `cl_quat_sum_d` of `mathematical_enhancements.c:22-30`. -/
def cl_quat_sum_d (q1 q2 : cl_quat F) : cl_quat F :=
  { x := q1.x + q2.x
    y := q1.y + q2.y
    z := q1.z + q2.z
    w := q1.w + q2.w }

/-- Modelled from the spec: `cl_quat_mult` (declared in `lib_complex.h:63`, its
body is not among the sources) is the Hamilton product, the real part being
the component `x`. -/
def cl_quat_mult (q1 q2 : cl_quat F) : cl_quat F :=
  { x := q1.x * q2.x - q1.y * q2.y - q1.z * q2.z - q1.w * q2.w
    y := q1.x * q2.y + q1.y * q2.x + q1.z * q2.w - q1.w * q2.z
    z := q1.x * q2.z - q1.y * q2.w + q1.z * q2.x + q1.w * q2.y
    w := q1.x * q2.w + q1.y * q2.z - q1.z * q2.y + q1.w * q2.x }

/-- Modelled from the spec: `cl_quat_sum` (declared in `lib_complex.h:64`) is
the component-wise sum. -/
def cl_quat_sum (q1 q2 : cl_quat F) : cl_quat F :=
  { x := q1.x + q2.x
    y := q1.y + q2.y
    z := q1.z + q2.z
    w := q1.w + q2.w }

/-- Modelled from the spec: `cl_quat_mod` (declared in `lib_complex.h:66`) is
the Euclidean norm, the square root `sqrtf` of the sum of the four squares. -/
def cl_quat_mod (sqrtf : F → F) (q : cl_quat F) : F :=
  sqrtf (q.x * q.x + q.y * q.y + q.z * q.z + q.w * q.w)

/-- The loop of `sample_4D_Julia` (`sample_julia.c:27-39`): the first argument
after the constant is the number of iterations still to run. -/
def sample_4D_Julia_loop (sqrtf : F → F) (c : cl_quat F) : Nat → cl_quat F → F
  | 0, _ => 1
  | n + 1, z =>
    let z := cl_quat_mult z z
    let z := cl_quat_sum z c
    let temp_mod := cl_quat_mod sqrtf z
    if temp_mod > 2 then 0 else sample_4D_Julia_loop sqrtf c n z

/-- The function `sample_4D_Julia` of `sample_julia.c:13-40`. -/
def sample_4D_Julia (sqrtf : F → F) (julia : t_julia F) (pos : float3 F) : F :=
  sample_4D_Julia_loop sqrtf julia.c julia.max_iter
    { x := pos.x, y := pos.y, z := pos.z, w := julia.w }

end Quaternion

section Input

variable {F : Type} [LinearOrderedField F]

/-- The keys of `processInput_enhanced` whose blocks write a sampler parameter
(`gl_utils.c:95-114`, `183-256`): `+`, `-`, `T`, `M`, `O`, `G`, `H`. -/
inductive key_action where
  | KEY_EQUAL
  | KEY_MINUS
  | KEY_T
  | KEY_M
  | KEY_O
  | KEY_G
  | KEY_H
deriving DecidableEq

/-- The block of `processInput_enhanced` that runs for the pressed key `key`
(`gl_utils.c:99-100`, `109-110`, `186`, `198`, `222-223`, `236-237`,
`249-250`).  The writes to `gl`, the key latches and the `printf` calls are
left out.  `max_iter` is a `uint`: `+= 1` and `-= 1` are taken modulo
`4294967296`; `%` on `int` is the truncating remainder.  The last branch is
the block of the key `H`. -/
def processInput_enhanced (key : key_action) (data : t_data F) : t_data F :=
  if key = key_action.KEY_EQUAL then
    let max_iter := (data.fract.julia.max_iter + 1) % 4294967296
    let max_iter := if max_iter > 50 then 50 else max_iter
    { data with fract := { data.fract with julia := { data.fract.julia with
        max_iter := max_iter } } }
  else if key = key_action.KEY_MINUS then
    let max_iter := (data.fract.julia.max_iter + 4294967295) % 4294967296
    let max_iter := if max_iter < 1 then 1 else max_iter
    { data with fract := { data.fract with julia := { data.fract.julia with
        max_iter := max_iter } } }
  else if key = key_action.KEY_T then
    { data with fractal_type := Int.tmod (data.fractal_type + 1) 3 }
  else if key = key_action.KEY_M then
    { data with quaternion_formula := Int.tmod (data.quaternion_formula + 1) 4 }
  else if key = key_action.KEY_O then
    let supersampling := data.supersampling + 1
    let supersampling := if supersampling > 3 then 1 else supersampling
    { data with supersampling := supersampling }
  else if key = key_action.KEY_G then
    let zoom_level := data.zoom_level * 2
    let zoom_level := if zoom_level > 1000000 then 1000000 else zoom_level
    { data with zoom_level := zoom_level }
  else
    let zoom_level := data.zoom_level / 2
    let zoom_level := if zoom_level < 1 then 1 else zoom_level
    { data with zoom_level := zoom_level }

/-- The parameter block set by `init_julia` (`init.c:31-48`). -/
def init_julia (F : Type) [LinearOrderedField F] : t_julia F :=
  { max_iter := 6
    threshold := 2
    w := 0
    c := { x := -(2 / 10), y := 8 / 10, z := 0, w := 0 } }

/-- The fields of `t_fract` set by `init_fract` (`init.c:25-27`). -/
def init_fract (F : Type) [LinearOrderedField F] : t_fract F :=
  { step_size := 5 / 100
    julia := init_julia F }

/-- The fields of `t_data` set by `init_data` (`init.c:57`, `82-95`). -/
def init_data (F : Type) [LinearOrderedField F] : t_data F :=
  { fract := init_fract F
    zoom_level := 1
    adaptive_grid := 0
    max_grid_depth := 3
    detail_threshold := 1 / 10
    use_double_precision := 0
    fractal_type := 0
    quaternion_formula := 0
    supersampling := 1
    adaptive_sampling := 0
    progressive_refinement := 0 }

/-- The two sample arrays allocated by `init_vertex`, each given by the number
of entries of its block. -/
structure vertex_arrays where
  vertexpos : Nat
  vertexval : Nat
deriving DecidableEq

/-- The function `init_vertex` of `init.c:100-109` for
`data->fract->grid_size = grid_size`: `size = pow(grid_size, 3) * 8` converted
to `size_t`, and both blocks are requested with `size` entries.  Allocations
are taken to succeed. -/
def init_vertex [FloorRing F] (grid_size : F) : vertex_arrays :=
  let size := Nat.floor (grid_size ^ 3 * 8)
  { vertexpos := size, vertexval := size }

end Input

/-! ## Auxiliary definitions for the statements on parameters and quaternions -/

section InputAux

variable {F : Type} [LinearOrderedField F]

/-- The data state after the key actions `keys`, applied from left to right. -/
def apply_keys (keys : List key_action) (data : t_data F) : t_data F :=
  keys.foldl (fun d key => processInput_enhanced key d) data

/-- The parameter invariant: ranges of `max_iter`, `zoom_level`,
`supersampling`, `fractal_type` and `quaternion_formula`. -/
def parameter_invariant (data : t_data F) : Prop :=
  1 ≤ data.fract.julia.max_iter ∧ data.fract.julia.max_iter ≤ 50
    ∧ 1 ≤ data.zoom_level ∧ data.zoom_level ≤ 1000000
    ∧ (data.supersampling = 1 ∨ data.supersampling = 2 ∨ data.supersampling = 3)
    ∧ (data.fractal_type = 0 ∨ data.fractal_type = 1 ∨ data.fractal_type = 2)
    ∧ (data.quaternion_formula = 0 ∨ data.quaternion_formula = 1
        ∨ data.quaternion_formula = 2 ∨ data.quaternion_formula = 3)

instance (data : t_data F) : Decidable (parameter_invariant data) := by
  unfold parameter_invariant
  infer_instance

/-- Component-wise difference of two quaternions. -/
def cl_quat_sub (q1 q2 : cl_quat F) : cl_quat F :=
  { x := q1.x - q2.x
    y := q1.y - q2.y
    z := q1.z - q2.z
    w := q1.w - q2.w }

/-- The real quaternion `(a, 0, 0, 0)`. -/
def real_quat (a : F) : cl_quat F :=
  { x := a, y := 0, z := 0, w := 0 }

/-- The point `p0 + mu * (p1 - p0)` of the line through `p0` and `p1`. -/
def line_point (p0 p1 : float3 F) (mu : F) : float3 F :=
  { x := p0.x + mu * (p1.x - p0.x)
    y := p0.y + mu * (p1.y - p0.y)
    z := p0.z + mu * (p1.z - p0.z) }

/-- The data state of the triangulator with `len.y` set to `n`. -/
def with_len_y (data : t_data_mesh F) (n : Nat) : t_data_mesh F :=
  { data with len := { data.len with y := n } }

end InputAux

/-! ## Shared lemmas -/

section Lemmas

variable {F : Type} [LinearOrderedField F]

theorem julia_optimized_loop_eq (c : cl_quat F) (n : Nat) (z : cl_quat F) :
    sample_4D_Julia_optimized_loop c n z = escape_iteration (julia_step c) 4 n z := by
  induction n generalizing z with
  | zero => rfl
  | succ n ih =>
    simp only [sample_4D_Julia_optimized_loop, escape_iteration, ih]
    rfl

theorem julia_deep_zoom_loop_eq (c : cl_quat F) (n : Nat) (z : cl_quat F) :
    sample_4D_Julia_deep_zoom_loop c n z = escape_iteration (julia_step c) 4 n z := by
  induction n generalizing z with
  | zero => rfl
  | succ n ih =>
    simp only [sample_4D_Julia_deep_zoom_loop, escape_iteration, ih]
    rfl

theorem mandelbrot_loop_eq (c : cl_quat F) (n : Nat) (z : cl_quat F) :
    sample_4D_Mandelbrot_loop c n z = escape_iteration (julia_step c) 4 n z := by
  induction n generalizing z with
  | zero => rfl
  | succ n ih =>
    simp only [sample_4D_Mandelbrot_loop, escape_iteration, ih]
    rfl

theorem alternative_loop_eq (formula : Int) (c : cl_quat F) (n : Nat) (z : cl_quat F) :
    sample_4D_Julia_alternative_formula_loop formula c n z
      = escape_iteration (alternative_step formula c) 16 n z := by
  induction n generalizing z with
  | zero => rfl
  | succ n ih =>
    simp only [sample_4D_Julia_alternative_formula_loop, escape_iteration, ih]
    rfl

theorem escape_iteration_zero_or_one (step : cl_quat F → cl_quat F) (thr : F) (n : Nat)
    (z : cl_quat F) :
    escape_iteration step thr n z = 0 ∨ escape_iteration step thr n z = 1 := by
  induction n generalizing z with
  | zero => exact Or.inr rfl
  | succ n ih =>
    simp only [escape_iteration]
    split_ifs
    · exact Or.inl rfl
    · exact ih _

theorem escape_iteration_mono (step : cl_quat F → cl_quat F) (thr : F) (n m : Nat)
    (hnm : n ≤ m) (z : cl_quat F) (h0 : escape_iteration step thr n z = 0) :
    escape_iteration step thr m z = 0 := by
  induction n generalizing z m with
  | zero => simp [escape_iteration] at h0
  | succ n ih =>
    obtain ⟨m, rfl⟩ : ∃ k, m = k + 1 := ⟨m - 1, by omega⟩
    simp only [escape_iteration] at h0 ⊢
    split_ifs at h0 ⊢ with hgt
    · rfl
    · exact ih m (by omega) _ h0

theorem escape_iteration_eq_zero_iff (step : cl_quat F → cl_quat F) (thr : F) (n : Nat)
    (z : cl_quat F) :
    escape_iteration step thr n z = 0
      ↔ ∃ k, 1 ≤ k ∧ k ≤ n ∧ mag_sq (orbit step z k) > thr := by
  have horb : ∀ (k : Nat) (z : cl_quat F), orbit step z (k + 1) = orbit step (step z) k := by
    intro k
    induction k with
    | zero => intro z; rfl
    | succ k ih => intro z; simp only [orbit] at ih ⊢; rw [ih]
  induction n generalizing z with
  | zero =>
    simp only [escape_iteration]
    constructor
    · intro h; exact absurd h one_ne_zero
    · rintro ⟨k, h1, h2, _⟩; omega
  | succ n ih =>
    simp only [escape_iteration]
    split_ifs with hgt
    · simp only [true_iff]
      exact ⟨1, le_refl 1, by omega, hgt⟩
    · refine (ih (step z)).trans ?_
      constructor
      · rintro ⟨k, h1, h2, h3⟩
        exact ⟨k + 1, by omega, by omega, by rw [horb]; exact h3⟩
      · rintro ⟨k, h1, h2, h3⟩
        obtain ⟨j, rfl⟩ : ∃ j, k = j + 1 := ⟨k - 1, by omega⟩
        rw [horb] at h3
        rcases Nat.eq_zero_or_pos j with hj | hj
        · subst hj
          exact absurd h3 hgt
        · exact ⟨j, hj, by omega, h3⟩

theorem sample_fractal_enhanced_of_le (sinf : F → F) (data : t_data F) (pos : float3 F)
    (h : data.supersampling ≤ 1) :
    sample_fractal_enhanced sinf data pos = (direct_sample sinf data pos, data) := by
  rw [sample_fractal_enhanced, dif_neg (not_lt.mpr h)]
  unfold direct_sample zoomed_pos hybrid_blend
  split_ifs <;> rfl

theorem foldl_range_add_state {D : Type} (g : Nat → F) (d : D)
    (body : F × D → Nat → F × D) (hb : ∀ t a, body (t, d) a = (t + g a, d))
    (n : Nat) (t : F) :
    (List.range n).foldl body (t, d) = (t + ∑ i ∈ Finset.range n, g i, d) := by
  induction n with
  | zero => simp
  | succ n ih =>
    rw [List.range_succ, List.foldl_append, ih]
    simp [hb, Finset.sum_range_succ, add_assoc]

theorem sample_with_supersampling_of_gt (sinf : F → F) (data : t_data F) (pos : float3 F)
    (h : 1 < data.supersampling) :
    sample_with_supersampling sinf data pos
      = ((∑ x ∈ Finset.range data.supersampling.toNat,
            ∑ y ∈ Finset.range data.supersampling.toNat,
              ∑ z ∈ Finset.range data.supersampling.toNat,
                direct_sample sinf { data with supersampling := 1 }
                  (supersampling_sample_pos data pos x y z))
          / ((data.supersampling * data.supersampling * data.supersampling : Int) : F),
         data) := by
  rw [sample_with_supersampling, if_neg (not_le.mpr h)]
  dsimp only
  rw [foldl_range_add_state
    (fun x => ∑ y ∈ Finset.range data.supersampling.toNat,
      ∑ z ∈ Finset.range data.supersampling.toNat,
        direct_sample sinf { data with supersampling := 1 }
          (supersampling_sample_pos data pos x y z)) data]
  · simp
  · intro t x
    rw [foldl_range_add_state
      (fun y => ∑ z ∈ Finset.range data.supersampling.toNat,
        direct_sample sinf { data with supersampling := 1 }
          (supersampling_sample_pos data pos x y z)) data]
    intro t y
    rw [foldl_range_add_state
      (fun z => direct_sample sinf { data with supersampling := 1 }
          (supersampling_sample_pos data pos x y z)) data]
    intro t z
    rw [sample_fractal_enhanced_of_le sinf _ _ (le_refl (1 : Int))]
    rfl

theorem sample_4D_Julia_optimized_zero_or_one (julia : t_julia F) (pos : float3 F) :
    sample_4D_Julia_optimized julia pos = 0 ∨ sample_4D_Julia_optimized julia pos = 1 := by
  unfold sample_4D_Julia_optimized
  rw [julia_optimized_loop_eq]
  exact escape_iteration_zero_or_one _ _ _ _

theorem sample_4D_Julia_deep_zoom_zero_or_one (julia : t_julia F) (pos : float3 F) (zoom : F) :
    sample_4D_Julia_deep_zoom julia pos zoom = 0
      ∨ sample_4D_Julia_deep_zoom julia pos zoom = 1 := by
  unfold sample_4D_Julia_deep_zoom
  rw [julia_deep_zoom_loop_eq]
  exact escape_iteration_zero_or_one _ _ _ _

theorem sample_4D_Mandelbrot_zero_or_one (julia : t_julia F) (pos : float3 F) :
    sample_4D_Mandelbrot julia pos = 0 ∨ sample_4D_Mandelbrot julia pos = 1 := by
  unfold sample_4D_Mandelbrot
  rw [mandelbrot_loop_eq]
  exact escape_iteration_zero_or_one _ _ _ _

theorem sample_4D_Julia_alternative_formula_zero_or_one (julia : t_julia F) (pos : float3 F)
    (formula : Int) :
    sample_4D_Julia_alternative_formula julia pos formula = 0
      ∨ sample_4D_Julia_alternative_formula julia pos formula = 1 := by
  unfold sample_4D_Julia_alternative_formula
  rw [alternative_loop_eq]
  exact escape_iteration_zero_or_one _ _ _ _

theorem sample_4D_Julia_optimized_mono (julia : t_julia F) (pos : float3 F) (K K' : Nat)
    (hK : K ≤ K') (h0 : sample_4D_Julia_optimized { julia with max_iter := K } pos = 0) :
    sample_4D_Julia_optimized { julia with max_iter := K' } pos = 0 := by
  unfold sample_4D_Julia_optimized at h0 ⊢
  rw [julia_optimized_loop_eq] at h0 ⊢
  exact escape_iteration_mono _ _ K K' hK _ h0

theorem sample_4D_Julia_deep_zoom_mono (julia : t_julia F) (pos : float3 F) (zoom : F)
    (K K' : Nat) (hK : K ≤ K')
    (h0 : sample_4D_Julia_deep_zoom { julia with max_iter := K } pos zoom = 0) :
    sample_4D_Julia_deep_zoom { julia with max_iter := K' } pos zoom = 0 := by
  unfold sample_4D_Julia_deep_zoom at h0 ⊢
  rw [julia_deep_zoom_loop_eq] at h0 ⊢
  exact escape_iteration_mono _ _ K K' hK _ h0

theorem sample_4D_Mandelbrot_mono (julia : t_julia F) (pos : float3 F) (K K' : Nat)
    (hK : K ≤ K') (h0 : sample_4D_Mandelbrot { julia with max_iter := K } pos = 0) :
    sample_4D_Mandelbrot { julia with max_iter := K' } pos = 0 := by
  unfold sample_4D_Mandelbrot at h0 ⊢
  rw [mandelbrot_loop_eq] at h0 ⊢
  exact escape_iteration_mono _ _ K K' hK _ h0

theorem sample_4D_Julia_alternative_formula_mono (julia : t_julia F) (pos : float3 F)
    (formula : Int) (K K' : Nat) (hK : K ≤ K')
    (h0 : sample_4D_Julia_alternative_formula { julia with max_iter := K } pos formula = 0) :
    sample_4D_Julia_alternative_formula { julia with max_iter := K' } pos formula = 0 := by
  unfold sample_4D_Julia_alternative_formula at h0 ⊢
  rw [alternative_loop_eq] at h0 ⊢
  exact escape_iteration_mono _ _ K K' hK _ h0

theorem hybrid_blend_range (sinf : F → F) (hsin : ∀ x, -1 ≤ sinf x ∧ sinf x ≤ 1)
    (p : float3 F) : 0 ≤ hybrid_blend sinf p ∧ hybrid_blend sinf p ≤ 1 := by
  unfold hybrid_blend
  obtain ⟨h1, h2⟩ := hsin (p.x + p.y + p.z)
  constructor <;> linarith

theorem direct_sample_range (sinf : F → F) (hsin : ∀ x, -1 ≤ sinf x ∧ sinf x ≤ 1)
    (data : t_data F) (pos : float3 F) :
    0 ≤ direct_sample sinf data pos ∧ direct_sample sinf data pos ≤ 1 := by
  have hj := sample_4D_Julia_optimized_zero_or_one data.fract.julia (zoomed_pos data pos)
  have hm := sample_4D_Mandelbrot_zero_or_one data.fract.julia (zoomed_pos data pos)
  have ha := sample_4D_Julia_alternative_formula_zero_or_one data.fract.julia
    (zoomed_pos data pos) data.quaternion_formula
  have hd := sample_4D_Julia_deep_zoom_zero_or_one data.fract.julia (zoomed_pos data pos)
    data.zoom_level
  obtain ⟨hb0, hb1⟩ := hybrid_blend_range sinf hsin (zoomed_pos data pos)
  unfold direct_sample
  split_ifs
  · rcases hd with h | h <;> rw [h] <;> simp
  · rcases ha with h | h <;> rw [h] <;> simp
  · rcases hj with h | h <;> rw [h] <;> simp
  · rcases hm with h | h <;> rw [h] <;> simp
  · rcases hj with h | h <;> rcases hm with h' | h' <;> rw [h, h'] <;> simp <;>
      first | exact hb0 | exact hb1 | exact ⟨hb0, hb1⟩ | exact ⟨hb1, hb0⟩
  · rcases hj with h | h <;> rw [h] <;> simp

theorem direct_sample_mono (sinf : F → F) (data : t_data F) (pos : float3 F) (K K' : Nat)
    (hK : K ≤ K') (h0 : direct_sample sinf (set_max_iter data K) pos = 0) :
    direct_sample sinf (set_max_iter data K') pos = 0 := by
  have hj := sample_4D_Julia_optimized_mono data.fract.julia (zoomed_pos data pos) K K' hK
  have hm := sample_4D_Mandelbrot_mono data.fract.julia (zoomed_pos data pos) K K' hK
  have ha := sample_4D_Julia_alternative_formula_mono data.fract.julia (zoomed_pos data pos)
    data.quaternion_formula K K' hK
  have hd := sample_4D_Julia_deep_zoom_mono data.fract.julia (zoomed_pos data pos)
    data.zoom_level K K' hK
  have hj1 := sample_4D_Julia_optimized_zero_or_one
    { data.fract.julia with max_iter := K } (zoomed_pos data pos)
  have hm1 := sample_4D_Mandelbrot_zero_or_one
    { data.fract.julia with max_iter := K } (zoomed_pos data pos)
  have hz : ∀ k, zoomed_pos (set_max_iter data k) pos = zoomed_pos data pos := fun _ => rfl
  unfold direct_sample at h0 ⊢
  simp only [hz] at h0 ⊢
  simp only [set_max_iter] at h0 ⊢
  split_ifs at h0 ⊢
  · exact hd h0
  · exact ha h0
  · exact hj h0
  · exact hm h0
  · rcases hj1 with h | h <;> rcases hm1 with h' | h'
    · rw [hj h, hm h']; simp
    · rw [h, h'] at h0
      simp only [zero_mul, one_mul, zero_add] at h0
      rw [hj h, h0]; simp
    · rw [h, h'] at h0
      simp only [zero_mul, one_mul, add_zero] at h0
      rw [hm h', h0]; simp
    · rw [h, h'] at h0
      simp at h0
  · exact hj h0

theorem sample_fractal_enhanced_of_gt (sinf : F → F) (data : t_data F) (pos : float3 F)
    (h : 1 < data.supersampling) :
    sample_fractal_enhanced sinf data pos
      = ((∑ x ∈ Finset.range data.supersampling.toNat,
            ∑ y ∈ Finset.range data.supersampling.toNat,
              ∑ z ∈ Finset.range data.supersampling.toNat,
                direct_sample sinf { data with supersampling := 1 }
                  (supersampling_sample_pos data pos x y z))
          / ((data.supersampling * data.supersampling * data.supersampling : Int) : F),
         data) := by
  rw [sample_fractal_enhanced, dif_pos h]
  exact sample_with_supersampling_of_gt sinf data pos h

theorem supersampling_count_cast (N : Int) (h : 1 < N) :
    ((N * N * N : Int) : F) = (N.toNat : F) * (N.toNat : F) * (N.toNat : F)
      ∧ (0 : F) < ((N * N * N : Int) : F) := by
  have hN : ((N.toNat : Int)) = N := Int.toNat_of_nonneg (by omega)
  have hc : (N : F) = ((N.toNat : Nat) : F) := by
    rw [← Int.cast_natCast, hN]
  have hpos : (0 : F) < (N : F) := by
    have : (0 : Int) < N := by omega
    exact_mod_cast this
  constructor
  · push_cast
    rw [hc]
  · push_cast
    positivity

theorem sum_range_le_mul (n : Nat) (g : Nat → F) (b : F) (h : ∀ i, g i ≤ b) :
    ∑ i ∈ Finset.range n, g i ≤ (n : F) * b := by
  calc ∑ i ∈ Finset.range n, g i ≤ ∑ _i ∈ Finset.range n, b :=
        Finset.sum_le_sum (fun i _ => h i)
    _ = (n : F) * b := by simp

theorem sine_bounds : ∀ x : ℝ, -1 ≤ Real.sin x ∧ Real.sin x ≤ 1 :=
  fun x => ⟨Real.neg_one_le_sin x, Real.sin_le_one x⟩

theorem probe_julia_escapes (sinf : ℝ → ℝ) :
    (sample_fractal_enhanced sinf (set_max_iter (probe_data ℝ) 1) (origin ℝ)).1 = 0 := by
  rw [sample_fractal_enhanced_of_le _ _ _ (by simp [set_max_iter, probe_data])]
  simp [direct_sample, set_max_iter, probe_data, zoomed_pos, origin,
    sample_4D_Julia_optimized, sample_4D_Julia_optimized_loop]
  norm_num

theorem sample_with_supersampling_of_le (sinf : F → F) (data : t_data F) (pos : float3 F)
    (h : data.supersampling ≤ 1) :
    sample_with_supersampling sinf data pos
      = (direct_sample sinf { data with supersampling := 1 } pos, data) := by
  rw [sample_with_supersampling, if_pos h]
  dsimp only
  rw [sample_fractal_enhanced_of_le sinf _ _ (le_refl (1 : Int))]

theorem sample_fractal_enhanced_state (sinf : F → F) (data : t_data F) (pos : float3 F) :
    (sample_fractal_enhanced sinf data pos).2 = data := by
  by_cases h : data.supersampling ≤ 1
  · rw [sample_fractal_enhanced_of_le sinf data pos h]
  · rw [sample_fractal_enhanced_of_gt sinf data pos (not_le.mp h)]

theorem supersampling_sample_pos_eq (data : t_data F) (pos : float3 F) (N : Nat)
    (hss : data.supersampling = (N : Int)) (x y z : Nat) :
    supersampling_sample_pos data pos x y z
      = { x := pos.x + ((x : F) - ((N / 2 : Nat) : F)) * (data.fract.step_size / (2 * (N : F)))
          y := pos.y + ((y : F) - ((N / 2 : Nat) : F)) * (data.fract.step_size / (2 * (N : F)))
          z := pos.z + ((z : F) - ((N / 2 : Nat) : F)) * (data.fract.step_size / (2 * (N : F))) } := by
  have hdiv : Int.tdiv (N : Int) 2 = ((N / 2 : Nat) : Int) := by
    rw [Int.tdiv_eq_ediv (Int.natCast_nonneg N) (by decide)]
    norm_cast
  have hmul : (((N : Int) * 2 : Int) : F) = 2 * (N : F) := by
    push_cast
    ring
  unfold supersampling_sample_pos
  rw [hss, hdiv, hmul]
  simp only [Int.cast_sub, Int.cast_natCast]

theorem alternative_step_default (formula : Int) (h1 : formula ≠ 1) (h2 : formula ≠ 2)
    (h3 : formula ≠ 3) (c : cl_quat F) :
    alternative_step formula c = julia_step c := by
  funext z
  by_cases h0 : formula = 0 <;>
    simp [alternative_step, alternative_formula_z_new, julia_step, h0, h1, h2, h3]

theorem sample_fractal_enhanced_deep_zoom (sinf : F → F) (data : t_data F) (pos : float3 F)
    (hss : data.supersampling ≤ 1) (ht : data.fractal_type = 0)
    (hd : data.use_double_precision ≠ 0) (hz : data.zoom_level > 1000) :
    (sample_fractal_enhanced sinf data pos).1
      = escape_iteration (julia_step data.fract.julia.c) 4 data.fract.julia.max_iter
          { x := pos.x / data.zoom_level / data.zoom_level
            y := pos.y / data.zoom_level / data.zoom_level
            z := pos.z / data.zoom_level / data.zoom_level
            w := data.fract.julia.w / data.zoom_level } := by
  have h1 : data.zoom_level > 1 := lt_trans (by norm_num) hz
  rw [sample_fractal_enhanced_of_le sinf data pos hss]
  simp only [direct_sample, ht, if_true, hd, hz, ne_eq, not_false_eq_true, and_self,
    sample_4D_Julia_deep_zoom, julia_deep_zoom_loop_eq, zoomed_pos, h1]

theorem getCubeIndex_eq_bits (v_val : Nat → F) (pos : Nat) :
    getCubeIndex v_val pos
      = cube_index_of_bits (decide (v_val (pos + 0) ≠ 0)) (decide (v_val (pos + 1) ≠ 0))
          (decide (v_val (pos + 2) ≠ 0)) (decide (v_val (pos + 3) ≠ 0))
          (decide (v_val (pos + 4) ≠ 0)) (decide (v_val (pos + 5) ≠ 0))
          (decide (v_val (pos + 6) ≠ 0)) (decide (v_val (pos + 7) ≠ 0)) := by
  unfold getCubeIndex cube_index_of_bits
  simp only [decide_eq_true_eq]

theorem cube_index_of_bits_testBit :
    ∀ b0 b1 b2 b3 b4 b5 b6 b7 : Bool,
      (cube_index_of_bits b0 b1 b2 b3 b4 b5 b6 b7).testBit 0 = b0
        ∧ (cube_index_of_bits b0 b1 b2 b3 b4 b5 b6 b7).testBit 1 = b1
        ∧ (cube_index_of_bits b0 b1 b2 b3 b4 b5 b6 b7).testBit 2 = b2
        ∧ (cube_index_of_bits b0 b1 b2 b3 b4 b5 b6 b7).testBit 3 = b3
        ∧ (cube_index_of_bits b0 b1 b2 b3 b4 b5 b6 b7).testBit 4 = b4
        ∧ (cube_index_of_bits b0 b1 b2 b3 b4 b5 b6 b7).testBit 5 = b5
        ∧ (cube_index_of_bits b0 b1 b2 b3 b4 b5 b6 b7).testBit 6 = b6
        ∧ (cube_index_of_bits b0 b1 b2 b3 b4 b5 b6 b7).testBit 7 = b7 := by
  decide

theorem cube_index_of_bits_le :
    ∀ b0 b1 b2 b3 b4 b5 b6 b7 : Bool, cube_index_of_bits b0 b1 b2 b3 b4 b5 b6 b7 ≤ 255 := by
  decide

theorem cube_index_of_bits_eq_zero :
    ∀ b0 b1 b2 b3 b4 b5 b6 b7 : Bool,
      decide (cube_index_of_bits b0 b1 b2 b3 b4 b5 b6 b7 = 0)
        = (!b0 && !b1 && !b2 && !b3 && !b4 && !b5 && !b6 && !b7) := by
  decide

theorem cube_index_of_bits_eq_full :
    ∀ b0 b1 b2 b3 b4 b5 b6 b7 : Bool,
      decide (cube_index_of_bits b0 b1 b2 b3 b4 b5 b6 b7 = 255)
        = (b0 && b1 && b2 && b3 && b4 && b5 && b6 && b7) := by
  decide

theorem sum_range_int_mul_two (n : Nat) :
    (∑ i ∈ Finset.range n, (i : Int)) * 2 = (n : Int) * ((n : Int) - 1) := by
  induction n with
  | zero => simp
  | succ n ih =>
    rw [Finset.sum_range_succ, add_mul, ih]
    push_cast
    ring

/-- The integer offsets `x - samples/2` of one axis of the supersampling loops
sum to `-(N/2)` for an even factor `N` and to 0 for an odd one. -/
theorem supersampling_offsets_sum (N : Nat) :
    ∑ i ∈ Finset.range N, ((i : Int) - Int.tdiv (N : Int) 2)
      = if N % 2 = 0 then -((N / 2 : Nat) : Int) else 0 := by
  have hdiv : Int.tdiv (N : Int) 2 = ((N / 2 : Nat) : Int) := by
    rw [Int.tdiv_eq_ediv (Int.natCast_nonneg N) (by decide)]
    norm_cast
  rw [hdiv, Finset.sum_sub_distrib]
  simp only [Finset.sum_const, Finset.card_range, nsmul_eq_mul]
  have h2 := sum_range_int_mul_two N
  split_ifs with hpar
  · obtain ⟨m, rfl⟩ : ∃ m, N = 2 * m := ⟨N / 2, by omega⟩
    have hm : (2 * m) / 2 = m := by omega
    rw [hm]
    push_cast at h2 ⊢
    linarith
  · obtain ⟨m, rfl⟩ : ∃ m, N = 2 * m + 1 := ⟨N / 2, by omega⟩
    have hm : (2 * m + 1) / 2 = m := by omega
    rw [hm]
    push_cast at h2 ⊢
    linarith

end Lemmas

/-! ## The sampler: range, monotonicity, supersampling -/

section SamplerTheorems

variable {F : Type} [LinearOrderedField F]

/-- C1 (escape monotonicity).  With `sinf` bounded by 1 in absolute value, for
every data state, position and iteration limits `K ≤ K'`: when
`sample_fractal_enhanced` returns 0 with `max_iter = K` it returns 0 with
`max_iter = K'`; the same holds for each base evaluator
(`sample_4D_Julia_optimized`, `sample_4D_Mandelbrot`,
`sample_4D_Julia_alternative_formula`, `sample_4D_Julia_deep_zoom`). -/
theorem escape_monotonicity (sinf : F → F) (hsin : ∀ x, -1 ≤ sinf x ∧ sinf x ≤ 1)
    (data : t_data F) (pos : float3 F) (K K' : Nat) (hK : K ≤ K') :
    ((sample_fractal_enhanced sinf (set_max_iter data K) pos).1 = 0 →
      (sample_fractal_enhanced sinf (set_max_iter data K') pos).1 = 0)
    ∧ (sample_4D_Julia_optimized { data.fract.julia with max_iter := K } pos = 0 →
      sample_4D_Julia_optimized { data.fract.julia with max_iter := K' } pos = 0)
    ∧ (sample_4D_Mandelbrot { data.fract.julia with max_iter := K } pos = 0 →
      sample_4D_Mandelbrot { data.fract.julia with max_iter := K' } pos = 0)
    ∧ (∀ formula : Int,
      sample_4D_Julia_alternative_formula { data.fract.julia with max_iter := K } pos formula
          = 0 →
        sample_4D_Julia_alternative_formula { data.fract.julia with max_iter := K' } pos formula
          = 0)
    ∧ (∀ zoom : F,
      sample_4D_Julia_deep_zoom { data.fract.julia with max_iter := K } pos zoom = 0 →
        sample_4D_Julia_deep_zoom { data.fract.julia with max_iter := K' } pos zoom = 0) := by
  refine ⟨?_, sample_4D_Julia_optimized_mono _ _ K K' hK,
    sample_4D_Mandelbrot_mono _ _ K K' hK,
    fun formula => sample_4D_Julia_alternative_formula_mono _ _ formula K K' hK,
    fun zoom => sample_4D_Julia_deep_zoom_mono _ _ zoom K K' hK⟩
  by_cases h : data.supersampling ≤ 1
  · rw [sample_fractal_enhanced_of_le sinf (set_max_iter data K) pos h,
      sample_fractal_enhanced_of_le sinf (set_max_iter data K') pos h]
    exact direct_sample_mono sinf data pos K K' hK
  · have hgt : 1 < data.supersampling := not_le.mp h
    rw [sample_fractal_enhanced_of_gt sinf (set_max_iter data K) pos hgt,
      sample_fractal_enhanced_of_gt sinf (set_max_iter data K') pos hgt]
    have hc := (supersampling_count_cast (F := F) data.supersampling hgt).2
    have hss : ∀ k, (set_max_iter data k).supersampling = data.supersampling := fun _ => rfl
    have hterm : ∀ k x y z,
        direct_sample sinf { set_max_iter data k with supersampling := 1 }
            (supersampling_sample_pos (set_max_iter data k) pos x y z)
          = direct_sample sinf (set_max_iter { data with supersampling := 1 } k)
            (supersampling_sample_pos data pos x y z) := fun _ _ _ _ => rfl
    simp only [hss, hterm]
    intro h0
    rw [div_eq_zero_iff] at h0
    rcases h0 with h0 | h0
    swap
    · exact absurd h0 (ne_of_gt hc)
    have nn : ∀ p, 0 ≤ direct_sample sinf (set_max_iter { data with supersampling := 1 } K) p :=
      fun p => (direct_sample_range sinf hsin _ p).1
    rw [Finset.sum_eq_zero_iff_of_nonneg
      (fun x _ => Finset.sum_nonneg (fun y _ => Finset.sum_nonneg (fun z _ => nn _)))] at h0
    rw [div_eq_zero_iff]
    left
    refine Finset.sum_eq_zero (fun x hx => Finset.sum_eq_zero (fun y hy =>
      Finset.sum_eq_zero (fun z hz => ?_)))
    have h1 := h0 x hx
    rw [Finset.sum_eq_zero_iff_of_nonneg
      (fun y _ => Finset.sum_nonneg (fun z _ => nn _))] at h1
    have h2 := h1 y hy
    rw [Finset.sum_eq_zero_iff_of_nonneg (fun z _ => nn _)] at h2
    exact direct_sample_mono sinf _ _ K K' hK (h2 z hz)

/-- Witness of C1: the probe state escapes at the origin after one iteration,
hence also with two. -/
theorem escape_monotonicity_witness :
    (∀ x : ℝ, -1 ≤ Real.sin x ∧ Real.sin x ≤ 1) ∧ (1 : Nat) ≤ 2
      ∧ (sample_fractal_enhanced Real.sin (set_max_iter (probe_data ℝ) 1) (origin ℝ)).1 = 0
      ∧ (sample_fractal_enhanced Real.sin (set_max_iter (probe_data ℝ) 2) (origin ℝ)).1 = 0 :=
  ⟨sine_bounds, by decide, probe_julia_escapes Real.sin,
    (escape_monotonicity Real.sin sine_bounds (probe_data ℝ) (origin ℝ) 1 2 (by decide)).1
      (probe_julia_escapes Real.sin)⟩

/-- C2 (range).  With `sinf` bounded by 1 in absolute value, for every data
state and position `sample_fractal_enhanced` returns a value in `[0,1]`; the
Hybrid blend weight is in `[0,1]`; without supersampling the Hybrid result is
`julia * blend + mandelbrot * (1 - blend)`; and for a supersampling factor
above 1 the value returned by `sample_with_supersampling` is in `[0,1]`. -/
theorem sample_value_in_unit_interval (sinf : F → F)
    (hsin : ∀ x, -1 ≤ sinf x ∧ sinf x ≤ 1) (data : t_data F) (pos : float3 F) :
    (0 ≤ (sample_fractal_enhanced sinf data pos).1
      ∧ (sample_fractal_enhanced sinf data pos).1 ≤ 1)
    ∧ (0 ≤ hybrid_blend sinf (zoomed_pos data pos)
      ∧ hybrid_blend sinf (zoomed_pos data pos) ≤ 1)
    ∧ (data.supersampling ≤ 1 → data.fractal_type = 2 →
      (sample_fractal_enhanced sinf data pos).1
        = sample_4D_Julia_optimized data.fract.julia (zoomed_pos data pos)
            * hybrid_blend sinf (zoomed_pos data pos)
          + sample_4D_Mandelbrot data.fract.julia (zoomed_pos data pos)
            * (1 - hybrid_blend sinf (zoomed_pos data pos)))
    ∧ (1 < data.supersampling →
      0 ≤ (sample_with_supersampling sinf data pos).1
        ∧ (sample_with_supersampling sinf data pos).1 ≤ 1) := by
  have hsuper : 1 < data.supersampling →
      0 ≤ (sample_with_supersampling sinf data pos).1
        ∧ (sample_with_supersampling sinf data pos).1 ≤ 1 := by
    intro hgt
    rw [sample_with_supersampling_of_gt sinf data pos hgt]
    obtain ⟨hcast, hc⟩ := supersampling_count_cast (F := F) data.supersampling hgt
    have r := direct_sample_range sinf hsin { data with supersampling := 1 }
    constructor
    · exact div_nonneg (Finset.sum_nonneg (fun x _ => Finset.sum_nonneg (fun y _ =>
        Finset.sum_nonneg (fun z _ => (r _).1)))) (le_of_lt hc)
    · rw [div_le_one hc, hcast]
      have hn : (0 : F) ≤ (data.supersampling.toNat : F) := Nat.cast_nonneg _
      have hz : ∀ x y, ∑ z ∈ Finset.range data.supersampling.toNat,
          direct_sample sinf { data with supersampling := 1 }
            (supersampling_sample_pos data pos x y z)
          ≤ (data.supersampling.toNat : F) * 1 :=
        fun x y => sum_range_le_mul _ _ 1 (fun z => (r _).2)
      have hy : ∀ x, ∑ y ∈ Finset.range data.supersampling.toNat,
          ∑ z ∈ Finset.range data.supersampling.toNat,
            direct_sample sinf { data with supersampling := 1 }
              (supersampling_sample_pos data pos x y z)
          ≤ (data.supersampling.toNat : F) * ((data.supersampling.toNat : F) * 1) :=
        fun x => sum_range_le_mul _ _ _ (fun y => hz x y)
      have hx := sum_range_le_mul data.supersampling.toNat _ _ hy
      calc _ ≤ _ := hx
        _ = _ := by ring
  refine ⟨?_, hybrid_blend_range sinf hsin _, ?_, hsuper⟩
  · by_cases h : data.supersampling ≤ 1
    · rw [sample_fractal_enhanced_of_le sinf data pos h]
      exact direct_sample_range sinf hsin data pos
    · have hgt : 1 < data.supersampling := not_le.mp h
      rw [sample_fractal_enhanced, dif_pos hgt]
      exact hsuper hgt
  · intro h ht
    rw [sample_fractal_enhanced_of_le sinf data pos h]
    simp [direct_sample, ht]

/-- Witness of C2 at the probe state with the Hybrid kind. -/
theorem sample_value_in_unit_interval_witness :
    (∀ x : ℝ, -1 ≤ Real.sin x ∧ Real.sin x ≤ 1)
      ∧ 0 ≤ (sample_fractal_enhanced Real.sin
          { probe_data ℝ with fractal_type := 2, supersampling := 3 } (origin ℝ)).1
      ∧ (sample_fractal_enhanced Real.sin
          { probe_data ℝ with fractal_type := 2, supersampling := 3 } (origin ℝ)).1 ≤ 1 :=
  ⟨sine_bounds,
    (sample_value_in_unit_interval Real.sin sine_bounds
      { probe_data ℝ with fractal_type := 2, supersampling := 3 } (origin ℝ)).1⟩

/-- C3, counterexample: at the origin the probe state with the Hybrid kind
(Julia branch escapes, Mandelbrot branch does not, `sin 0 = 0`) and no
supersampling returns 1/2, neither 0 nor 1. -/
theorem binary_field_hybrid_counterexample :
    ({ probe_data ℝ with fractal_type := 2 } : t_data ℝ).supersampling ≤ 1
      ∧ (sample_fractal_enhanced Real.sin { probe_data ℝ with fractal_type := 2 }
          (origin ℝ)).1 = 1 / 2
      ∧ (sample_fractal_enhanced Real.sin { probe_data ℝ with fractal_type := 2 }
          (origin ℝ)).1 ≠ 0
      ∧ (sample_fractal_enhanced Real.sin { probe_data ℝ with fractal_type := 2 }
          (origin ℝ)).1 ≠ 1 := by
  have hv : (sample_fractal_enhanced Real.sin { probe_data ℝ with fractal_type := 2 }
      (origin ℝ)).1 = 1 / 2 := by
    rw [sample_fractal_enhanced_of_le _ _ _ (by simp [probe_data])]
    simp [direct_sample, probe_data, zoomed_pos, origin, hybrid_blend,
      sample_4D_Julia_optimized, sample_4D_Julia_optimized_loop,
      sample_4D_Mandelbrot, sample_4D_Mandelbrot_loop]
    norm_num
  refine ⟨by simp [probe_data], hv, ?_, ?_⟩ <;> rw [hv] <;> norm_num

/-- C3, amended: without supersampling (`supersampling ≤ 1`) every fractal
kind other than Hybrid (`fractal_type ≠ 2`) returns exactly 0 or exactly 1;
the Hybrid kind returns one of 0, `blend`, `1 - blend`, 1. -/
theorem binary_field_without_supersampling (sinf : F → F) (data : t_data F)
    (pos : float3 F) (hss : data.supersampling ≤ 1) :
    (data.fractal_type ≠ 2 →
      (sample_fractal_enhanced sinf data pos).1 = 0
        ∨ (sample_fractal_enhanced sinf data pos).1 = 1)
    ∧ (data.fractal_type = 2 →
      (sample_fractal_enhanced sinf data pos).1 = 0
        ∨ (sample_fractal_enhanced sinf data pos).1 = hybrid_blend sinf (zoomed_pos data pos)
        ∨ (sample_fractal_enhanced sinf data pos).1
            = 1 - hybrid_blend sinf (zoomed_pos data pos)
        ∨ (sample_fractal_enhanced sinf data pos).1 = 1) := by
  rw [sample_fractal_enhanced_of_le sinf data pos hss]
  have hj := sample_4D_Julia_optimized_zero_or_one data.fract.julia (zoomed_pos data pos)
  have hm := sample_4D_Mandelbrot_zero_or_one data.fract.julia (zoomed_pos data pos)
  have ha := sample_4D_Julia_alternative_formula_zero_or_one data.fract.julia
    (zoomed_pos data pos) data.quaternion_formula
  have hd := sample_4D_Julia_deep_zoom_zero_or_one data.fract.julia (zoomed_pos data pos)
    data.zoom_level
  constructor
  · intro ht
    simp only [direct_sample]
    split_ifs
    · exact hd
    · exact ha
    · exact hj
    · exact hm
    · exact hj
  · intro ht
    have h0 : ¬ data.fractal_type = 0 := by omega
    have h1 : ¬ data.fractal_type = 1 := by omega
    simp only [direct_sample, h0, h1, ht, if_true, if_false]
    rcases hj with h | h <;> rcases hm with h' | h' <;> rw [h, h'] <;> simp

/-- Witness of the amended C3 at the probe state (Julia kind). -/
theorem binary_field_without_supersampling_witness :
    (probe_data ℝ).supersampling ≤ 1
      ∧ ((probe_data ℝ).fractal_type ≠ 2 →
        (sample_fractal_enhanced Real.sin (probe_data ℝ) (origin ℝ)).1 = 0
          ∨ (sample_fractal_enhanced Real.sin (probe_data ℝ) (origin ℝ)).1 = 1) :=
  ⟨by simp [probe_data],
    (binary_field_without_supersampling Real.sin (probe_data ℝ) (origin ℝ)
      (by simp [probe_data])).1⟩

/-- C4 (supersampling is the mean of the sub-samples).  For every
supersampling factor `N > 1`, position and step size `s`,
`sample_with_supersampling` returns `1 / N³` times the sum, over the index
triples `(i, j, k)` of `{0..N-1}³`, of `sample_fractal_enhanced` evaluated with
`supersampling = 1` at `pos + ((i - N/2) o, (j - N/2) o, (k - N/2) o)` with
`o = s / (2 N)` and `N/2` the integer quotient; the index set has `N³`
elements. -/
theorem supersampling_is_mean (sinf : F → F) (data : t_data F) (pos : float3 F) (N : Nat)
    (hN : 1 < N) (hss : data.supersampling = (N : Int)) :
    (sample_with_supersampling sinf data pos).1
      = 1 / ((N : F) ^ 3)
        * ∑ t ∈ Finset.range N ×ˢ (Finset.range N ×ˢ Finset.range N),
          (sample_fractal_enhanced sinf { data with supersampling := 1 }
            { x := pos.x + ((t.1 : F) - ((N / 2 : Nat) : F))
                * (data.fract.step_size / (2 * (N : F)))
              y := pos.y + ((t.2.1 : F) - ((N / 2 : Nat) : F))
                * (data.fract.step_size / (2 * (N : F)))
              z := pos.z + ((t.2.2 : F) - ((N / 2 : Nat) : F))
                * (data.fract.step_size / (2 * (N : F))) }).1
    ∧ (Finset.range N ×ˢ (Finset.range N ×ˢ Finset.range N)).card = N ^ 3 := by
  have hgt : 1 < data.supersampling := by rw [hss]; exact_mod_cast hN
  have hNat : data.supersampling.toNat = N := by rw [hss]; simp
  constructor
  · rw [sample_with_supersampling_of_gt sinf data pos hgt, hNat, Finset.sum_product]
    simp only [Finset.sum_product]
    have hterm : ∀ x y z : Nat,
        (sample_fractal_enhanced sinf { data with supersampling := 1 }
            { x := pos.x + ((x : F) - ((N / 2 : Nat) : F))
                * (data.fract.step_size / (2 * (N : F)))
              y := pos.y + ((y : F) - ((N / 2 : Nat) : F))
                * (data.fract.step_size / (2 * (N : F)))
              z := pos.z + ((z : F) - ((N / 2 : Nat) : F))
                * (data.fract.step_size / (2 * (N : F))) }).1
          = direct_sample sinf { data with supersampling := 1 }
              (supersampling_sample_pos data pos x y z) := by
      intro x y z
      rw [sample_fractal_enhanced_of_le sinf _ _ (le_refl (1 : Int)),
        supersampling_sample_pos_eq data pos N hss]
    simp only [hterm]
    rw [hss]
    push_cast
    rw [div_eq_mul_inv, mul_comm]
    congr 1
    rw [one_div]
    congr 1
    ring
  · simp [Finset.card_product]
    ring

/-- Witness of C4: with factor 2 on the probe state (sub-step `o = 1`) three of
the eight sub-samples around the origin stay bounded, so the value is 3/8. -/
theorem supersampling_is_mean_witness :
    (1 : Nat) < 2
      ∧ ({ probe_data ℝ with supersampling := 2 } : t_data ℝ).supersampling = ((2 : Nat) : Int)
      ∧ (sample_with_supersampling Real.sin { probe_data ℝ with supersampling := 2 }
          (origin ℝ)).1 = 3 / 8 :=
  ⟨by decide, by simp [probe_data], by
    rw [(supersampling_is_mean Real.sin { probe_data ℝ with supersampling := 2 } (origin ℝ) 2
      (by decide) (by simp [probe_data])).1]
    simp [Finset.sum_product, Finset.sum_range_succ, sample_fractal_enhanced_of_le,
      direct_sample, probe_data, zoomed_pos, origin, sample_4D_Julia_optimized,
      sample_4D_Julia_optimized_loop]
    norm_num⟩

/-- C5, the code at supersampling factor 2 (grid step 4, sub-step `o = 1`,
requested position the origin): on every axis the mean of the 8 sub-sample
coordinates is -1/2, not the requested coordinate 0, and the integer offsets
`i - N/2` are -1 and 0. -/
theorem supersampling_grid_off_center_even :
    (∑ t ∈ Finset.range 2 ×ˢ (Finset.range 2 ×ˢ Finset.range 2),
        (supersampling_sample_pos { probe_data ℚ with supersampling := 2 } (origin ℚ)
          t.1 t.2.1 t.2.2).x) / 8 = -1 / 2
      ∧ (∑ t ∈ Finset.range 2 ×ˢ (Finset.range 2 ×ˢ Finset.range 2),
        (supersampling_sample_pos { probe_data ℚ with supersampling := 2 } (origin ℚ)
          t.1 t.2.1 t.2.2).y) / 8 = -1 / 2
      ∧ (∑ t ∈ Finset.range 2 ×ˢ (Finset.range 2 ×ˢ Finset.range 2),
        (supersampling_sample_pos { probe_data ℚ with supersampling := 2 } (origin ℚ)
          t.1 t.2.1 t.2.2).z) / 8 = -1 / 2
      ∧ (origin ℚ).x = 0 ∧ (origin ℚ).y = 0 ∧ (origin ℚ).z = 0
      ∧ (supersampling_sample_pos { probe_data ℚ with supersampling := 2 } (origin ℚ)
          0 0 0).x = -1
      ∧ (supersampling_sample_pos { probe_data ℚ with supersampling := 2 } (origin ℚ)
          1 1 1).x = 0 := by
  refine ⟨?_, ?_, ?_, rfl, rfl, rfl, ?_, ?_⟩ <;>
    simp [Finset.sum_product, Finset.sum_range_succ, supersampling_sample_pos, probe_data,
      origin, Int.tdiv] <;>
    norm_num

/-- C6 (determinism, no lasting mutation).  For every data state and
position the data state returned by `sample_fractal_enhanced` (and by
`sample_with_supersampling`) equals the state on entry in every field, in
particular `supersampling`; and a second call, made on the state the first
call left, returns the same value. -/
theorem sample_leaves_data_unchanged (sinf : F → F) (data : t_data F) (pos : float3 F) :
    (sample_fractal_enhanced sinf data pos).2 = data
      ∧ (sample_fractal_enhanced sinf data pos).2.supersampling = data.supersampling
      ∧ (sample_with_supersampling sinf data pos).2 = data
      ∧ (sample_fractal_enhanced sinf (sample_fractal_enhanced sinf data pos).2 pos).1
          = (sample_fractal_enhanced sinf data pos).1 := by
  have h1 := sample_fractal_enhanced_state sinf data pos
  refine ⟨h1, by rw [h1], ?_, by rw [h1]⟩
  by_cases h : data.supersampling ≤ 1
  · rw [sample_with_supersampling_of_le sinf data pos h]
  · rw [sample_with_supersampling_of_gt sinf data pos (not_le.mp h)]

/-- C7, counterexample: with `threshold = 10` the Julia evaluator returns 0 at
the origin for the probe constant `c = (3,0,0,0)` although the squared
magnitude of `z_1`, which is 9, does not exceed `threshold² = 100`. -/
theorem julia_threshold_counterexample :
    (0 : ℚ) < 10
      ∧ sample_4D_Julia_optimized
          ({ max_iter := 1, threshold := 10, w := 0, c := { x := 3, y := 0, z := 0, w := 0 } }
            : t_julia ℚ) (origin ℚ) = 0
      ∧ ¬ ∃ k, 1 ≤ k ∧ k ≤ 1
          ∧ mag_sq (orbit (julia_step ({ x := 3, y := 0, z := 0, w := 0 } : cl_quat ℚ))
              ({ x := 0, y := 0, z := 0, w := 0 } : cl_quat ℚ) k) > 10 ^ 2 := by
  refine ⟨by norm_num, ?_, ?_⟩
  · simp [sample_4D_Julia_optimized, sample_4D_Julia_optimized_loop, origin]
    norm_num
  · rintro ⟨k, h1, h2, h3⟩
    obtain rfl : k = 1 := by omega
    simp [orbit, julia_step, mag_sq] at h3
    norm_num at h3

/-- C7, amended: the escape test uses fixed constants, not `julia->threshold`.
`sample_4D_Julia_optimized` returns 0 exactly when the squared magnitude of
some `z_k`, `1 ≤ k ≤ max_iter`, exceeds 4, and 1 otherwise;
`sample_4D_Julia_alternative_formula` does the same with the constant 16, for
every formula id; neither result depends on the `threshold` field. -/
theorem julia_escape_constants (julia : t_julia F) (pos : float3 F) :
    (sample_4D_Julia_optimized julia pos = 0
        ↔ ∃ k, 1 ≤ k ∧ k ≤ julia.max_iter
          ∧ mag_sq (orbit (julia_step julia.c)
              { x := pos.x, y := pos.y, z := pos.z, w := julia.w } k) > 4)
      ∧ (sample_4D_Julia_optimized julia pos = 0 ∨ sample_4D_Julia_optimized julia pos = 1)
      ∧ (∀ formula : Int,
          (sample_4D_Julia_alternative_formula julia pos formula = 0
            ↔ ∃ k, 1 ≤ k ∧ k ≤ julia.max_iter
              ∧ mag_sq (orbit (alternative_step formula julia.c)
                  { x := pos.x, y := pos.y, z := pos.z, w := julia.w } k) > 16)
          ∧ (sample_4D_Julia_alternative_formula julia pos formula = 0
            ∨ sample_4D_Julia_alternative_formula julia pos formula = 1))
      ∧ (∀ t : F,
          sample_4D_Julia_optimized { julia with threshold := t } pos
            = sample_4D_Julia_optimized julia pos
          ∧ ∀ formula : Int,
            sample_4D_Julia_alternative_formula { julia with threshold := t } pos formula
              = sample_4D_Julia_alternative_formula julia pos formula) := by
  refine ⟨?_, sample_4D_Julia_optimized_zero_or_one julia pos, fun formula => ⟨?_,
    sample_4D_Julia_alternative_formula_zero_or_one julia pos formula⟩,
    fun t => ⟨rfl, fun _ => rfl⟩⟩
  · unfold sample_4D_Julia_optimized
    rw [julia_optimized_loop_eq]
    exact escape_iteration_eq_zero_iff _ _ _ _
  · unfold sample_4D_Julia_alternative_formula
    rw [alternative_loop_eq]
    exact escape_iteration_eq_zero_iff _ _ _ _

/-- C8, the code at a deep-zoom input (zoom level 2048, position
`(6144, 0, 0)`, `c = 0`, one iteration): the iteration started from the
position divided once by the zoom level, `z_0 = (3,0,0,0)`, escapes (value 0),
but `sample_fractal_enhanced` returns 1, the value of the iteration started
from the position divided twice, `z_0 = (3/2048, 0, 0, 0)`. -/
theorem deep_zoom_divides_position_twice :
    (deep_zoom_data ℝ).fractal_type = 0 ∧ (deep_zoom_data ℝ).supersampling ≤ 1
      ∧ (deep_zoom_data ℝ).use_double_precision ≠ 0 ∧ (deep_zoom_data ℝ).zoom_level > 1000
      ∧ (sample_fractal_enhanced Real.sin (deep_zoom_data ℝ)
          { x := 6144, y := 0, z := 0 }).1 = 1
      ∧ escape_iteration (julia_step (deep_zoom_data ℝ).fract.julia.c) 4
          (deep_zoom_data ℝ).fract.julia.max_iter
          { x := 6144 / (deep_zoom_data ℝ).zoom_level
            y := 0 / (deep_zoom_data ℝ).zoom_level
            z := 0 / (deep_zoom_data ℝ).zoom_level
            w := (deep_zoom_data ℝ).fract.julia.w / (deep_zoom_data ℝ).zoom_level } = 0
      ∧ escape_iteration (julia_step (deep_zoom_data ℝ).fract.julia.c) 4
          (deep_zoom_data ℝ).fract.julia.max_iter
          { x := 6144 / (deep_zoom_data ℝ).zoom_level / (deep_zoom_data ℝ).zoom_level
            y := 0 / (deep_zoom_data ℝ).zoom_level / (deep_zoom_data ℝ).zoom_level
            z := 0 / (deep_zoom_data ℝ).zoom_level / (deep_zoom_data ℝ).zoom_level
            w := (deep_zoom_data ℝ).fract.julia.w / (deep_zoom_data ℝ).zoom_level } = 1 := by
  have hz : (deep_zoom_data ℝ).zoom_level > 1000 := by
    simp only [deep_zoom_data]; norm_num
  refine ⟨rfl, by simp [deep_zoom_data], by simp [deep_zoom_data], hz, ?_, ?_, ?_⟩
  · rw [sample_fractal_enhanced_deep_zoom Real.sin (deep_zoom_data ℝ) _
      (by simp [deep_zoom_data]) rfl (by simp [deep_zoom_data]) hz]
    simp [deep_zoom_data, escape_iteration, julia_step, mag_sq]
    norm_num
  · simp [deep_zoom_data, escape_iteration, julia_step, mag_sq]
    norm_num
  · simp [deep_zoom_data, escape_iteration, julia_step, mag_sq]
    norm_num

/-- C9, counterexample: on the probe state (Julia kind, no supersampling, no
deep zoom, `c = (3,0,0,0)`, one iteration) the unknown formula id 7 returns 1
at the origin while formula id 0 returns 0: `|z_1|² = 9` exceeds 4 but not
16. -/
theorem unknown_formula_counterexample :
    (sample_fractal_enhanced Real.sin { probe_data ℝ with quaternion_formula := 7 }
        (origin ℝ)).1 = 1
      ∧ (sample_fractal_enhanced Real.sin { probe_data ℝ with quaternion_formula := 0 }
        (origin ℝ)).1 = 0 := by
  constructor
  · rw [sample_fractal_enhanced_of_le _ _ _ (by simp [probe_data])]
    simp [direct_sample, probe_data, zoomed_pos, origin,
      sample_4D_Julia_alternative_formula, sample_4D_Julia_alternative_formula_loop,
      alternative_formula_z_new]
    norm_num
  · rw [sample_fractal_enhanced_of_le _ _ _ (by simp [probe_data])]
    simp [direct_sample, probe_data, zoomed_pos, origin,
      sample_4D_Julia_optimized, sample_4D_Julia_optimized_loop]
    norm_num

/-- C9, amended: for the Julia kind without supersampling and without deep
zoom, a formula id outside {0,1,2,3} returns the value of the standard
`z ← z² + c` escape iteration with the squared-magnitude constant 16 of the
alternative-formula evaluator (the value `sample_4D_Julia_alternative_formula`
returns for id 0), whereas formula id 0 is evaluated with the constant 4. -/
theorem unknown_formula_standard_step (sinf : F → F) (data : t_data F) (pos : float3 F)
    (hss : data.supersampling ≤ 1) (ht : data.fractal_type = 0)
    (hz : ¬ (data.use_double_precision ≠ 0 ∧ data.zoom_level > 1000))
    (h0 : data.quaternion_formula ≠ 0) (h1 : data.quaternion_formula ≠ 1)
    (h2 : data.quaternion_formula ≠ 2) (h3 : data.quaternion_formula ≠ 3) :
    (sample_fractal_enhanced sinf data pos).1
        = escape_iteration (julia_step data.fract.julia.c) 16 data.fract.julia.max_iter
            { x := (zoomed_pos data pos).x, y := (zoomed_pos data pos).y,
              z := (zoomed_pos data pos).z, w := data.fract.julia.w }
      ∧ (sample_fractal_enhanced sinf data pos).1
        = sample_4D_Julia_alternative_formula data.fract.julia (zoomed_pos data pos) 0
      ∧ (sample_fractal_enhanced sinf { data with quaternion_formula := 0 } pos).1
        = escape_iteration (julia_step data.fract.julia.c) 4 data.fract.julia.max_iter
            { x := (zoomed_pos data pos).x, y := (zoomed_pos data pos).y,
              z := (zoomed_pos data pos).z, w := data.fract.julia.w } := by
  have hz' : ¬ (¬ data.use_double_precision = 0 ∧ data.zoom_level > 1000) := hz
  refine ⟨?_, ?_, ?_⟩
  · rw [sample_fractal_enhanced_of_le sinf data pos hss]
    simp only [direct_sample, ht, if_true, hz', if_false, ne_eq, h0, not_false_eq_true,
      sample_4D_Julia_alternative_formula, alternative_loop_eq]
    rw [alternative_step_default _ h1 h2 h3]
  · rw [sample_fractal_enhanced_of_le sinf data pos hss]
    simp only [direct_sample, ht, if_true, hz', if_false, ne_eq, h0, not_false_eq_true,
      sample_4D_Julia_alternative_formula, alternative_loop_eq]
    rw [alternative_step_default _ h1 h2 h3,
      alternative_step_default 0 (by decide) (by decide) (by decide)]
  · rw [sample_fractal_enhanced_of_le sinf { data with quaternion_formula := 0 } pos hss]
    simp only [direct_sample, ht, if_true, hz', if_false, ne_eq, not_true_eq_false,
      sample_4D_Julia_optimized, julia_optimized_loop_eq]
    rfl

/-- Witness of the amended C9: formula id 7 on the probe state. -/
theorem unknown_formula_standard_step_witness :
    (sample_fractal_enhanced Real.sin { probe_data ℝ with quaternion_formula := 7 }
        (origin ℝ)).1
      = sample_4D_Julia_alternative_formula
          ({ probe_data ℝ with quaternion_formula := 7 } : t_data ℝ).fract.julia
          (zoomed_pos { probe_data ℝ with quaternion_formula := 7 } (origin ℝ)) 0 :=
  (unknown_formula_standard_step Real.sin { probe_data ℝ with quaternion_formula := 7 }
    (origin ℝ) (by simp [probe_data]) (by simp [probe_data]) (by simp [probe_data])
    (by simp [probe_data]) (by simp [probe_data]) (by simp [probe_data])
    (by simp [probe_data])).2.1

end SamplerTheorems

/-! ## Cube classification -/

section CubeTheorems

variable {F : Type} [LinearOrderedField F]

/-- C10 (cube configuration index).  For every value array and cube offset,
bit `k` of `getCubeIndex` is set exactly when corner `k` is nonzero, for
`k = 0..7`; the result is at most 255, it is 0 exactly when all corners are
zero and 255 exactly when all corners are nonzero; a corner value 1/100 sets
its bit like any other nonzero value. -/
theorem getCubeIndex_spec (v_val : Nat → F) (pos : Nat) :
    (∀ k : Fin 8, (getCubeIndex v_val pos).testBit k.val = true ↔ v_val (pos + k.val) ≠ 0)
      ∧ getCubeIndex v_val pos ≤ 255
      ∧ (getCubeIndex v_val pos = 0 ↔ ∀ k : Fin 8, v_val (pos + k.val) = 0)
      ∧ (getCubeIndex v_val pos = 255 ↔ ∀ k : Fin 8, v_val (pos + k.val) ≠ 0)
      ∧ getCubeIndex (fun i => if i = pos + 3 then (1 / 100 : F) else 0) pos = 8 := by
  obtain ⟨t0, t1, t2, t3, t4, t5, t6, t7⟩ :=
    cube_index_of_bits_testBit (decide (v_val (pos + 0) ≠ 0))
      (decide (v_val (pos + 1) ≠ 0)) (decide (v_val (pos + 2) ≠ 0))
      (decide (v_val (pos + 3) ≠ 0)) (decide (v_val (pos + 4) ≠ 0))
      (decide (v_val (pos + 5) ≠ 0)) (decide (v_val (pos + 6) ≠ 0))
      (decide (v_val (pos + 7) ≠ 0))
  have h0 := cube_index_of_bits_eq_zero (decide (v_val (pos + 0) ≠ 0))
    (decide (v_val (pos + 1) ≠ 0)) (decide (v_val (pos + 2) ≠ 0))
    (decide (v_val (pos + 3) ≠ 0)) (decide (v_val (pos + 4) ≠ 0))
    (decide (v_val (pos + 5) ≠ 0)) (decide (v_val (pos + 6) ≠ 0))
    (decide (v_val (pos + 7) ≠ 0))
  have h255 := cube_index_of_bits_eq_full (decide (v_val (pos + 0) ≠ 0))
    (decide (v_val (pos + 1) ≠ 0)) (decide (v_val (pos + 2) ≠ 0))
    (decide (v_val (pos + 3) ≠ 0)) (decide (v_val (pos + 4) ≠ 0))
    (decide (v_val (pos + 5) ≠ 0)) (decide (v_val (pos + 6) ≠ 0))
    (decide (v_val (pos + 7) ≠ 0))
  rw [← getCubeIndex_eq_bits] at t0 t1 t2 t3 t4 t5 t6 t7 h0 h255
  refine ⟨?_, ?_, ?_, ?_, ?_⟩
  · intro k
    fin_cases k
    · simp only [t0]; simp
    · simp only [t1]; simp
    · simp only [t2]; simp
    · simp only [t3]; simp
    · simp only [t4]; simp
    · simp only [t5]; simp
    · simp only [t6]; simp
    · simp only [t7]; simp
  · rw [getCubeIndex_eq_bits]
    exact cube_index_of_bits_le _ _ _ _ _ _ _ _
  · refine decide_eq_true_iff.symm.trans ?_
    rw [h0]
    simp only [Bool.and_eq_true, Bool.not_eq_true', decide_eq_false_iff_not, ne_eq, not_not]
    constructor
    · rintro ⟨⟨⟨⟨⟨⟨⟨a0, a1⟩, a2⟩, a3⟩, a4⟩, a5⟩, a6⟩, a7⟩ k
      fin_cases k <;> assumption
    · intro h
      exact ⟨⟨⟨⟨⟨⟨⟨h 0, h 1⟩, h 2⟩, h 3⟩, h 4⟩, h 5⟩, h 6⟩, h 7⟩
  · refine decide_eq_true_iff.symm.trans ?_
    rw [h255]
    simp only [Bool.and_eq_true, decide_eq_true_eq]
    constructor
    · rintro ⟨⟨⟨⟨⟨⟨⟨a0, a1⟩, a2⟩, a3⟩, a4⟩, a5⟩, a6⟩, a7⟩ k
      fin_cases k <;> assumption
    · intro h
      exact ⟨⟨⟨⟨⟨⟨⟨h 0, h 1⟩, h 2⟩, h 3⟩, h 4⟩, h 5⟩, h 6⟩, h 7⟩
  · simp [getCubeIndex]

end CubeTheorems

/-! ## Lemmas on the triangulator and the triangle storage -/

section MeshLemmas

variable {F : Type}

theorem standard_edgetable_zero_full :
    standard_edgetable 0 = 0 ∧ standard_edgetable 255 = 0 := by
  decide

theorem getCubeIndex_of_all_zero [LinearOrderedField F] (v_val : Nat → F) (pos : Nat)
    (h : ∀ k : Fin 8, v_val (pos + k.val) = 0) : getCubeIndex v_val pos = 0 := by
  have h0 : v_val (pos + 0) = 0 := h 0
  have h1 : v_val (pos + 1) = 0 := h 1
  have h2 : v_val (pos + 2) = 0 := h 2
  have h3 : v_val (pos + 3) = 0 := h 3
  have h4 : v_val (pos + 4) = 0 := h 4
  have h5 : v_val (pos + 5) = 0 := h 5
  have h6 : v_val (pos + 6) = 0 := h 6
  have h7 : v_val (pos + 7) = 0 := h 7
  simp only [add_zero] at h0
  simp [getCubeIndex, h0, h1, h2, h3, h4, h5, h6, h7]

theorem getCubeIndex_of_all_one [LinearOrderedField F] (v_val : Nat → F) (pos : Nat)
    (h : ∀ k : Fin 8, v_val (pos + k.val) = 1) : getCubeIndex v_val pos = 255 := by
  have h0 : v_val (pos + 0) = 1 := h 0
  have h1 : v_val (pos + 1) = 1 := h 1
  have h2 : v_val (pos + 2) = 1 := h 2
  have h3 : v_val (pos + 3) = 1 := h 3
  have h4 : v_val (pos + 4) = 1 := h 4
  have h5 : v_val (pos + 5) = 1 := h 5
  have h6 : v_val (pos + 6) = 1 := h 6
  have h7 : v_val (pos + 7) = 1 := h 7
  simp only [add_zero] at h0
  simp [getCubeIndex, h0, h1, h2, h3, h4, h5, h6, h7]

theorem polygonise_of_mask_zero [LinearOrderedField F] (edgetable : Nat → Nat)
    (tritable : Nat → List Int) (fresh_verts : Nat → float3 F) (fresh : Nat → triangle F)
    (v_pos : Nat → float3 F) (v_val : Nat → F) (pos : uint2) (data : t_data_mesh F)
    (h : edgetable (getCubeIndex v_val pos.x) = 0) :
    polygonise edgetable tritable fresh_verts fresh v_pos v_val pos data = some (none, data)
      ∧ polygonise_optimized edgetable tritable fresh v_pos v_val pos data
          = some (none, data) := by
  simp [polygonise, polygonise_optimized, h]

theorem ite_update_apply {α : Type} (c : Prop) [Decidable c] (f : Nat → α) (a : Nat) (v : α)
    (e : Nat) :
    (if c then Function.update f a v else f) e = if c ∧ e = a then v else f e := by
  by_cases hc : c <;> by_cases he : e = a <;> simp [hc, he, Function.update]

theorem set_edge_vertices_of_bit [LinearOrderedField F] (edgetable : Nat → Nat)
    (cubeindex : Nat) (v_pos : Nat → float3 F) (v_val : Nat → F) (pos : Nat)
    (vertlist : Nat → float3 F) (e : Nat) (he : e < 12)
    (hbit : edgetable cubeindex &&& 2 ^ e ≠ 0) :
    set_edge_vertices edgetable cubeindex v_pos v_val pos vertlist e
      = edge_vertex v_pos v_val pos e := by
  simp only [set_edge_vertices, ite_update_apply]
  interval_cases e <;> simp_all [edge_vertex, edge_corners]

theorem set_edge_vertices_of_not_bit [LinearOrderedField F] (edgetable : Nat → Nat)
    (cubeindex : Nat) (v_pos : Nat → float3 F) (v_val : Nat → F) (pos : Nat)
    (vertlist : Nat → float3 F) (e : Nat)
    (hbit : e < 12 → edgetable cubeindex &&& 2 ^ e = 0) :
    set_edge_vertices edgetable cubeindex v_pos v_val pos vertlist e = vertlist e := by
  simp only [set_edge_vertices, ite_update_apply]
  by_cases he : e < 12
  · have hz := hbit he
    interval_cases e <;> simp_all
  · have hne : e ≠ 0 ∧ e ≠ 1 ∧ e ≠ 2 ∧ e ≠ 3 ∧ e ≠ 4 ∧ e ≠ 5 ∧ e ≠ 6 ∧ e ≠ 7 ∧ e ≠ 8
        ∧ e ≠ 9 ∧ e ≠ 10 ∧ e ≠ 11 := by omega
    simp [hne]

theorem package_triangles_eq (row : List Int) (fresh : Nat → triangle F)
    (vertlist : Nat → float3 F) (j : Nat) :
    package_triangles row fresh vertlist (3 * j)
      = some (Function.update fresh 0 (table_triangle row vertlist j)) := by
  simp [package_triangles, alloc_float3_arr, table_triangle]

theorem arr_float3_cat_loop_apply (f_from : Nat → triangle F) (n : Nat) :
    ∀ (to_c from_c : Nat) (f_to : Nat → triangle F) (i : Nat),
      arr_float3_cat_loop f_from n to_c from_c f_to i
        = if to_c ≤ i ∧ i < to_c + n then f_from (from_c + (i - to_c)) else f_to i := by
  induction n with
  | zero =>
    intro to_c from_c f_to i
    have hno : ¬ (to_c ≤ i ∧ i < to_c + 0) := by omega
    rw [arr_float3_cat_loop, if_neg hno]
  | succ n ih =>
    intro to_c from_c f_to i
    rw [arr_float3_cat_loop, ih]
    by_cases h1 : to_c + 1 ≤ i ∧ i < to_c + 1 + n
    · have h2 : to_c ≤ i ∧ i < to_c + (n + 1) := by omega
      have h3 : from_c + 1 + (i - (to_c + 1)) = from_c + (i - to_c) := by omega
      simp [h1, h2, h3]
    · by_cases h4 : i = to_c
      · subst h4
        have h2 : i ≤ i ∧ i < i + (n + 1) := by omega
        simp [h1, h2]
      · have h2 : ¬ (to_c ≤ i ∧ i < to_c + (n + 1)) := by omega
        simp [h1, h2, Function.update, h4]

theorem arr_float3_cat_in_range (fresh : Nat → triangle F) (f_from : Nat → triangle F)
    (f_to : Option (Nat → triangle F)) (A B : Nat) (h1 : 1 ≤ A + B)
    (h2 : A + B < 4294967296) :
    ∃ arr, arr_float3_cat fresh f_from f_to { x := B, y := A }
          = (some arr, { x := A + B, y := 0 })
      ∧ (∀ dest, f_to = some dest → ∀ i, i < B → arr i = dest i)
      ∧ (∀ i, i < A → arr (B + i) = f_from i) := by
  have hsz : (B + A) % 4294967296 = B + A := Nat.mod_eq_of_lt (by omega)
  have hne : ¬ B + A = 0 := by omega
  have hsub : B + A - B = A := by omega
  rw [Nat.add_comm A B]
  cases f_to with
  | none =>
    refine ⟨arr_float3_cat_loop f_from A B 0 fresh, ?_, ?_, ?_⟩
    · simp only [arr_float3_cat, alloc_float3_arr, hsz, if_neg hne, hsub]
    · intro dest h; cases h
    · intro i hi
      rw [arr_float3_cat_loop_apply, if_pos (by omega)]
      congr 1
      omega
  | some dest =>
    refine ⟨arr_float3_cat_loop f_from A B 0
      (fun c => if B ≤ c ∧ c < B + A then fresh c else dest c), ?_, ?_, ?_⟩
    · simp only [arr_float3_cat, alloc_float3_arr, hsz, if_neg hne, hsub]
    · intro dest' h i hi
      cases h
      rw [arr_float3_cat_loop_apply, if_neg (by omega), if_neg (by omega)]
    · intro i hi
      rw [arr_float3_cat_loop_apply, if_pos (by omega)]
      congr 1
      omega

theorem polygonise_loop_spec (row : List Int) (fresh : Nat → triangle F)
    (vertlist : Nat → float3 F) (k : Nat) (hk : k < 4294967296)
    (hs : row.getD (3 * k) (-1) = -1) (hns : ∀ j, j < k → row.getD (3 * j) (-1) ≠ -1) :
    ∀ (n j : Nat), j + n = k → ∀ (tris : Option (Nat → triangle F)) (y : Nat),
      tris_hold row vertlist j tris →
      ∃ ptr len, polygonise_loop row fresh vertlist (3 * j) tris { x := j, y := y }
          = some (ptr, len)
        ∧ len.x = k ∧ tris_hold row vertlist k ptr := by
  intro n
  induction n with
  | zero =>
    intro j hj tris y hold
    have hjk : j = k := by omega
    subst hjk
    refine ⟨tris, { x := j, y := y }, ?_, rfl, hold⟩
    rw [polygonise_loop, dif_neg (fun h => h hs)]
  | succ n ih =>
    intro j hj tris y hold
    have hjk : j < k := by omega
    obtain ⟨arr, hcat, hold_old, hnew⟩ :=
      arr_float3_cat_in_range fresh (Function.update fresh 0 (table_triangle row vertlist j))
        tris 1 j (by omega) (by omega)
    have hnext : tris_hold row vertlist (j + 1) (some arr) := by
      refine ⟨by omega, fun _ => ⟨arr, rfl, ?_⟩⟩
      intro m hm
      rcases Nat.lt_succ_iff_lt_or_eq.mp hm with hlt | heq
      · have hpos : 0 < j := by omega
        obtain ⟨old, hold1, hold2⟩ := hold.2 hpos
        rw [hold_old old hold1 m hlt]
        exact hold2 m hlt
      · subst heq
        have h0 := hnew 0 (by omega)
        simp only [Nat.add_zero, Function.update_same] at h0
        exact h0
    obtain ⟨ptr, len, hloop, hlen, hres⟩ := ih (j + 1) (by omega) (some arr) 0 hnext
    refine ⟨ptr, len, ?_, hlen, hres⟩
    rw [polygonise_loop]
    have h3 : 3 * j + 3 = 3 * (j + 1) := by ring
    have hcat1 : arr_float3_cat fresh
        (Function.update fresh 0 (table_triangle row vertlist j)) tris { x := j, y := 1 }
        = (some arr, { x := j + 1, y := 0 }) := by
      rw [hcat, Nat.add_comm 1 j]
    simp only [dif_pos (hns j hjk), package_triangles_eq, hcat1, h3]
    exact hloop

theorem foldl_add_eq_sum [LinearOrderedField F] (l : List F) (a : F) :
    l.foldl (fun mean s => mean + s) a = a + l.sum := by
  induction l generalizing a with
  | nil => simp
  | cons x xs ih => simp [ih, add_assoc]

theorem foldl_sq_eq_sum [LinearOrderedField F] (l : List F) (mean a : F) :
    l.foldl (fun variance s =>
        let diff := s - mean
        variance + diff * diff) a
      = a + (l.map (fun s => (s - mean) ^ 2)).sum := by
  induction l generalizing a with
  | nil => simp
  | cons x xs ih => simp [ih, add_assoc, sq]

theorem should_refine_grid_cell_eq [LinearOrderedField F] (sqrtf : F → F) (data : t_data F)
    (center : float3 F) (cell_size : F) (current_depth : Int) :
    should_refine_grid_cell sqrtf data center cell_size current_depth
      = if current_depth < data.max_grid_depth
          ∧ sqrtf (population_variance
              ((cell_sample_positions center cell_size).map (should_refine_sample data)))
            > data.detail_threshold
        then 1 else 0 := by
  unfold should_refine_grid_cell
  by_cases hd : current_depth ≥ data.max_grid_depth
  · have hnot : ¬ current_depth < data.max_grid_depth := not_lt.mpr hd
    simp [hd, hnot]
  · have hlt : current_depth < data.max_grid_depth := not_le.mp hd
    rw [if_neg hd]
    have hc : ({ x := center.x + 0, y := center.y + 0, z := center.z + 0 } : float3 F)
        = center := by
      cases center; simp
    have hlist : List.map (fun (o : float3 F) => should_refine_sample data
          { x := center.x + o.x, y := center.y + o.y, z := center.z + o.z })
        [ { x := -cell_size / 2, y := -cell_size / 2, z := -cell_size / 2 },
          { x := cell_size / 2, y := -cell_size / 2, z := -cell_size / 2 },
          { x := -cell_size / 2, y := cell_size / 2, z := -cell_size / 2 },
          { x := cell_size / 2, y := cell_size / 2, z := -cell_size / 2 },
          { x := -cell_size / 2, y := -cell_size / 2, z := cell_size / 2 },
          { x := cell_size / 2, y := -cell_size / 2, z := cell_size / 2 },
          { x := -cell_size / 2, y := cell_size / 2, z := cell_size / 2 },
          { x := cell_size / 2, y := cell_size / 2, z := cell_size / 2 },
          { x := 0, y := 0, z := 0 } ]
        = (cell_sample_positions center cell_size).map (should_refine_sample data) := by
      simp only [cell_sample_positions, List.map_cons, List.map_nil, hc, neg_div,
        ← sub_eq_add_neg]
    have hlen : (((cell_sample_positions center cell_size).map
        (should_refine_sample data)).length : F) = 9 := by
      simp [cell_sample_positions]
    simp only [hlist, foldl_add_eq_sum, foldl_sq_eq_sum, zero_add, hlt, true_and,
      population_variance, population_mean, hlen]

theorem population_variance_of_const [LinearOrderedField F] (l : List F) (c : F)
    (hl : l ≠ []) (h : ∀ s ∈ l, s = c) : population_variance l = 0 := by
  have hlen : (l.length : F) ≠ 0 := by
    have : l.length ≠ 0 := fun h0 => hl (List.length_eq_zero.mp h0)
    exact_mod_cast this
  have hmean : population_mean l = c := by
    unfold population_mean
    rw [List.sum_eq_card_nsmul l c h, nsmul_eq_mul, mul_comm, mul_div_assoc, div_self hlen,
      mul_one]
  unfold population_variance
  rw [hmean]
  have hz : (l.map (fun s => (s - c) ^ 2)).sum = 0 := by
    apply List.sum_eq_zero
    intro x hx
    obtain ⟨s, hs, rfl⟩ := List.mem_map.mp hx
    rw [h s hs]
    simp
  rw [hz, zero_div]

/-- The append that finds the count below the capacity makes no call of
`realloc`. -/
theorem add_triangle_to_flat_of_lt (realloc_null : Option Nat → Nat → Bool)
    (fresh_verts : Nat → float3 F) (data : t_data_mesh F) (vertices : triangle F)
    (h : data.flat_triangle_count < data.flat_triangle_capacity) :
    ∃ d, add_triangle_to_flat realloc_null fresh_verts data vertices = some d
      ∧ d.flat_triangle_count = (data.flat_triangle_count + 1) % 4294967296
      ∧ d.flat_triangle_capacity = data.flat_triangle_capacity
      ∧ d.flat_triangles_size = data.flat_triangles_size
      ∧ d.flat_triangles
        = Function.update
            (Function.update
              (Function.update data.flat_triangles
                ((data.flat_triangle_count * 3) % 4294967296) vertices.v0)
              ((data.flat_triangle_count * 3) % 4294967296 + 1) vertices.v1)
            ((data.flat_triangle_count * 3) % 4294967296 + 2) vertices.v2
      ∧ d.triangle_pool_size = data.triangle_pool_size
      ∧ d.triangle_pool_used = data.triangle_pool_used
      ∧ d.len = data.len
      ∧ d.mc_vertlist = data.mc_vertlist := by
  have hno : ¬ data.flat_triangle_count ≥ data.flat_triangle_capacity := by omega
  simp only [add_triangle_to_flat, if_neg hno, Option.map_some']
  exact ⟨_, rfl, rfl, rfl, rfl, rfl, rfl, rfl, rfl, rfl⟩

/-- The append that finds the count at or above the capacity calls `error`
when `realloc` returns `NULL`. -/
theorem add_triangle_to_flat_of_null (realloc_null : Option Nat → Nat → Bool)
    (fresh_verts : Nat → float3 F) (data : t_data_mesh F) (vertices : triangle F)
    (h : data.flat_triangle_count ≥ data.flat_triangle_capacity)
    (hnull : realloc_null data.flat_triangles_size (add_triangle_to_flat_new_size data) = true) :
    add_triangle_to_flat realloc_null fresh_verts data vertices = none := by
  have hnull2 : realloc_null data.flat_triangles_size
      (data.flat_triangle_capacity * 2 % 4294967296 * 3 % 4294967296 * 12) = true := hnull
  simp only [add_triangle_to_flat, if_pos h, realloc, hnull2, if_true, Option.map_none']

/-- The append that finds the count at or above the capacity and gets a block
from `realloc`. -/
theorem add_triangle_to_flat_of_ge (realloc_null : Option Nat → Nat → Bool)
    (fresh_verts : Nat → float3 F) (data : t_data_mesh F) (vertices : triangle F)
    (h : data.flat_triangle_count ≥ data.flat_triangle_capacity)
    (hnull : realloc_null data.flat_triangles_size (add_triangle_to_flat_new_size data)
      = false) :
    ∃ d, add_triangle_to_flat realloc_null fresh_verts data vertices = some d
      ∧ d.flat_triangle_count = (data.flat_triangle_count + 1) % 4294967296
      ∧ d.flat_triangle_capacity = (data.flat_triangle_capacity * 2) % 4294967296
      ∧ d.flat_triangles_size = some (add_triangle_to_flat_new_size data)
      ∧ d.flat_triangles
        = Function.update
            (Function.update
              (Function.update
                (fun i =>
                  if 12 * (i + 1) ≤ data.flat_triangles_size.getD 0
                      ∧ 12 * (i + 1) ≤ add_triangle_to_flat_new_size data
                  then data.flat_triangles i else fresh_verts i)
                ((data.flat_triangle_count * 3) % 4294967296) vertices.v0)
              ((data.flat_triangle_count * 3) % 4294967296 + 1) vertices.v1)
            ((data.flat_triangle_count * 3) % 4294967296 + 2) vertices.v2
      ∧ d.triangle_pool_size = data.triangle_pool_size
      ∧ d.triangle_pool_used = data.triangle_pool_used
      ∧ d.len = data.len
      ∧ d.mc_vertlist = data.mc_vertlist := by
  have hnull2 : realloc_null data.flat_triangles_size
      (data.flat_triangle_capacity * 2 % 4294967296 * 3 % 4294967296 * 12) = false := hnull
  simp only [add_triangle_to_flat, if_pos h, realloc, hnull2, Option.map_some']
  exact ⟨_, rfl, rfl, rfl, rfl, rfl, rfl, rfl, rfl, rfl⟩

/-- Appending keeps `count ≤ capacity` whenever the capacity is at least 1, its
double fits a `uint` and `realloc` returns a block. -/
theorem add_triangle_to_flat_invariant (realloc_null : Option Nat → Nat → Bool)
    (fresh_verts : Nat → float3 F) (data : t_data_mesh F) (vertices : triangle F)
    (hcap : 1 ≤ data.flat_triangle_capacity)
    (hfit : data.flat_triangle_capacity * 2 < 4294967296)
    (hinv : data.flat_triangle_count ≤ data.flat_triangle_capacity)
    (hnull : realloc_null data.flat_triangles_size (add_triangle_to_flat_new_size data)
      = false) :
    ∃ d, add_triangle_to_flat realloc_null fresh_verts data vertices = some d
      ∧ d.flat_triangle_count ≤ d.flat_triangle_capacity := by
  by_cases h : data.flat_triangle_count < data.flat_triangle_capacity
  · obtain ⟨d, hd, hc, hk, _⟩ :=
      add_triangle_to_flat_of_lt realloc_null fresh_verts data vertices h
    refine ⟨d, hd, ?_⟩
    rw [hc, hk, Nat.mod_eq_of_lt (by omega)]
    omega
  · obtain ⟨d, hd, hc, hk, _⟩ :=
      add_triangle_to_flat_of_ge realloc_null fresh_verts data vertices (by omega) hnull
    refine ⟨d, hd, ?_⟩
    rw [hc, hk, Nat.mod_eq_of_lt (by omega), Nat.mod_eq_of_lt hfit]
    omega

theorem add_triangles_to_flat_cons (realloc_null : Option Nat → Nat → Bool)
    (fresh_verts : Nat → float3 F) (data d : t_data_mesh F) (t : triangle F)
    (ts : List (triangle F))
    (h : add_triangle_to_flat realloc_null fresh_verts data t = some d) :
    add_triangles_to_flat realloc_null fresh_verts data (t :: ts)
      = add_triangles_to_flat realloc_null fresh_verts d ts := by
  simp only [add_triangles_to_flat, List.foldl_cons, Option.some_bind, h]

theorem add_triangles_to_flat_capacity (realloc_null : Option Nat → Nat → Bool)
    (fresh_verts : Nat → float3 F) (ts : List (triangle F)) :
    ∀ data : t_data_mesh F,
      data.flat_triangle_count + ts.length ≤ data.flat_triangle_capacity →
      ∃ d, add_triangles_to_flat realloc_null fresh_verts data ts = some d
        ∧ d.flat_triangle_capacity = data.flat_triangle_capacity
        ∧ d.flat_triangle_count ≤ data.flat_triangle_count + ts.length
        ∧ d.triangle_pool_size = data.triangle_pool_size
        ∧ d.flat_triangles_size = data.flat_triangles_size := by
  induction ts with
  | nil =>
    intro data _
    exact ⟨data, rfl, rfl, by simp, rfl, rfl⟩
  | cons t ts ih =>
    intro data h
    simp only [List.length_cons] at h
    obtain ⟨d1, hd1, hc, hcap, hsize, _, hps, _⟩ :=
      add_triangle_to_flat_of_lt realloc_null fresh_verts data t (by omega)
    have hcount : d1.flat_triangle_count ≤ data.flat_triangle_count + 1 := by
      rw [hc]; exact Nat.mod_le _ _
    obtain ⟨d, hd, g1, g2, g3, g4⟩ := ih d1 (by rw [hcap]; omega)
    refine ⟨d, ?_, by rw [g1, hcap], ?_, by rw [g3, hps], by rw [g4, hsize]⟩
    · rw [add_triangles_to_flat_cons realloc_null fresh_verts data d1 t ts hd1]
      exact hd
    · simp only [List.length_cons]
      omega

theorem get_triangle_from_pool_cases (data : t_data_mesh F)
    (hr : data.triangle_pool_used + 3 < 4294967296) :
    (data.triangle_pool_used + 3 ≤ data.triangle_pool_size →
        get_triangle_from_pool data
          = (triangle_ptr.pool_slot data.triangle_pool_used,
              { data with triangle_pool_used := data.triangle_pool_used + 3 }))
      ∧ (data.triangle_pool_size < data.triangle_pool_used + 3 →
        get_triangle_from_pool data = (triangle_ptr.fallback_malloc, data)) := by
  have hm : (data.triangle_pool_used + 3) % 4294967296 = data.triangle_pool_used + 3 :=
    Nat.mod_eq_of_lt hr
  constructor
  · intro h
    have hno : ¬ data.triangle_pool_used + 3 > data.triangle_pool_size := by omega
    simp [get_triangle_from_pool, hm, hno]
  · intro h
    simp [get_triangle_from_pool, hm, h]

theorem probe_cube_index : getCubeIndex (probe_corner_values ℚ) 0 = 1 := by
  simp [getCubeIndex, probe_corner_values]

end MeshLemmas

/-! ## The triangulator and the triangle storage: claims -/

section MeshTheorems

variable {F : Type}

/-- C11 (empty or full cube).  For every cube whose 8 corner values are all 0
or all 1, the configuration index is 0 or 255, the entry of the standard edge
table at that index is 0 (entries 0 and 255 are 0), and `polygonise` and
`polygonise_optimized` return `NULL` and leave the data state as it was, the
scratch vertex list included: no edge vertex is computed. -/
theorem empty_or_full_cube_emits_nothing [LinearOrderedField F] (tritable : Nat → List Int)
    (fresh_verts : Nat → float3 F) (fresh : Nat → triangle F) (v_pos : Nat → float3 F)
    (v_val : Nat → F) (pos : uint2) (data : t_data_mesh F)
    (h : (∀ k : Fin 8, v_val (pos.x + k.val) = 0) ∨ (∀ k : Fin 8, v_val (pos.x + k.val) = 1)) :
    (getCubeIndex v_val pos.x = 0 ∨ getCubeIndex v_val pos.x = 255)
      ∧ standard_edgetable 0 = 0 ∧ standard_edgetable 255 = 0
      ∧ standard_edgetable (getCubeIndex v_val pos.x) = 0
      ∧ polygonise standard_edgetable tritable fresh_verts fresh v_pos v_val pos data
          = some (none, data)
      ∧ polygonise_optimized standard_edgetable tritable fresh v_pos v_val pos data
          = some (none, data) := by
  have hidx : getCubeIndex v_val pos.x = 0 ∨ getCubeIndex v_val pos.x = 255 := by
    rcases h with h | h
    · exact Or.inl (getCubeIndex_of_all_zero v_val pos.x h)
    · exact Or.inr (getCubeIndex_of_all_one v_val pos.x h)
  have hmask : standard_edgetable (getCubeIndex v_val pos.x) = 0 := by
    rcases hidx with h0 | h0 <;> rw [h0]
    · exact standard_edgetable_zero_full.1
    · exact standard_edgetable_zero_full.2
  obtain ⟨hp, hpo⟩ := polygonise_of_mask_zero standard_edgetable tritable fresh_verts fresh
    v_pos v_val pos data hmask
  exact ⟨hidx, standard_edgetable_zero_full.1, standard_edgetable_zero_full.2, hmask, hp, hpo⟩

/-- Witness of C11: the cube whose corners are all 1. -/
theorem empty_or_full_cube_emits_nothing_witness :
    ((∀ k : Fin 8, (fun _ : Nat => (1 : ℚ)) (0 + k.val) = 0)
        ∨ (∀ k : Fin 8, (fun _ : Nat => (1 : ℚ)) (0 + k.val) = 1))
      ∧ polygonise standard_edgetable probe_tritable (fun i => diag ℚ i)
          (fun _ => probe_triangle ℚ) (fun i => diag ℚ i) (fun _ => (1 : ℚ))
          { x := 0, y := 0 } (init_data_mesh ℚ)
        = some (none, init_data_mesh ℚ) :=
  ⟨Or.inr (fun _ => rfl),
    (empty_or_full_cube_emits_nothing probe_tritable (fun i => diag ℚ i)
      (fun _ => probe_triangle ℚ) (fun i => diag ℚ i) (fun _ => (1 : ℚ))
      { x := 0, y := 0 } (init_data_mesh ℚ) (Or.inr (fun _ => rfl))).2.2.2.2.1⟩

/-- C12 (edge interpolation).  `interpolate` returns `p0` if `v0 = 1`; else
`p1` if `v1 = 1`; else `p0` if `v1 = v0`; else `p0 + mu (p1 - p0)` on each
component with `mu = (1 - v0) / (v1 - v0)`, and in that last case, the only one
that divides, the divisor `v1 - v0` is not zero. -/
theorem interpolate_spec [LinearOrderedField F] (p0 p1 : float3 F) (v0 v1 : F) :
    (v0 = 1 → interpolate p0 p1 v0 v1 = p0)
      ∧ (v0 ≠ 1 → v1 = 1 → interpolate p0 p1 v0 v1 = p1)
      ∧ (v0 ≠ 1 → v1 ≠ 1 → v1 = v0 → interpolate p0 p1 v0 v1 = p0)
      ∧ (v0 ≠ 1 → v1 ≠ 1 → v1 ≠ v0 →
          v1 - v0 ≠ 0
            ∧ interpolate p0 p1 v0 v1
              = { x := p0.x + (1 - v0) / (v1 - v0) * (p1.x - p0.x)
                  y := p0.y + (1 - v0) / (v1 - v0) * (p1.y - p0.y)
                  z := p0.z + (1 - v0) / (v1 - v0) * (p1.z - p0.z) }) := by
  refine ⟨?_, ?_, ?_, ?_⟩
  · intro h; simp [interpolate, h]
  · intro h0 h1; simp [interpolate, h0, h1]
  · intro h0 h1 h; simp [interpolate, h0, h1, h]
  · intro h0 h1 h
    have hd : v1 - v0 ≠ 0 := sub_ne_zero.mpr h
    exact ⟨hd, by simp [interpolate, h0, h1, hd]⟩

/-- Witness of C12: between the values 0 and 1/2 the point is
`p0 + 2 (p1 - p0)`. -/
theorem interpolate_spec_witness :
    (0 : ℚ) ≠ 1 ∧ (1 / 2 : ℚ) ≠ 1 ∧ (1 / 2 : ℚ) ≠ 0
      ∧ (1 / 2 : ℚ) - 0 ≠ 0
      ∧ interpolate (diag ℚ 0) (diag ℚ 1) 0 (1 / 2)
          = { x := (diag ℚ 0).x + (1 - 0) / (1 / 2 - 0) * ((diag ℚ 1).x - (diag ℚ 0).x)
              y := (diag ℚ 0).y + (1 - 0) / (1 / 2 - 0) * ((diag ℚ 1).y - (diag ℚ 0).y)
              z := (diag ℚ 0).z + (1 - 0) / (1 / 2 - 0) * ((diag ℚ 1).z - (diag ℚ 0).z) } :=
  ⟨by norm_num, by norm_num, by norm_num,
    (interpolate_spec (diag ℚ 0) (diag ℚ 1) 0 (1 / 2)).2.2.2 (by norm_num) (by norm_num)
      (by norm_num)⟩

/-- C13 (snapping on a binary field).  For values `v0`, `v1` in `{0, 1}`
`interpolate` returns exactly `p0` or exactly `p1`; when exactly one of the two
values is 1 it returns the position of the corner whose value is 1. -/
theorem interpolate_snaps_on_binary_field [LinearOrderedField F] (p0 p1 : float3 F) (v0 v1 : F)
    (h0 : v0 = 0 ∨ v0 = 1) (h1 : v1 = 0 ∨ v1 = 1) :
    (interpolate p0 p1 v0 v1 = p0 ∨ interpolate p0 p1 v0 v1 = p1)
      ∧ (v0 = 1 → v1 = 0 → interpolate p0 p1 v0 v1 = p0)
      ∧ (v0 = 0 → v1 = 1 → interpolate p0 p1 v0 v1 = p1) := by
  rcases h0 with h0 | h0 <;> rcases h1 with h1 | h1 <;> subst h0 <;> subst h1 <;>
    simp [interpolate]

/-- Witness of C13: values 0 and 1 give the second corner. -/
theorem interpolate_snaps_on_binary_field_witness :
    ((0 : ℚ) = 0 ∨ (0 : ℚ) = 1) ∧ ((1 : ℚ) = 0 ∨ (1 : ℚ) = 1)
      ∧ interpolate (diag ℚ 0) (diag ℚ 1) 0 1 = diag ℚ 1 :=
  ⟨Or.inl rfl, Or.inr rfl,
    (interpolate_snaps_on_binary_field (diag ℚ 0) (diag ℚ 1) 0 1 (Or.inl rfl)
      (Or.inr rfl)).2.2 rfl rfl⟩

/-- C14 (triangle emission).  For tables `edgetable`, `tritable` and a cube
whose edge mask is not zero, let the row of the configuration have its first
sentinel among the entries `0, 3, 6, ..` at index `3k` (with `k` below
`2^32`).  Then `polygonise` returns `k` triangles, `NULL` when `k = 0`, in table
order: triangle `j` has the vertices `vertlist[t[3j]]`, `vertlist[t[3j+1]]`,
`vertlist[t[3j+2]]` of the list `vertlist` built by `get_vertices`; that list
holds at every edge `e` of the mask the vertex interpolated along edge `e`; and
`data->len.y` is set to `k`, the other fields being unchanged. -/
theorem polygonise_emits_table_triangles [LinearOrderedField F] (edgetable : Nat → Nat) (tritable : Nat → List Int)
    (fresh_verts : Nat → float3 F) (fresh : Nat → triangle F) (v_pos : Nat → float3 F)
    (v_val : Nat → F) (pos : uint2) (data : t_data_mesh F) (k : Nat)
    (hmask : edgetable (getCubeIndex v_val pos.x) ≠ 0) (hk : k < 4294967296)
    (hs : (tritable (getCubeIndex v_val pos.x)).getD (3 * k) (-1) = -1)
    (hns : ∀ j, j < k → (tritable (getCubeIndex v_val pos.x)).getD (3 * j) (-1) ≠ -1) :
    ∃ ptr,
      polygonise edgetable tritable fresh_verts fresh v_pos v_val pos data
          = some (ptr, { data with len := { data.len with y := k } })
        ∧ (k = 0 → ptr = none)
        ∧ (0 < k → ∃ arr, ptr = some arr ∧ ∀ j, j < k →
            arr j =
              { v0 := get_vertices edgetable fresh_verts (getCubeIndex v_val pos.x) v_pos
                    v_val pos.x
                    ((tritable (getCubeIndex v_val pos.x)).getD (3 * j) (-1)).toNat
                v1 := get_vertices edgetable fresh_verts (getCubeIndex v_val pos.x) v_pos
                    v_val pos.x
                    ((tritable (getCubeIndex v_val pos.x)).getD (3 * j + 1) (-1)).toNat
                v2 := get_vertices edgetable fresh_verts (getCubeIndex v_val pos.x) v_pos
                    v_val pos.x
                    ((tritable (getCubeIndex v_val pos.x)).getD (3 * j + 2) (-1)).toNat })
        ∧ (∀ e, e < 12 → edgetable (getCubeIndex v_val pos.x) &&& 2 ^ e ≠ 0 →
            get_vertices edgetable fresh_verts (getCubeIndex v_val pos.x) v_pos v_val pos.x e
              = interpolate (v_pos (pos.x + (edge_corners.getD e (0, 0)).1))
                  (v_pos (pos.x + (edge_corners.getD e (0, 0)).2))
                  (v_val (pos.x + (edge_corners.getD e (0, 0)).1))
                  (v_val (pos.x + (edge_corners.getD e (0, 0)).2))) := by
  have hinit : tris_hold (tritable (getCubeIndex v_val pos.x))
      (get_vertices edgetable fresh_verts (getCubeIndex v_val pos.x) v_pos v_val pos.x)
      0 none := ⟨fun _ => rfl, fun h => absurd h (lt_irrefl 0)⟩
  obtain ⟨ptr, len, hloop, hlen, hres⟩ :=
    polygonise_loop_spec (tritable (getCubeIndex v_val pos.x)) fresh
      (get_vertices edgetable fresh_verts (getCubeIndex v_val pos.x) v_pos v_val pos.x)
      k hk hs hns k 0 (by omega) none 0 hinit
  refine ⟨ptr, ?_, hres.1, ?_, ?_⟩
  · simp only [polygonise, if_neg hmask]
    simp only [Nat.mul_zero] at hloop
    rw [hloop]
    simp only [hlen]
  · intro hpos
    obtain ⟨arr, harr, hall⟩ := hres.2 hpos
    exact ⟨arr, harr, fun j hj => hall j hj⟩
  · intro e he hbit
    exact set_edge_vertices_of_bit edgetable _ v_pos v_val pos.x fresh_verts e he hbit

/-- Witness of C14: the cube with only corner 0 inside has configuration 1,
edge mask `0x109` and the table row `0, 8, 3`; one triangle is returned. -/
theorem polygonise_emits_table_triangles_witness :
    standard_edgetable (getCubeIndex (probe_corner_values ℚ) 0) ≠ 0
      ∧ ∃ ptr,
        polygonise standard_edgetable probe_tritable (fun i => diag ℚ i)
            (fun _ => probe_triangle ℚ) (fun i => diag ℚ i) (probe_corner_values ℚ)
            { x := 0, y := 0 } (init_data_mesh ℚ)
          = some (ptr, { init_data_mesh ℚ with len := { x := 0, y := 1 } })
        ∧ ∃ arr, ptr = some arr := by
  have hmask : standard_edgetable (getCubeIndex (probe_corner_values ℚ) 0) ≠ 0 := by
    rw [probe_cube_index]; decide
  obtain ⟨ptr, hp, _, harr, _⟩ :=
    polygonise_emits_table_triangles standard_edgetable probe_tritable (fun i => diag ℚ i)
      (fun _ => probe_triangle ℚ) (fun i => diag ℚ i) (probe_corner_values ℚ)
      { x := 0, y := 0 } (init_data_mesh ℚ) 1 hmask (by decide)
      (by rw [probe_cube_index]; decide)
      (by intro j hj; obtain rfl : j = 0 := by omega
          rw [probe_cube_index]; decide)
  obtain ⟨arr, ha, _⟩ := harr (by decide)
  exact ⟨hmask, ptr, hp, arr, ha⟩

/-- C15 (refinement decision).  `should_refine_grid_cell` returns 1 or 0; it
returns 1 exactly when `current_depth < max_grid_depth` and the population
standard deviation (`sqrtf` of the population variance) of the 9 samples, taken
at the 8 cell corners `center ± cell_size / 2` and at the center, is greater
than `detail_threshold`.  It returns 0 whenever `current_depth ≥
max_grid_depth`, and, given `sqrtf 0 = 0`, whenever the 9 samples are equal and
`detail_threshold ≥ 0`. -/
theorem refinement_decision [LinearOrderedField F] (sqrtf : F → F) (data : t_data F) (center : float3 F)
    (cell_size : F) (current_depth : Int) :
    (should_refine_grid_cell sqrtf data center cell_size current_depth = 1
        ↔ current_depth < data.max_grid_depth
          ∧ sqrtf (population_variance
              ((cell_sample_positions center cell_size).map (should_refine_sample data)))
            > data.detail_threshold)
      ∧ (should_refine_grid_cell sqrtf data center cell_size current_depth = 1
        ∨ should_refine_grid_cell sqrtf data center cell_size current_depth = 0)
      ∧ (current_depth ≥ data.max_grid_depth →
        should_refine_grid_cell sqrtf data center cell_size current_depth = 0)
      ∧ (sqrtf 0 = 0 → 0 ≤ data.detail_threshold →
        (∀ s ∈ (cell_sample_positions center cell_size).map (should_refine_sample data),
          s = should_refine_sample data center) →
        should_refine_grid_cell sqrtf data center cell_size current_depth = 0)
      ∧ ((cell_sample_positions center cell_size).map (should_refine_sample data)).length
          = 9 := by
  rw [should_refine_grid_cell_eq]
  refine ⟨?_, ?_, ?_, ?_, ?_⟩
  · split_ifs with h
    · simp [h]
    · simp [h]
  · split_ifs
    · exact Or.inl rfl
    · exact Or.inr rfl
  · intro hd
    have hnot : ¬ current_depth < data.max_grid_depth := not_lt.mpr hd
    simp [hnot]
  · intro hsq hthr hall
    have hvar := population_variance_of_const
      ((cell_sample_positions center cell_size).map (should_refine_sample data))
      (should_refine_sample data center) (by simp [cell_sample_positions]) hall
    rw [hvar, hsq]
    have hnot : ¬ (0 : F) > data.detail_threshold := not_lt.mpr hthr
    simp [hnot]
  · simp [cell_sample_positions]

/-- Witness of C15: at depth 3 with `max_grid_depth = 3` no cell is refined. -/
theorem refinement_decision_witness :
    (3 : Int) ≥ (probe_data ℝ).max_grid_depth
      ∧ should_refine_grid_cell Real.sqrt (probe_data ℝ) (origin ℝ) 1 3 = 0 :=
  ⟨by simp [probe_data],
    (refinement_decision Real.sqrt (probe_data ℝ) (origin ℝ) 1 3).2.2.1
      (by simp [probe_data])⟩

/-- C17, the code on the storage that `init_data` sets up (count 0, capacity 0,
pointer `NULL`; `init_flat_triangles` gives count 0 and capacity 0 with an
empty block for an empty grid): the invariant `count ≤ capacity` holds before
the append; the append doubles the capacity 0 to 0 and asks `realloc` for 0
bytes.  On the `init_data` state the GNU `realloc` returns an empty block and
the triangle is stored past its end, so afterwards the count is 1, the
capacity is 0 and `count ≤ capacity` is false; on the `init_flat_triangles`
state it returns `NULL` and `error` is called.  Whatever `realloc` does, the
append to the `init_data` state calls `error` or ends with count 1, capacity 0
and a block of 0 bytes. -/
theorem flat_capacity_zero_never_grows :
    (init_data_mesh ℚ).flat_triangle_count ≤ (init_data_mesh ℚ).flat_triangle_capacity
      ∧ (init_data_mesh ℚ).flat_triangle_capacity = 0
      ∧ (init_flat_triangles 0 (fun _ => origin ℚ) (init_data_mesh ℚ)).flat_triangle_capacity
          = 0
      ∧ (init_flat_triangles 0 (fun _ => origin ℚ) (init_data_mesh ℚ)).flat_triangle_count
          = 0
      ∧ add_triangle_to_flat_new_size (init_data_mesh ℚ) = 0
      ∧ (∃ d, add_triangle_to_flat realloc_null_glibc (fun _ => origin ℚ) (init_data_mesh ℚ)
              (probe_triangle ℚ) = some d
          ∧ d.flat_triangle_capacity = 0
          ∧ d.flat_triangle_count = 1
          ∧ ¬ (d.flat_triangle_count ≤ d.flat_triangle_capacity)
          ∧ d.flat_triangles_size = some 0
          ∧ element_in_block d.flat_triangles_size 0 = false
          ∧ d.flat_triangles 0 = (probe_triangle ℚ).v0)
      ∧ (init_flat_triangles 0 (fun _ => origin ℚ) (init_data_mesh ℚ)).flat_triangles_size
          = some 0
      ∧ add_triangle_to_flat_new_size
          (init_flat_triangles 0 (fun _ => origin ℚ) (init_data_mesh ℚ)) = 0
      ∧ add_triangle_to_flat realloc_null_glibc (fun _ => origin ℚ)
          (init_flat_triangles 0 (fun _ => origin ℚ) (init_data_mesh ℚ)) (probe_triangle ℚ)
          = none
      ∧ ∀ (realloc_null : Option Nat → Nat → Bool) (fresh_verts : Nat → float3 ℚ),
          add_triangle_to_flat realloc_null fresh_verts (init_data_mesh ℚ) (probe_triangle ℚ)
              = none
            ∨ ∃ d, add_triangle_to_flat realloc_null fresh_verts (init_data_mesh ℚ)
                  (probe_triangle ℚ) = some d
                ∧ d.flat_triangle_capacity = 0 ∧ d.flat_triangle_count = 1
                ∧ d.flat_triangles_size = some 0 := by
  refine ⟨by decide, rfl, rfl, rfl, rfl, ?_, rfl, rfl, ?_, ?_⟩
  · obtain ⟨d, hd, hc, hk, hs, hf, _⟩ :=
      add_triangle_to_flat_of_ge realloc_null_glibc (fun _ => origin ℚ) (init_data_mesh ℚ)
        (probe_triangle ℚ) (le_refl _) (by decide)
    have hc1 : d.flat_triangle_count = 1 := by rw [hc]; rfl
    have hk0 : d.flat_triangle_capacity = 0 := by rw [hk]; rfl
    have hs0 : d.flat_triangles_size = some 0 := by rw [hs]; rfl
    refine ⟨d, hd, hk0, hc1, by rw [hc1, hk0]; decide, hs0, by rw [hs0]; decide, ?_⟩
    rw [hf]
    simp [Function.update, init_data_mesh]
  · exact add_triangle_to_flat_of_null realloc_null_glibc (fun _ => origin ℚ)
      (init_flat_triangles 0 (fun _ => origin ℚ) (init_data_mesh ℚ)) (probe_triangle ℚ)
      (le_refl _) (by decide)
  · intro realloc_null fresh_verts
    by_cases hnull : realloc_null (init_data_mesh ℚ).flat_triangles_size
        (add_triangle_to_flat_new_size (init_data_mesh ℚ)) = true
    · exact Or.inl (add_triangle_to_flat_of_null realloc_null fresh_verts (init_data_mesh ℚ)
        (probe_triangle ℚ) (le_refl _) hnull)
    · obtain ⟨d, hd, hc, hk, hs, _⟩ :=
        add_triangle_to_flat_of_ge realloc_null fresh_verts (init_data_mesh ℚ)
          (probe_triangle ℚ) (le_refl _) (by simpa using hnull)
      exact Or.inr ⟨d, hd, by rw [hk]; rfl, by rw [hc]; rfl, by rw [hs]; rfl⟩

/-- C18 (reset preserves capacity).  For a storage of capacity `C` holding any
number of triangles (in particular `C ≥ 1` and `M ≤ C` triangles), the reset of
`regenerate_fractal` leaves the count at 0, the pool use at 0, and the
capacity, the pool size and the block as they were; and any sequence of at
most `C` appends after it calls neither `error` nor `realloc`: the capacity is
still `C`, the block has its size, and each append found the count below the
capacity (no expansion). -/
theorem reset_preserves_capacity (realloc_null : Option Nat → Nat → Bool)
    (fresh_verts : Nat → float3 F) (data : t_data_mesh F) (ts : List (triangle F))
    (hlen : ts.length ≤ data.flat_triangle_capacity) :
    (regenerate_fractal_reset data).flat_triangle_count = 0
      ∧ (regenerate_fractal_reset data).flat_triangle_capacity = data.flat_triangle_capacity
      ∧ (regenerate_fractal_reset data).triangle_pool_used = 0
      ∧ (regenerate_fractal_reset data).triangle_pool_size = data.triangle_pool_size
      ∧ (regenerate_fractal_reset data).flat_triangles_size = data.flat_triangles_size
      ∧ (∃ d, add_triangles_to_flat realloc_null fresh_verts (regenerate_fractal_reset data) ts
              = some d
          ∧ d.flat_triangle_capacity = data.flat_triangle_capacity
          ∧ d.triangle_pool_size = data.triangle_pool_size
          ∧ d.flat_triangles_size = data.flat_triangles_size)
      ∧ (∀ m, m < ts.length →
          ∃ dm, add_triangles_to_flat realloc_null fresh_verts (regenerate_fractal_reset data)
                (ts.take m) = some dm
            ∧ dm.flat_triangle_count < dm.flat_triangle_capacity
            ∧ dm.flat_triangle_capacity = data.flat_triangle_capacity) := by
  have hr0 : (regenerate_fractal_reset data).flat_triangle_count = 0 := rfl
  have hrc : (regenerate_fractal_reset data).flat_triangle_capacity
      = data.flat_triangle_capacity := rfl
  have hrp : (regenerate_fractal_reset data).triangle_pool_size = data.triangle_pool_size := rfl
  have hrs : (regenerate_fractal_reset data).flat_triangles_size = data.flat_triangles_size :=
    rfl
  obtain ⟨d, hd, h1, _, h3, h4⟩ := add_triangles_to_flat_capacity realloc_null fresh_verts ts
    (regenerate_fractal_reset data) (by rw [hr0, hrc]; omega)
  refine ⟨hr0, hrc, rfl, hrp, hrs, ⟨d, hd, by rw [h1, hrc], by rw [h3, hrp], by rw [h4, hrs]⟩,
    ?_⟩
  intro m hm
  have hlt : (ts.take m).length = m := by
    rw [List.length_take]; omega
  obtain ⟨dm, hdm, g1, g2, _⟩ := add_triangles_to_flat_capacity realloc_null fresh_verts
    (ts.take m) (regenerate_fractal_reset data) (by rw [hr0, hrc, hlt]; omega)
  rw [hr0, hlt] at g2
  refine ⟨dm, hdm, ?_, by rw [g1, hrc]⟩
  rw [g1, hrc]
  omega

/-- Witness of C18: capacity 5, two appends after the reset. -/
theorem reset_preserves_capacity_witness :
    [probe_triangle ℚ, probe_triangle ℚ].length
        ≤ (init_flat_triangles 1 (fun _ => origin ℚ) (init_data_mesh ℚ)).flat_triangle_capacity
      ∧ ∃ d, add_triangles_to_flat realloc_null_glibc (fun _ => origin ℚ)
            (regenerate_fractal_reset
              (init_flat_triangles 1 (fun _ => origin ℚ) (init_data_mesh ℚ)))
            [probe_triangle ℚ, probe_triangle ℚ] = some d
          ∧ d.flat_triangle_capacity
            = (init_flat_triangles 1 (fun _ => origin ℚ)
                (init_data_mesh ℚ)).flat_triangle_capacity
          ∧ d.flat_triangles_size = some 180 := by
  obtain ⟨d, hd, hk, _, hs⟩ :=
    (reset_preserves_capacity realloc_null_glibc (fun _ => origin ℚ)
      (init_flat_triangles 1 (fun _ => origin ℚ) (init_data_mesh ℚ))
      [probe_triangle ℚ, probe_triangle ℚ] (by decide)).2.2.2.2.2.1
  exact ⟨by decide, d, hd, hk, by rw [hs]; rfl⟩

/-- C19, counterexample: for a destination of `B = 4294967295` triangles and
a source batch of one triangle the `uint` sum `len->x + len->y` wraps to 0 and
`arr_float3_cat` returns `NULL`, leaving `*len` as it was. -/
theorem arr_float3_cat_wraps_counterexample :
    1 ≤ 1 + 4294967295
      ∧ arr_float3_cat (fun _ => probe_triangle ℚ) (fun _ => probe_triangle ℚ)
          (some (fun _ => probe_triangle ℚ)) { x := 4294967295, y := 1 }
        = (none, { x := 4294967295, y := 1 }) := by
  refine ⟨by decide, ?_⟩
  simp [arr_float3_cat, alloc_float3_arr]

/-- C19, amended: for a destination of `B` triangles and a
source batch of `A` triangles (`len.x = B`, `len.y = A`) with `1 ≤ A + B` and
`A + B` below `2^32`, `arr_float3_cat` returns an array whose first `B`
triangles are those of the destination, in order, and whose next `A`
triangles are those of the source, in order; afterwards `len.x = A + B` and
`len.y = 0`.  For `A = B = 0` it returns `NULL`. -/
theorem arr_float3_cat_concatenates (fresh : Nat → triangle F) (f_from : Nat → triangle F)
    (f_to : Option (Nat → triangle F)) (A B : Nat) (h1 : 1 ≤ A + B)
    (h2 : A + B < 4294967296) :
    ∃ arr, arr_float3_cat fresh f_from f_to { x := B, y := A }
          = (some arr, { x := A + B, y := 0 })
        ∧ (∀ dest, f_to = some dest → ∀ i, i < B → arr i = dest i)
        ∧ (∀ i, i < A → arr (B + i) = f_from i)
        ∧ arr_float3_cat fresh f_from f_to { x := 0, y := 0 } = (none, { x := 0, y := 0 }) := by
  obtain ⟨arr, hcat, hdest, hsrc⟩ := arr_float3_cat_in_range fresh f_from f_to A B h1 h2
  refine ⟨arr, hcat, hdest, hsrc, ?_⟩
  simp [arr_float3_cat, alloc_float3_arr]

/-- Witness of C19: one triangle appended to the `NULL` destination. -/
theorem arr_float3_cat_concatenates_witness :
    1 ≤ 1 + 0 ∧ 1 + 0 < 4294967296
      ∧ ∃ arr, arr_float3_cat (fun _ => probe_triangle ℚ) (fun _ => probe_triangle ℚ) none
            { x := 0, y := 1 }
          = (some arr, { x := 1 + 0, y := 0 })
        ∧ arr 0 = probe_triangle ℚ := by
  obtain ⟨arr, h, _, hsrc, _⟩ := arr_float3_cat_concatenates (fun _ => probe_triangle ℚ)
    (fun _ => probe_triangle ℚ) none 1 0 (by decide) (by decide)
  exact ⟨by decide, by decide, arr, h, by simpa using hsrc 0 (by decide)⟩

/-- C20, counterexample: in the pool state `used = size = 4294967295` the pool
is exhausted (`size < used + 3`), but the `uint` sum `used + 3` wraps to 2, so
`get_triangle_from_pool` returns the pool slot at offset 4294967295 and sets
`used` to 2. -/
theorem triangle_pool_wraps_counterexample :
    ({ init_data_mesh ℚ with
        triangle_pool_size := 4294967295, triangle_pool_used := 4294967295 }
      : t_data_mesh ℚ).triangle_pool_used
        ≤ ({ init_data_mesh ℚ with
            triangle_pool_size := 4294967295, triangle_pool_used := 4294967295 }
          : t_data_mesh ℚ).triangle_pool_size
      ∧ (4294967295 : Nat) < 4294967295 + 3
      ∧ (get_triangle_from_pool
          ({ init_data_mesh ℚ with
              triangle_pool_size := 4294967295, triangle_pool_used := 4294967295 }
            : t_data_mesh ℚ)).1 = triangle_ptr.pool_slot 4294967295
      ∧ (get_triangle_from_pool
          ({ init_data_mesh ℚ with
              triangle_pool_size := 4294967295, triangle_pool_used := 4294967295 }
            : t_data_mesh ℚ)).2.triangle_pool_used = 2 := by
  refine ⟨le_refl _, by decide, ?_, ?_⟩ <;> simp [get_triangle_from_pool, init_data_mesh]

/-- C20, amended: for a pool state with `used ≤ size` and `used + 3`
below `2^32`: when `used + 3 ≤ size`, `get_triangle_from_pool` returns the slot
at offset `used` and increases `used` by 3, so that the next pool slot starts
where this one ends; when `size < used + 3` it returns a block from `malloc`
and leaves `used` and `size` as they were.  `used ≤ size` is preserved by
`get_triangle_from_pool` and by `reset_triangle_pool`, and the reset sets
`used` to 0 without changing the size. -/
theorem triangle_pool_spec (data : t_data_mesh F)
    (hinv : data.triangle_pool_used ≤ data.triangle_pool_size)
    (hfit : data.triangle_pool_used + 3 < 4294967296) :
    (data.triangle_pool_used + 3 ≤ data.triangle_pool_size →
        get_triangle_from_pool data
          = (triangle_ptr.pool_slot data.triangle_pool_used,
              { data with triangle_pool_used := data.triangle_pool_used + 3 }))
      ∧ (data.triangle_pool_size < data.triangle_pool_used + 3 →
        get_triangle_from_pool data = (triangle_ptr.fallback_malloc, data))
      ∧ (∀ o1 o2, (get_triangle_from_pool data).1 = triangle_ptr.pool_slot o1 →
          (get_triangle_from_pool (get_triangle_from_pool data).2).1
            = triangle_ptr.pool_slot o2 →
          o1 = data.triangle_pool_used ∧ o2 = o1 + 3)
      ∧ (get_triangle_from_pool data).2.triangle_pool_used
          ≤ (get_triangle_from_pool data).2.triangle_pool_size
      ∧ (get_triangle_from_pool data).2.triangle_pool_size = data.triangle_pool_size
      ∧ (reset_triangle_pool data).triangle_pool_used = 0
      ∧ (reset_triangle_pool data).triangle_pool_size = data.triangle_pool_size
      ∧ (reset_triangle_pool data).triangle_pool_used
          ≤ (reset_triangle_pool data).triangle_pool_size := by
  obtain ⟨hpool, hfall⟩ := get_triangle_from_pool_cases data hfit
  refine ⟨hpool, hfall, ?_, ?_, ?_, rfl, rfl, Nat.zero_le _⟩
  · intro o1 o2 h1 h2
    by_cases hroom : data.triangle_pool_used + 3 ≤ data.triangle_pool_size
    · rw [hpool hroom] at h1 h2
      simp only [triangle_ptr.pool_slot.injEq] at h1
      subst h1
      refine ⟨rfl, ?_⟩
      unfold get_triangle_from_pool at h2
      simp only at h2
      split_ifs at h2
      simp only [triangle_ptr.pool_slot.injEq] at h2
      exact h2.symm
    · rw [hfall (by omega)] at h1
      cases h1
  · by_cases hroom : data.triangle_pool_used + 3 ≤ data.triangle_pool_size
    · rw [hpool hroom]; exact hroom
    · rw [hfall (by omega)]; exact hinv
  · by_cases hroom : data.triangle_pool_used + 3 ≤ data.triangle_pool_size
    · rw [hpool hroom]
    · rw [hfall (by omega)]

/-- Witness of C20: the pool of a one-cube grid, 15 vertices, none used. -/
theorem triangle_pool_spec_witness :
    (init_triangle_pool 1 (init_data_mesh ℚ)).triangle_pool_used
        ≤ (init_triangle_pool 1 (init_data_mesh ℚ)).triangle_pool_size
      ∧ (init_triangle_pool 1 (init_data_mesh ℚ)).triangle_pool_used + 3 < 4294967296
      ∧ (get_triangle_from_pool (init_triangle_pool 1 (init_data_mesh ℚ))).1
          = triangle_ptr.pool_slot 0
      ∧ (get_triangle_from_pool (init_triangle_pool 1 (init_data_mesh ℚ))).2.triangle_pool_used
          = 3 := by
  have h := (triangle_pool_spec (init_triangle_pool 1 (init_data_mesh ℚ)) (by decide)
    (by decide)).1 (by decide)
  refine ⟨by decide, by decide, ?_, ?_⟩
  · rw [h]; rfl
  · rw [h]; rfl

end MeshTheorems

/-! ## Lemmas on the key actions, the quaternion helpers and the interpolation -/

section ParameterLemmas

variable {F : Type}

theorem processInput_enhanced_invariant [LinearOrderedField F] (key : key_action)
    (data : t_data F) (h : parameter_invariant data) :
    parameter_invariant (processInput_enhanced key data) := by
  obtain ⟨h1, h2, h3, h4, h5, h6, h7⟩ := h
  cases key <;>
    simp only [parameter_invariant, processInput_enhanced, reduceCtorEq, if_false, if_true]
  · refine ⟨?_, ?_, h3, h4, h5, h6, h7⟩
    · split_ifs <;> omega
    · split_ifs <;> omega
  · refine ⟨?_, ?_, h3, h4, h5, h6, h7⟩
    · split_ifs <;> omega
    · split_ifs <;> omega
  · refine ⟨h1, h2, h3, h4, h5, ?_, h7⟩
    rcases h6 with h | h | h <;> rw [h] <;> decide
  · refine ⟨h1, h2, h3, h4, h5, h6, ?_⟩
    rcases h7 with h | h | h | h <;> rw [h] <;> decide
  · refine ⟨h1, h2, h3, h4, ?_, h6, h7⟩
    rcases h5 with h | h | h <;> rw [h] <;> decide
  · refine ⟨h1, h2, ?_, ?_, h5, h6, h7⟩
    · split_ifs
      · norm_num
      · linarith
    · split_ifs with hz
      · exact le_refl _
      · exact not_lt.mp hz
  · refine ⟨h1, h2, ?_, ?_, h5, h6, h7⟩
    · split_ifs with hz
      · exact le_refl _
      · exact not_lt.mp hz
    · split_ifs
      · norm_num
      · linarith

theorem init_data_invariant [LinearOrderedField F] : parameter_invariant (init_data F) := by
  simp only [parameter_invariant, init_data, init_fract, init_julia]
  norm_num

theorem apply_keys_invariant [LinearOrderedField F] (keys : List key_action) :
    ∀ data : t_data F, parameter_invariant data → parameter_invariant (apply_keys keys data) := by
  induction keys with
  | nil => intro data h; exact h
  | cons key keys ih =>
    intro data h
    exact ih _ (processInput_enhanced_invariant key data h)

theorem cube_count_eq_iff (n : Nat) : 8 * n ^ 3 = (n + 1) ^ 3 ↔ n = 1 := by
  constructor
  · intro h
    by_contra hne
    rcases Nat.lt_or_gt_of_ne hne with h0 | h2
    · have : n = 0 := by omega
      subst this
      norm_num at h
    · have h3 : (n + 1) ^ 3 < (2 * n) ^ 3 := Nat.pow_lt_pow_left (by omega) (by norm_num)
      have h4 : (2 * n) ^ 3 = 8 * n ^ 3 := by ring
      omega
  · intro h
    subst h
    norm_num

theorem mag_sq_nonneg [LinearOrderedField F] (q : cl_quat F) : 0 ≤ mag_sq q := by
  simp only [mag_sq]
  have hx := mul_self_nonneg q.x
  have hy := mul_self_nonneg q.y
  have hz := mul_self_nonneg q.z
  have hw := mul_self_nonneg q.w
  linarith

theorem julia_step_eq_mult_d [LinearOrderedField F] (c z : cl_quat F) :
    julia_step c z = cl_quat_sum_d (cl_quat_mult_d z z) c := by
  simp only [julia_step, cl_quat_sum_d, cl_quat_mult_d, cl_quat.mk.injEq]
  refine ⟨?_, ?_, ?_, ?_⟩ <;> first | exact trivial | ring1

theorem sample_4D_Julia_loop_eq [LinearOrderedField F] (sqrtf : F → F)
    (hsqrt : ∀ x : F, 0 ≤ x → (2 < sqrtf x ↔ 4 < x)) (c : cl_quat F) (n : Nat) :
    ∀ z : cl_quat F,
      sample_4D_Julia_loop sqrtf c n z = sample_4D_Julia_optimized_loop c n z := by
  induction n with
  | zero => intro z; rfl
  | succ n ih =>
    intro z
    have hz : cl_quat_sum (cl_quat_mult z z) c = julia_step c z := by
      simp only [julia_step, cl_quat_sum, cl_quat_mult, cl_quat.mk.injEq]
      refine ⟨?_, ?_, ?_, ?_⟩ <;> first | exact trivial | ring1
    have hnn : 0 ≤ mag_sq (julia_step c z) := mag_sq_nonneg _
    have hmod : cl_quat_mod sqrtf (julia_step c z) = sqrtf (mag_sq (julia_step c z)) := rfl
    have hopt : sample_4D_Julia_optimized_loop c (n + 1) z
        = if mag_sq (julia_step c z) > 4 then 0
          else sample_4D_Julia_optimized_loop c n (julia_step c z) := rfl
    rw [hopt]
    simp only [sample_4D_Julia_loop, hz, hmod, ih]
    by_cases h4 : 4 < mag_sq (julia_step c z)
    · rw [if_pos ((hsqrt _ hnn).mpr h4), if_pos h4]
    · rw [if_neg (fun h => h4 ((hsqrt _ hnn).mp h)), if_neg h4]

theorem real_sqrt_escape : ∀ x : ℝ, 0 ≤ x → (2 < Real.sqrt x ↔ 4 < x) := by
  intro x _
  rw [Real.lt_sqrt (by norm_num)]
  norm_num

theorem line_point_zero [LinearOrderedField F] (p0 p1 : float3 F) : line_point p0 p1 0 = p0 := by
  simp [line_point]

theorem line_point_one [LinearOrderedField F] (p0 p1 : float3 F) : line_point p0 p1 1 = p1 := by
  simp [line_point]

theorem line_point_injective [LinearOrderedField F] (p0 p1 : float3 F) (h : p0 ≠ p1)
    (a b : F) (hab : line_point p0 p1 a = line_point p0 p1 b) : a = b := by
  simp only [line_point, float3.mk.injEq] at hab
  obtain ⟨hx, hy, hz⟩ := hab
  by_contra hne
  have hd : a - b ≠ 0 := sub_ne_zero.mpr hne
  have ex : p1.x - p0.x = 0 := by
    have : (a - b) * (p1.x - p0.x) = 0 := by linear_combination hx
    rcases mul_eq_zero.mp this with h1 | h1
    · exact absurd h1 hd
    · exact h1
  have ey : p1.y - p0.y = 0 := by
    have : (a - b) * (p1.y - p0.y) = 0 := by linear_combination hy
    rcases mul_eq_zero.mp this with h1 | h1
    · exact absurd h1 hd
    · exact h1
  have ez : p1.z - p0.z = 0 := by
    have : (a - b) * (p1.z - p0.z) = 0 := by linear_combination hz
    rcases mul_eq_zero.mp this with h1 | h1
    · exact absurd h1 hd
    · exact h1
  apply h
  cases p0
  cases p1
  simp only [float3.mk.injEq]
  simp only at ex ey ez
  exact ⟨by linarith, by linarith, by linarith⟩

theorem interpolate_eq_line_point [LinearOrderedField F] (p0 p1 : float3 F) (v0 v1 : F)
    (h0 : v0 ≠ 1) (h1 : v1 ≠ 1) (h : v1 ≠ v0) :
    interpolate p0 p1 v0 v1 = line_point p0 p1 ((1 - v0) / (v1 - v0)) := by
  have hd : v1 - v0 ≠ 0 := sub_ne_zero.mpr h
  simp [interpolate, line_point, h0, h1, hd]

theorem interpolation_factor_outside [LinearOrderedField F] (v0 v1 : F)
    (h0 : v0 ≤ 1) (h1 : v1 ≤ 1) (hn0 : v0 ≠ 1) (hn1 : v1 ≠ 1) (h : v1 ≠ v0) :
    (v1 < v0 ∧ (1 - v0) / (v1 - v0) < 0) ∨ (v0 < v1 ∧ 1 < (1 - v0) / (v1 - v0)) := by
  have hlt0 : v0 < 1 := lt_of_le_of_ne h0 hn0
  have hlt1 : v1 < 1 := lt_of_le_of_ne h1 hn1
  rcases lt_or_gt_of_ne h with hlt | hgt
  · left
    exact ⟨hlt, div_neg_of_pos_of_neg (by linarith) (by linarith)⟩
  · right
    refine ⟨hgt, ?_⟩
    rw [lt_div_iff₀ (by linarith)]
    linarith

theorem crossing_factor_reversed [LinearOrderedField F] (v a b : F) (hv : v ≠ 0) :
    a + (1 - 0) / (v - 0) * (b - a) = b + (1 - v) / (0 - v) * (a - b) := by
  have h1 : (1 - 0) / (v - 0) = 1 / v := by rw [sub_zero, sub_zero]
  have h2 : (1 - v) / (0 - v) = 1 - 1 / v := by
    rw [zero_sub, div_neg, sub_div, div_self hv]
    ring
  rw [h1, h2]
  ring

theorem polygonise_loop_step_none (row : List Int) (fresh : Nat → triangle F)
    (vertlist : Nat → float3 F) (j : Nat) (h : row.getD (3 * j) (-1) ≠ -1)
    (tris : Option (Nat → triangle F)) (len len2 : uint2)
    (hcat : arr_float3_cat fresh (Function.update fresh 0 (table_triangle row vertlist j))
      tris { len with y := 1 } = (none, len2)) :
    polygonise_loop row fresh vertlist (3 * j) tris len = none := by
  rw [polygonise_loop]
  simp only [dif_pos h, package_triangles_eq, hcat]

theorem polygonise_loop_step_some (row : List Int) (fresh : Nat → triangle F)
    (vertlist : Nat → float3 F) (j : Nat) (h : row.getD (3 * j) (-1) ≠ -1)
    (tris : Option (Nat → triangle F)) (len len2 : uint2) (tris1 : Nat → triangle F)
    (hcat : arr_float3_cat fresh (Function.update fresh 0 (table_triangle row vertlist j))
      tris { len with y := 1 } = (some tris1, len2)) :
    polygonise_loop row fresh vertlist (3 * j) tris len
      = polygonise_loop row fresh vertlist (3 * (j + 1)) (some tris1) len2 := by
  have h3 : 3 * j + 3 = 3 * (j + 1) := by ring
  rw [polygonise_loop]
  simp only [dif_pos h, package_triangles_eq, hcat, h3]

theorem table_triangle_congr (row : List Int) (v1 v2 : Nat → float3 F) (k j : Nat) (hj : j < k)
    (hagree : ∀ p, p < 3 * k → v1 (row.getD p (-1)).toNat = v2 (row.getD p (-1)).toNat) :
    table_triangle row v1 j = table_triangle row v2 j := by
  simp only [table_triangle]
  rw [hagree (3 * j) (by omega), hagree (3 * j + 1) (by omega), hagree (3 * j + 2) (by omega)]

theorem polygonise_loop_congr (row : List Int) (fresh : Nat → triangle F)
    (v1 v2 : Nat → float3 F) (k : Nat)
    (hs : row.getD (3 * k) (-1) = -1) (hns : ∀ j, j < k → row.getD (3 * j) (-1) ≠ -1)
    (hagree : ∀ p, p < 3 * k → v1 (row.getD p (-1)).toNat = v2 (row.getD p (-1)).toNat) :
    ∀ (n j : Nat), j + n = k → ∀ (tris : Option (Nat → triangle F)) (len : uint2),
      polygonise_loop row fresh v1 (3 * j) tris len
        = polygonise_loop row fresh v2 (3 * j) tris len := by
  intro n
  induction n with
  | zero =>
    intro j hj tris len
    have hjk : j = k := by omega
    subst hjk
    rw [polygonise_loop, dif_neg (fun h => h hs), polygonise_loop, dif_neg (fun h => h hs)]
  | succ n ih =>
    intro j hj tris len
    have hjk : j < k := by omega
    have htri := table_triangle_congr row v1 v2 k j hjk hagree
    rcases hc : arr_float3_cat fresh (Function.update fresh 0 (table_triangle row v2 j)) tris
        { len with y := 1 } with ⟨ptr, len2⟩
    cases ptr with
    | none =>
      rw [polygonise_loop_step_none row fresh v1 j (hns j hjk) tris len len2 (htri ▸ hc),
        polygonise_loop_step_none row fresh v2 j (hns j hjk) tris len len2 hc]
    | some tris1 =>
      rw [polygonise_loop_step_some row fresh v1 j (hns j hjk) tris len len2 tris1 (htri ▸ hc),
        polygonise_loop_step_some row fresh v2 j (hns j hjk) tris len len2 tris1 hc]
      exact ih (j + 1) (by omega) (some tris1) len2

end ParameterLemmas

/-! ## Parameters, sample arrays and quaternion formulas: claims -/

section ParameterTheorems

variable {F : Type}

/-- C21 (parameter invariants).  Every data state reached from the `init_data`
and `init_julia` defaults by a sequence of the key actions `+`, `-`, `T`, `M`,
`O`, `G`, `H` of `processInput_enhanced` satisfies `1 ≤ max_iter ≤ 50`,
`1 ≤ zoom_level ≤ 1000000`, `supersampling ∈ {1, 2, 3}`, `fractal_type ∈
{0, 1, 2}` and `quaternion_formula ∈ {0, 1, 2, 3}`; and from every data state,
whatever its unsigned `max_iter`, the `-` action leaves `max_iter ≥ 1`. -/
theorem key_actions_keep_parameter_invariants [LinearOrderedField F] :
    (∀ keys : List key_action, parameter_invariant (apply_keys keys (init_data F)))
      ∧ (∀ data : t_data F,
          1 ≤ (processInput_enhanced key_action.KEY_MINUS data).fract.julia.max_iter) := by
  refine ⟨fun keys => apply_keys_invariant keys _ init_data_invariant, ?_⟩
  intro data
  simp only [processInput_enhanced, reduceCtorEq, if_false, if_true]
  split_ifs <;> omega

/-- C22, counterexample: for the grid resolution 2 `init_vertex` sizes both
arrays to 64 entries, not to `(2 + 1)^3 = 27`; for the resolution 0 of
`init_fract` it sizes them to 0 entries, not to 1. -/
theorem init_vertex_size_counterexample :
    init_vertex (2 : ℚ) = { vertexpos := 64, vertexval := 64 }
      ∧ (64 : Nat) ≠ (2 + 1) ^ 3
      ∧ init_vertex (0 : ℚ) = { vertexpos := 0, vertexval := 0 }
      ∧ (0 : Nat) ≠ (0 + 1) ^ 3 := by
  have h2 : (2 : ℚ) ^ 3 * 8 = ((64 : ℕ) : ℚ) := by norm_num
  have h0 : (0 : ℚ) ^ 3 * 8 = ((0 : ℕ) : ℚ) := by norm_num
  refine ⟨?_, by norm_num, ?_, by norm_num⟩
  · simp only [init_vertex, h2, Nat.floor_natCast]
  · simp only [init_vertex, h0, Nat.floor_natCast]

/-- C22, amended: for every grid size `init_vertex` sizes the position array
and the value array to the same number of entries; for a grid resolution `n`
that number is `8 n^3`, eight corner entries for each of the `n^3` cubes, and
it equals `(n + 1)^3` only for `n = 1`. -/
theorem init_vertex_size [LinearOrderedField F] [FloorRing F] :
    (∀ grid_size : F, (init_vertex grid_size).vertexpos = (init_vertex grid_size).vertexval)
      ∧ (∀ n : Nat, (init_vertex (n : F)).vertexpos = 8 * n ^ 3
          ∧ (init_vertex (n : F)).vertexval = 8 * n ^ 3)
      ∧ (∀ n : Nat, (init_vertex (n : F)).vertexpos = (n + 1) ^ 3 ↔ n = 1) := by
  have hsize : ∀ n : Nat, Nat.floor ((n : F) ^ 3 * 8) = 8 * n ^ 3 := by
    intro n
    have h : (n : F) ^ 3 * 8 = ((8 * n ^ 3 : ℕ) : F) := by
      push_cast
      ring
    rw [h, Nat.floor_natCast]
  refine ⟨fun _ => rfl, fun n => ⟨?_, ?_⟩, fun n => ?_⟩
  · simp only [init_vertex, hsize]
  · simp only [init_vertex, hsize]
  · simp only [init_vertex, hsize]
    exact cube_count_eq_iff n

/-- C23 (Mandelbrot as Julia with the roles swapped).  For every position and
parameter block, `sample_4D_Mandelbrot` is the escape iteration of
`z ← z² + k` with squared-magnitude threshold 4, at most `max_iter` iterations,
constant `k = (pos.x, pos.y, pos.z, w)` and start `0.1 * c`; it equals
`sample_4D_Julia_optimized` run with constant `k`, fourth component `0.1 * c.w`
and position `0.1 * (c.x, c.y, c.z)`. -/
theorem mandelbrot_is_julia_with_roles_swapped [LinearOrderedField F] (julia : t_julia F)
    (pos : float3 F) :
    sample_4D_Mandelbrot julia pos
        = escape_iteration (julia_step { x := pos.x, y := pos.y, z := pos.z, w := julia.w }) 4
            julia.max_iter
            { x := 1 / 10 * julia.c.x, y := 1 / 10 * julia.c.y, z := 1 / 10 * julia.c.z,
              w := 1 / 10 * julia.c.w }
      ∧ sample_4D_Mandelbrot julia pos
        = sample_4D_Julia_optimized
            { julia with
              c := { x := pos.x, y := pos.y, z := pos.z, w := julia.w }
              w := 1 / 10 * julia.c.w }
            { x := 1 / 10 * julia.c.x, y := 1 / 10 * julia.c.y, z := 1 / 10 * julia.c.z } := by
  have hz : ({ x := julia.c.x * (1 / 10), y := julia.c.y * (1 / 10),
                z := julia.c.z * (1 / 10), w := julia.c.w * (1 / 10) } : cl_quat F)
      = { x := 1 / 10 * julia.c.x, y := 1 / 10 * julia.c.y, z := 1 / 10 * julia.c.z,
          w := 1 / 10 * julia.c.w } := by
    simp only [cl_quat.mk.injEq]
    refine ⟨?_, ?_, ?_, ?_⟩ <;> ring1
  refine ⟨?_, ?_⟩
  · simp only [sample_4D_Mandelbrot, mandelbrot_loop_eq, hz]
  · simp only [sample_4D_Mandelbrot, sample_4D_Julia_optimized, mandelbrot_loop_eq,
      julia_optimized_loop_eq, hz]

/-- C25 (alternative formulas).  With the product `cl_quat_mult_d`, the term
`z_new` of `sample_4D_Julia_alternative_formula` is `z * z` for formula 0,
`z * (z * z)` for formula 1, `z * z + z` for formula 2 and `|z|² - z * z` for
formula 3, where `|z|²` is the real quaternion `(x² + y² + z² + w², 0, 0, 0)`;
each loop iteration adds the constant to that term and tests the squared
magnitude of the sum against 16. -/
theorem alternative_formulas_compute_documented_terms [LinearOrderedField F] (z : cl_quat F) :
    alternative_formula_z_new 0 z = cl_quat_mult_d z z
      ∧ alternative_formula_z_new 1 z = cl_quat_mult_d z (cl_quat_mult_d z z)
      ∧ alternative_formula_z_new 2 z = cl_quat_sum_d (cl_quat_mult_d z z) z
      ∧ alternative_formula_z_new 3 z
          = cl_quat_sub (real_quat (z.x ^ 2 + z.y ^ 2 + z.z ^ 2 + z.w ^ 2)) (cl_quat_mult_d z z)
      ∧ ∀ (formula : Int) (c : cl_quat F) (n : Nat),
          sample_4D_Julia_alternative_formula_loop formula c (n + 1) z
            = if mag_sq (cl_quat_sum_d (alternative_formula_z_new formula z) c) > 16 then 0
              else sample_4D_Julia_alternative_formula_loop formula c n
                (cl_quat_sum_d (alternative_formula_z_new formula z) c) := by
  have e10 : ((1 : Int) = 0) = False := eq_false (by decide)
  have e20 : ((2 : Int) = 0) = False := eq_false (by decide)
  have e21 : ((2 : Int) = 1) = False := eq_false (by decide)
  have e30 : ((3 : Int) = 0) = False := eq_false (by decide)
  have e31 : ((3 : Int) = 1) = False := eq_false (by decide)
  have e32 : ((3 : Int) = 2) = False := eq_false (by decide)
  refine ⟨?_, ?_, ?_, ?_, ?_⟩
  · simp only [alternative_formula_z_new, if_true, cl_quat_mult_d, cl_quat.mk.injEq]
    refine ⟨?_, ?_, ?_, ?_⟩ <;> first | exact trivial | ring1
  · simp only [alternative_formula_z_new, e10, if_false, if_true, cl_quat_mult_d,
      cl_quat.mk.injEq]
    refine ⟨?_, ?_, ?_, ?_⟩ <;> first | exact trivial | ring1
  · simp only [alternative_formula_z_new, e20, e21, if_false, if_true, cl_quat_mult_d,
      cl_quat_sum_d, cl_quat.mk.injEq]
    refine ⟨?_, ?_, ?_, ?_⟩ <;> first | exact trivial | ring1
  · simp only [alternative_formula_z_new, e30, e31, e32, if_false, if_true, cl_quat_mult_d,
      cl_quat_sub, real_quat, cl_quat.mk.injEq]
    refine ⟨?_, ?_, ?_, ?_⟩ <;> first | exact trivial | ring1
  · intro formula c n
    rfl

/-- C26 (inlined squaring).  For every quaternion `q = (x, y, z, w)`,
`cl_quat_mult_d q q = (x² - y² - z² - w², 2xy, 2xz, 2xw)`; the squared
magnitude, the radicand of `cl_quat_mod_d`, is multiplicative under
`cl_quat_mult_d`; and one iteration of the loops of
`sample_4D_Julia_optimized`, `sample_4D_Julia_deep_zoom` and
`sample_4D_Mandelbrot` replaces `z` by `cl_quat_mult_d z z` plus the
constant. -/
theorem inlined_squaring_is_quaternion_product [LinearOrderedField F] :
    (∀ q : cl_quat F, cl_quat_mult_d q q
        = { x := q.x ^ 2 - q.y ^ 2 - q.z ^ 2 - q.w ^ 2, y := 2 * q.x * q.y, z := 2 * q.x * q.z,
            w := 2 * q.x * q.w })
      ∧ (∀ q1 q2 : cl_quat F, mag_sq (cl_quat_mult_d q1 q2) = mag_sq q1 * mag_sq q2)
      ∧ (∀ (sqrt : F → F) (q : cl_quat F), cl_quat_mod_d sqrt q = sqrt (mag_sq q))
      ∧ (∀ (c z : cl_quat F) (n : Nat),
          sample_4D_Julia_optimized_loop c (n + 1) z
              = (if mag_sq (cl_quat_sum_d (cl_quat_mult_d z z) c) > 4 then 0
                else sample_4D_Julia_optimized_loop c n (cl_quat_sum_d (cl_quat_mult_d z z) c))
            ∧ sample_4D_Julia_deep_zoom_loop c (n + 1) z
              = (if mag_sq (cl_quat_sum_d (cl_quat_mult_d z z) c) > 4 then 0
                else sample_4D_Julia_deep_zoom_loop c n (cl_quat_sum_d (cl_quat_mult_d z z) c))
            ∧ sample_4D_Mandelbrot_loop c (n + 1) z
              = (if mag_sq (cl_quat_sum_d (cl_quat_mult_d z z) c) > 4 then 0
                else sample_4D_Mandelbrot_loop c n (cl_quat_sum_d (cl_quat_mult_d z z) c))) := by
  refine ⟨?_, ?_, ?_, ?_⟩
  · intro q
    simp only [cl_quat_mult_d, cl_quat.mk.injEq]
    refine ⟨?_, ?_, ?_, ?_⟩ <;> first | exact trivial | ring1
  · intro q1 q2
    simp only [mag_sq, cl_quat_mult_d]
    ring
  · intro sqrt q
    rfl
  · intro c z n
    rw [← julia_step_eq_mult_d]
    exact ⟨rfl, rfl, rfl⟩

/-- C27 (optimized and reference Julia sampler).  With `cl_quat_mult` the
Hamilton product, `cl_quat_sum` the component-wise sum and `cl_quat_mod` the
Euclidean norm, whose square root `sqrtf` exceeds 2 exactly when its argument
exceeds 4, `sample_4D_Julia_optimized` returns the value of `sample_4D_Julia`
for every position and every parameter block. -/
theorem optimized_julia_equals_reference [LinearOrderedField F] (sqrtf : F → F)
    (hsqrt : ∀ x : F, 0 ≤ x → (2 < sqrtf x ↔ 4 < x)) (julia : t_julia F) (pos : float3 F) :
    sample_4D_Julia_optimized julia pos = sample_4D_Julia sqrtf julia pos := by
  simp only [sample_4D_Julia_optimized, sample_4D_Julia,
    sample_4D_Julia_loop_eq sqrtf hsqrt]

/-- Witness of C27: the real square root and the `init_julia` parameters at
the origin. -/
theorem optimized_julia_equals_reference_witness :
    (∀ x : ℝ, 0 ≤ x → (2 < Real.sqrt x ↔ 4 < x))
      ∧ sample_4D_Julia_optimized (init_julia ℝ) (origin ℝ)
          = sample_4D_Julia Real.sqrt (init_julia ℝ) (origin ℝ) :=
  ⟨real_sqrt_escape,
    optimized_julia_equals_reference Real.sqrt real_sqrt_escape (init_julia ℝ) (origin ℝ)⟩

end ParameterTheorems

/-! ## Interpolation geometry and the two triangulators: claims -/

section TriangulatorTheorems

variable {F : Type}

/-- C24, counterexample: between the values 0 and 1/2, both in `[0, 1]`,
`interpolate` returns `p0 + 2 (p1 - p0)`; for `p0 = (0,0,0)` and `p1 = (1,1,1)`
that is `(2,2,2)`, which is `p0 + mu (p1 - p0)` for no `mu` in `[0, 1]`. -/
theorem interpolate_leaves_segment_counterexample :
    (0 : ℚ) ≤ 0 ∧ (0 : ℚ) ≤ 1 ∧ (0 : ℚ) ≤ 1 / 2 ∧ (1 / 2 : ℚ) ≤ 1
      ∧ interpolate (diag ℚ 0) (diag ℚ 1) 0 (1 / 2) = diag ℚ 2
      ∧ ¬ ∃ mu : ℚ, 0 ≤ mu ∧ mu ≤ 1
          ∧ interpolate (diag ℚ 0) (diag ℚ 1) 0 (1 / 2) = line_point (diag ℚ 0) (diag ℚ 1) mu := by
  have hval : interpolate (diag ℚ 0) (diag ℚ 1) 0 (1 / 2) = diag ℚ 2 := by
    simp [interpolate, diag]
  refine ⟨le_refl _, by norm_num, by norm_num, by norm_num, hval, ?_⟩
  rintro ⟨mu, _, h1, h⟩
  rw [hval] at h
  simp only [diag, line_point, float3.mk.injEq] at h
  linarith [h.1]

/-- C24, amended: for values `v0`, `v1` in `[0, 1]`, `interpolate` returns a
point `p0 + mu (p1 - p0)` of the line through `p0` and `p1`.  When `v0 = 1`,
`v1 = 1` or `v1 = v0` the factor is 0 or 1 (the point is `p0` or `p1`);
otherwise the factor is `(1 - v0) / (v1 - v0)`, which is negative for
`v1 < v0` and greater than 1 for `v0 < v1`, and for `p0 ≠ p1` the point is not
on the closed segment from `p0` to `p1`. -/
theorem interpolate_on_line [LinearOrderedField F] (p0 p1 : float3 F) (v0 v1 : F)
    (h0 : 0 ≤ v0 ∧ v0 ≤ 1) (h1 : 0 ≤ v1 ∧ v1 ≤ 1) :
    (v0 = 1 ∨ v1 = 1 ∨ v1 = v0 →
        interpolate p0 p1 v0 v1 = line_point p0 p1 0
          ∨ interpolate p0 p1 v0 v1 = line_point p0 p1 1)
      ∧ (v0 ≠ 1 → v1 ≠ 1 → v1 ≠ v0 →
          interpolate p0 p1 v0 v1 = line_point p0 p1 ((1 - v0) / (v1 - v0))
            ∧ ((v1 < v0 ∧ (1 - v0) / (v1 - v0) < 0) ∨ (v0 < v1 ∧ 1 < (1 - v0) / (v1 - v0)))
            ∧ (p0 ≠ p1 → ¬ ∃ mu : F, 0 ≤ mu ∧ mu ≤ 1
                ∧ interpolate p0 p1 v0 v1 = line_point p0 p1 mu)) := by
  refine ⟨?_, ?_⟩
  · intro h
    rw [line_point_zero, line_point_one]
    by_cases e0 : v0 = 1
    · left; simp [interpolate, e0]
    · by_cases e1 : v1 = 1
      · right; simp [interpolate, e0, e1]
      · have e : v1 = v0 := by
          rcases h with h | h | h
          · exact absurd h e0
          · exact absurd h e1
          · exact h
        left; simp [interpolate, e0, e]
  · intro hn0 hn1 hne
    have hline := interpolate_eq_line_point p0 p1 v0 v1 hn0 hn1 hne
    have hout := interpolation_factor_outside v0 v1 h0.2 h1.2 hn0 hn1 hne
    refine ⟨hline, hout, ?_⟩
    rintro hp ⟨mu, hmu0, hmu1, hmu⟩
    rw [hline] at hmu
    have heq := line_point_injective p0 p1 hp _ _ hmu
    rcases hout with ⟨_, hneg⟩ | ⟨_, hbig⟩
    · rw [heq] at hneg; linarith
    · rw [heq] at hbig; linarith

/-- Witness of C24, amended: the values 0 and 1/2 give the factor 2. -/
theorem interpolate_on_line_witness :
    ((0 : ℚ) ≤ 0 ∧ (0 : ℚ) ≤ 1) ∧ ((0 : ℚ) ≤ 1 / 2 ∧ (1 / 2 : ℚ) ≤ 1)
      ∧ (0 : ℚ) ≠ 1 ∧ (1 / 2 : ℚ) ≠ 1 ∧ (1 / 2 : ℚ) ≠ 0
      ∧ interpolate (diag ℚ 0) (diag ℚ 1) 0 (1 / 2)
          = line_point (diag ℚ 0) (diag ℚ 1) ((1 - 0) / (1 / 2 - 0))
      ∧ (1 - 0) / (1 / 2 - 0) = (2 : ℚ) :=
  ⟨⟨le_refl _, by norm_num⟩, ⟨by norm_num, by norm_num⟩, by norm_num, by norm_num, by norm_num,
    ((interpolate_on_line (diag ℚ 0) (diag ℚ 1) 0 (1 / 2) ⟨le_refl _, by norm_num⟩
      ⟨by norm_num, by norm_num⟩).2 (by norm_num) (by norm_num) (by norm_num)).1,
    by norm_num⟩

/-- C28 (optimized and reference triangulator).  Let the row of the
configuration have its first sentinel among the entries `0, 3, 6, ..` at index
`3k`, and let every entry before it be an edge index whose bit is set in the
edge mask of the configuration.  Then, whatever the contents of the reused
`data->mc_vertlist` and of the list that `get_vertices` allocates,
`polygonise_optimized` returns the same triangle array as `polygonise` and
sets the same `data->len.y`, which is `k` when the edge mask is not zero. -/
theorem polygonise_optimized_equivalent [LinearOrderedField F] (edgetable : Nat → Nat)
    (tritable : Nat → List Int) (fresh_verts : Nat → float3 F) (fresh : Nat → triangle F)
    (v_pos : Nat → float3 F) (v_val : Nat → F) (pos : uint2) (data : t_data_mesh F)
    (k : Nat) (hk : k < 4294967296)
    (hs : (tritable (getCubeIndex v_val pos.x)).getD (3 * k) (-1) = -1)
    (hns : ∀ j, j < k → (tritable (getCubeIndex v_val pos.x)).getD (3 * j) (-1) ≠ -1)
    (hedges : ∀ p, p < 3 * k → ∃ e : Nat, e < 12
      ∧ (tritable (getCubeIndex v_val pos.x)).getD p (-1) = (e : Int)
      ∧ edgetable (getCubeIndex v_val pos.x) &&& 2 ^ e ≠ 0) :
    ∃ (tris : Option (Nat → triangle F)) (d1 d2 : t_data_mesh F),
      polygonise edgetable tritable fresh_verts fresh v_pos v_val pos data = some (tris, d1)
        ∧ polygonise_optimized edgetable tritable fresh v_pos v_val pos data = some (tris, d2)
        ∧ d1.len.y = d2.len.y
        ∧ (edgetable (getCubeIndex v_val pos.x) ≠ 0 → d1.len.y = k) := by
  by_cases hmask : edgetable (getCubeIndex v_val pos.x) = 0
  · obtain ⟨h1, h2⟩ :=
      polygonise_of_mask_zero edgetable tritable fresh_verts fresh v_pos v_val pos data hmask
    exact ⟨none, data, data, h1, h2, rfl, fun h => absurd hmask h⟩
  · have hagree : ∀ p, p < 3 * k →
        get_vertices edgetable fresh_verts (getCubeIndex v_val pos.x) v_pos v_val pos.x
            ((tritable (getCubeIndex v_val pos.x)).getD p (-1)).toNat
          = set_edge_vertices edgetable (getCubeIndex v_val pos.x) v_pos v_val pos.x
              data.mc_vertlist ((tritable (getCubeIndex v_val pos.x)).getD p (-1)).toNat := by
      intro p hp
      obtain ⟨e, he, hrow, hbit⟩ := hedges p hp
      rw [hrow, Int.toNat_natCast, get_vertices,
        set_edge_vertices_of_bit edgetable _ v_pos v_val pos.x fresh_verts e he hbit,
        set_edge_vertices_of_bit edgetable _ v_pos v_val pos.x data.mc_vertlist e he hbit]
    have hcongr := polygonise_loop_congr (tritable (getCubeIndex v_val pos.x)) fresh
      (get_vertices edgetable fresh_verts (getCubeIndex v_val pos.x) v_pos v_val pos.x)
      (set_edge_vertices edgetable (getCubeIndex v_val pos.x) v_pos v_val pos.x data.mc_vertlist)
      k hs hns hagree k 0 (by omega) none { x := 0, y := 0 }
    obtain ⟨ptr, len, hloop, hlen, _⟩ :=
      polygonise_loop_spec (tritable (getCubeIndex v_val pos.x)) fresh
        (get_vertices edgetable fresh_verts (getCubeIndex v_val pos.x) v_pos v_val pos.x)
        k hk hs hns k 0 (by omega) none 0 ⟨fun _ => rfl, fun h => absurd h (lt_irrefl 0)⟩
    simp only [Nat.mul_zero] at hloop hcongr
    have hloop2 := hcongr ▸ hloop
    refine ⟨ptr, with_len_y data len.x,
      with_len_y
        { data with
          mc_vertlist :=
            set_edge_vertices edgetable (getCubeIndex v_val pos.x) v_pos v_val pos.x
              data.mc_vertlist } len.x,
      ?_, ?_, ?_, fun _ => hlen⟩
    · simp only [polygonise, if_neg hmask]
      rw [hloop]
      rfl
    · simp only [polygonise_optimized, if_neg hmask]
      rw [hloop2]
      rfl
    · rfl

/-- Witness of C28: the cube with only corner 0 inside, configuration 1, edge
mask `0x109` and row `0, 8, 3`, with a scratch list that differs from the
freshly allocated one. -/
theorem polygonise_optimized_equivalent_witness :
    (probe_tritable (getCubeIndex (probe_corner_values ℚ) 0)).getD (3 * 1) (-1) = -1
      ∧ ∃ (tris : Option (Nat → triangle ℚ)) (d1 d2 : t_data_mesh ℚ),
        polygonise standard_edgetable probe_tritable (fun i => diag ℚ i)
            (fun _ => probe_triangle ℚ) (fun i => diag ℚ i) (probe_corner_values ℚ)
            { x := 0, y := 0 } { init_data_mesh ℚ with mc_vertlist := fun i => diag ℚ (i + 7) }
          = some (tris, d1)
        ∧ polygonise_optimized standard_edgetable probe_tritable
            (fun _ => probe_triangle ℚ) (fun i => diag ℚ i) (probe_corner_values ℚ)
            { x := 0, y := 0 } { init_data_mesh ℚ with mc_vertlist := fun i => diag ℚ (i + 7) }
          = some (tris, d2)
        ∧ d1.len.y = d2.len.y
        ∧ (standard_edgetable (getCubeIndex (probe_corner_values ℚ) 0) ≠ 0 → d1.len.y = 1) :=
  ⟨by rw [probe_cube_index]; decide,
    polygonise_optimized_equivalent standard_edgetable probe_tritable (fun i => diag ℚ i)
      (fun _ => probe_triangle ℚ) (fun i => diag ℚ i) (probe_corner_values ℚ)
      { x := 0, y := 0 } { init_data_mesh ℚ with mc_vertlist := fun i => diag ℚ (i + 7) } 1
      (by decide)
      (by rw [probe_cube_index]; decide)
      (by intro j hj; obtain rfl : j = 0 := by omega
          rw [probe_cube_index]; decide)
      (by intro p hp
          rw [probe_cube_index]
          interval_cases p
          · exact ⟨0, by decide, by decide, by decide⟩
          · exact ⟨8, by decide, by decide, by decide⟩
          · exact ⟨3, by decide, by decide, by decide⟩)⟩

/-- C30 (edge orientation).  For values `v0`, `v1` of which exactly one is
zero, `interpolate p0 p1 v0 v1 = interpolate p1 p0 v1 v0`: traversing the edge
in the opposite direction gives the same vertex. -/
theorem interpolate_orientation_independent [LinearOrderedField F] (p0 p1 : float3 F)
    (v0 v1 : F) (h : (v0 = 0 ∧ v1 ≠ 0) ∨ (v0 ≠ 0 ∧ v1 = 0)) :
    interpolate p0 p1 v0 v1 = interpolate p1 p0 v1 v0 := by
  rcases h with ⟨h0, h1⟩ | ⟨h0, h1⟩
  · subst h0
    by_cases e1 : v1 = 1
    · subst e1; simp [interpolate]
    · have hd : (0 : F) - v1 ≠ 0 := by simpa using h1
      have hd1 : v1 - 0 ≠ 0 := by simpa using h1
      simp only [interpolate, zero_ne_one, if_false, e1, hd, hd1, float3.mk.injEq]
      exact ⟨crossing_factor_reversed v1 _ _ h1, crossing_factor_reversed v1 _ _ h1,
        crossing_factor_reversed v1 _ _ h1⟩
  · subst h1
    by_cases e0 : v0 = 1
    · subst e0; simp [interpolate]
    · have hd : (0 : F) - v0 ≠ 0 := by simpa using h0
      have hd1 : v0 - 0 ≠ 0 := by simpa using h0
      simp only [interpolate, zero_ne_one, if_false, e0, hd, hd1, float3.mk.injEq]
      exact ⟨(crossing_factor_reversed v0 _ _ h0).symm, (crossing_factor_reversed v0 _ _ h0).symm,
        (crossing_factor_reversed v0 _ _ h0).symm⟩

/-- Witness of C30: the values 0 and 1/2. -/
theorem interpolate_orientation_independent_witness :
    (((0 : ℚ) = 0 ∧ (1 / 2 : ℚ) ≠ 0) ∨ ((0 : ℚ) ≠ 0 ∧ (1 / 2 : ℚ) = 0))
      ∧ interpolate (diag ℚ 0) (diag ℚ 1) 0 (1 / 2) = interpolate (diag ℚ 1) (diag ℚ 0) (1 / 2) 0 :=
  ⟨Or.inl ⟨rfl, by norm_num⟩,
    interpolate_orientation_independent (diag ℚ 0) (diag ℚ 1) 0 (1 / 2)
      (Or.inl ⟨rfl, by norm_num⟩)⟩

end TriangulatorTheorems

end Morphosis
